import Mathlib

/-!
# Parser/myreadline.c : the line reader behind the interactive prompt

A shallow embedding of `my_fgets`, `PyOS_StdioReadline` and `PyOS_Readline` (namespace
`Myreadline`), followed by the status macros and the early command line of
Include/internal/pycore_getopt.h (namespace `Initconfig`) and by `_Py_bit_length` of
Python/pymath.c (namespace `Pymath`).

* Bytes are natural numbers (`0` is NUL, `10` is the line feed).
* A `char *` buffer is a `Block`: the size of the allocation and the bytes written so far.
* `size_t` arithmetic is written with an explicit `% SIZE_MOD`, the cast to `int` is `castInt`.
* Global variables of the C file are fields of `World`; the hook and the installable backend
  are function pointers, modelled by an address that is looked up in a `Callbacks` table.
* What the operating system decides (read faults, allocation failures) is a schedule in `Sys`,
  which also keeps a trace of the calls made, for statements about how often something ran.
-/

namespace Myreadline

/-! ## C scalars -/

/-- Largest value of the C type `int` (32 bits). -/
def INT_MAX : Nat := 2147483647

/-- Arithmetic on `size_t` (64 bits) is modulo this number. -/
def SIZE_MOD : Nat := 18446744073709551616

/-- Value of `errno` after a system call was cut short by a signal. -/
def EINTR : Nat := 4

/-- The cast `(int)x` of a `size_t` value: keep the low 32 bits, read as a signed number. -/
def castInt (x : Nat) : Int :=
  if x % 4294967296 ≤ INT_MAX then ((x % 4294967296 : Nat) : Int)
  else ((x % 4294967296 : Nat) : Int) - 4294967296

/-! ## Memory blocks and C strings -/

/-- An allocated `char` buffer: `cap` is the size asked from the allocator, `mem` the bytes
of the block from its start up to the last byte written (what lies behind is indeterminate). -/
structure Block where
  cap : Nat
  mem : List Nat
deriving DecidableEq, Repr

/-- The C library `strlen`: number of bytes before the first NUL. -/
def strlen : List Nat → Nat
  | [] => 0
  | c :: cs => if c = 0 then 0 else strlen cs + 1

/-- Store `bytes` into memory starting at offset `off`; bytes behind the stored range stay. -/
def store (mem : List Nat) (off : Nat) (bytes : List Nat) : List Nat :=
  mem.take off ++ bytes ++ mem.drop (off + bytes.length)

/-! ## Exceptions and globals -/

/-- The exceptions this file raises. -/
inductive PyErr where
  | MemoryError
  | OverflowError (msg : String)
  | RuntimeError (msg : String)
deriving DecidableEq, Repr

/-- A value of the function pointer `PyOS_ReadlineFunctionPointer`: the built-in reader or a
backend installed by an embedder, named by its address. -/
inductive FnPtr where
  | PyOS_StdioReadline
  | custom (addr : Nat)
deriving DecidableEq, Repr

/-- The global variables of the C file, and the process state its callees can reach. -/
structure World where
  /-- The guard `_PyOS_ReadlineTState`: thread state of the read in progress, `none` is NULL. -/
  _PyOS_ReadlineTState : Option Nat
  /-- The function pointer `PyOS_InputHook`, `none` is NULL. -/
  PyOS_InputHook : Option Nat
  /-- The function pointer `PyOS_ReadlineFunctionPointer`, `none` is NULL. -/
  PyOS_ReadlineFunctionPointer : Option FnPtr
  /-- The pending exception of the interpreter. -/
  curexc : Option PyErr
  /-- The C library `errno`. -/
  errno : Nat
  /-- Bytes written to `stderr` so far. -/
  stderr : List Nat
deriving DecidableEq, Repr

/-- A stdio stream: the bytes not yet read, its two indicators, and whether its descriptor is
a terminal (`isatty (fileno (fp))`). -/
structure FILE where
  data : List Nat
  eof : Bool
  error : Bool
  tty : Bool
deriving DecidableEq, Repr

/-- The C library `clearerr`. -/
def clearerr (fp : FILE) : FILE := { fp with eof := false, error := false }

/-- What the operating system does to one `fgets` call: serve it from the stream, or fail it
with the given `errno` after the call has already taken `stored` bytes of the line from the
stream. `signalled` tells whether a real interrupt is pending at that moment (what
`PyErr_CheckSignals ()` would report). -/
inductive ReadEvent where
  | ok
  | fail (errno : Nat) (signalled : Bool) (stored : Nat)
deriving DecidableEq, Repr

/-- An entry of the call trace. -/
inductive Ev where
  /-- The hook `PyOS_InputHook` was invoked. -/
  | hook (addr : Nat)
  /-- One `fgets` call. -/
  | attempt
  /-- The reader `PyOS_StdioReadline` called `my_fgets (tstate, p + off, (int)size, fp)` on a block of
  `cap` bytes; `len` is the third argument after the cast. -/
  | read (cap off size : Nat) (len : Int)
  /-- The reader `PyOS_StdioReadline` passed the length check and asked for `n + incr` bytes. -/
  | grow (n incr : Nat)
  /-- The function `PyOS_Readline` invoked a backend. -/
  | call (f : FnPtr)
deriving DecidableEq, Repr

/-- The part of the process that neither the hook nor a custom backend can reach: the schedule
of read faults (one entry per `fgets` call, an exhausted schedule means no fault), the
schedule of allocator answers (one entry per `PyMem_Malloc` or `PyMem_Realloc`, `true` is
success, exhausted means success), the number of live blocks, and the call trace. -/
structure Sys where
  reads : List ReadEvent
  allocs : List Bool
  live : Nat
  trace : List Ev
deriving DecidableEq, Repr

/-- What a backend `char *(*)(FILE *, FILE *, const char *)` leaves behind. -/
structure BackendRet where
  rv : Option Block
  w : World
  fp : FILE

/-- The code behind the function pointers: `hook a` is the function at address `a` installed
as `PyOS_InputHook` (type `int (*)(void)`, so it acts on the globals only), `backend a` the
function at address `a` installed as `PyOS_ReadlineFunctionPointer`. -/
structure Callbacks where
  hook : Nat → World → Int × World
  backend : Nat → World → FILE → FILE → Option (List Nat) → BackendRet

/-- Modelled from the spec: `PyErr_SetString` (Python/errors.c is not among the sources):
the call fails with the named error. -/
def PyErr_SetString (w : World) (e : PyErr) : World := { w with curexc := some e }

/-- Modelled from the spec: `PyErr_NoMemory` (Python/errors.c is not among the sources):
memory exhaustion is reported as a failure of the call. -/
def PyErr_NoMemory (w : World) : World := { w with curexc := some PyErr.MemoryError }

/-- Modelled from the spec: `PyMem_Malloc` (Objects/obmalloc.c is not among the sources):
a fresh block of `size` bytes with nothing written, or NULL when memory is exhausted. -/
def PyMem_Malloc (sys : Sys) (size : Nat) : Option Block × Sys :=
  match sys.allocs with
  | [] => (some ⟨size, []⟩, { sys with live := sys.live + 1 })
  | true :: rest => (some ⟨size, []⟩, { sys with allocs := rest, live := sys.live + 1 })
  | false :: rest => (none, { sys with allocs := rest })

/-- Modelled from the spec: `PyMem_Realloc` (Objects/obmalloc.c is not among the sources):
the block resized to `size` bytes with its contents kept up to the new size, or NULL when
memory is exhausted, in which case the old block stays allocated. -/
def PyMem_Realloc (sys : Sys) (p : Block) (size : Nat) : Option Block × Sys :=
  match sys.allocs with
  | [] => (some ⟨size, p.mem.take size⟩, sys)
  | true :: rest => (some ⟨size, p.mem.take size⟩, { sys with allocs := rest })
  | false :: rest => (none, { sys with allocs := rest })

/-- Modelled from the spec: `PyMem_Free` (Objects/obmalloc.c is not among the sources):
the block is released. -/
def PyMem_Free (sys : Sys) : Sys := { sys with live := sys.live - 1 }

/-! ## The C library `fgets` -/

/-- The bytes one `fgets` call transfers when it may store at most `k` of them: the stream up
to and including the first line feed, cut after `k` bytes. -/
def readLine : Nat → List Nat → List Nat
  | 0, _ => []
  | _ + 1, [] => []
  | k + 1, c :: cs => if c = 10 then [c] else c :: readLine k cs

/-- Result of one `fgets` call: `ok` tells whether it returned its buffer rather than NULL. -/
structure FgetsRet where
  ok : Bool
  buf : Block
  fp : FILE
  errno : Nat
deriving DecidableEq, Repr

/-- The bytes a failing `fgets` call has transferred when it may have taken at most `k`:
the stream up to, and not including, the first line feed, cut after `k` bytes. -/
def partialLine : Nat → List Nat → List Nat
  | 0, _ => []
  | _ + 1, [] => []
  | k + 1, c :: cs => if c = 10 then [] else c :: partialLine k cs

/-- The C library `fgets (buf + off, len, fp)` under the event `ev`, with `errno` as it was
before the call. It stores at most `len - 1` bytes and a NUL behind them. At end of file with
nothing read it sets the end-of-file indicator, leaves the buffer alone and returns NULL. A
failed call sets the error indicator and `errno` and returns NULL; the bytes it took before
the failure (fewer than `len - 1`, none of them a line feed, or the call would have
returned them) are gone from the stream and lie in the buffer with no NUL behind them. -/
def fgets (ev : ReadEvent) (errno : Nat) (buf : Block) (off : Nat) (len : Int) (fp : FILE) :
    FgetsRet :=
  match ev with
  | .fail e _ stored =>
    let part := partialLine (min stored ((len - 1).toNat - 1)) fp.data
    ⟨false, { buf with mem := store buf.mem off part },
      { fp with data := fp.data.drop part.length, error := true }, e⟩
  | .ok =>
    if len ≤ 0 then ⟨false, buf, fp, errno⟩
    else
      let chunk := readLine (len - 1).toNat fp.data
      let short := decide (chunk.length < (len - 1).toNat) && (chunk.getLast? != some 10)
      if chunk = [] ∧ short = true then ⟨false, buf, { fp with eof := true }, errno⟩
      else
        ⟨true, { buf with mem := store buf.mem off (chunk ++ [0]) },
          { fp with data := fp.data.drop chunk.length, eof := fp.eof || short }, errno⟩

/-! ## `my_fgets` -/

/-- Result of `my_fgets`: the return code and everything the call changed. -/
structure MyFgetsRet where
  code : Int
  reads : List ReadEvent
  w : World
  trace : List Ev
  buf : Block
  fp : FILE
deriving DecidableEq, Repr

/-- One pass through the body of the loop of `my_fgets` up to the `fgets` call
(lines 27 to 33): the hook, if installed, runs and its value is dropped, `errno` and the
stream indicators are cleared, `fgets` is called. -/
def attempt (x : Callbacks) (ev : ReadEvent) (w : World) (trace : List Ev) (buf : Block)
    (off : Nat) (len : Int) (fp : FILE) : FgetsRet × World × List Ev :=
  let wt : World × List Ev :=
    match w.PyOS_InputHook with
    | some a => ((x.hook a w).2, trace ++ [Ev.hook a])
    | none => (w, trace)
  let w1 : World := { wt.1 with errno := 0 }
  let r := fgets ev w1.errno buf off len (clearerr fp)
  (r, { w1 with errno := r.errno }, wt.2 ++ [Ev.attempt])

/-- The loop of `my_fgets (tstate, buf + off, len, fp)`, lines 26 to 58, by recursion on the
schedule of read faults: the loop runs again only after a failure with `errno == EINTR`, which
uses up one entry of the schedule. Once the schedule is exhausted reads are served from the
stream, `errno` stays 0 and the EINTR branch cannot be taken. -/
def my_fgets_loop (x : Callbacks) (off : Nat) (len : Int) :
    List ReadEvent → World → List Ev → Block → FILE → MyFgetsRet
  | [], w, trace, buf, fp =>
    let a := attempt x ReadEvent.ok w trace buf off len fp
    if a.1.ok then ⟨0, [], a.2.1, a.2.2, a.1.buf, a.1.fp⟩
    else if a.1.fp.eof then ⟨-1, [], a.2.1, a.2.2, a.1.buf, clearerr a.1.fp⟩
    else ⟨-2, [], a.2.1, a.2.2, a.1.buf, a.1.fp⟩
  | ev :: rest, w, trace, buf, fp =>
    let a := attempt x ev w trace buf off len fp
    if a.1.ok then ⟨0, rest, a.2.1, a.2.2, a.1.buf, a.1.fp⟩
    else
      let err := a.2.1.errno
      if a.1.fp.eof then ⟨-1, rest, a.2.1, a.2.2, a.1.buf, clearerr a.1.fp⟩
      else if err = EINTR then
        let s : Int := 0
        if s < 0 then ⟨1, rest, a.2.1, a.2.2, a.1.buf, a.1.fp⟩
        else my_fgets_loop x off len rest a.2.1 a.2.2 a.1.buf a.1.fp
      else ⟨-2, rest, a.2.1, a.2.2, a.1.buf, a.1.fp⟩

/-- Result of `my_fgets` with the schedule put back into `Sys`. -/
structure ReadRet where
  code : Int
  w : World
  sys : Sys
  buf : Block
  fp : FILE
deriving DecidableEq, Repr

/-- The C function `my_fgets (tstate, buf + off, len, fp)`. The argument `tstate` is not
used by the body (its only use is commented out at lines 54 to 56). -/
def my_fgets (x : Callbacks) (w : World) (sys : Sys) (buf : Block) (off : Nat) (len : Int)
    (fp : FILE) : ReadRet :=
  let r := my_fgets_loop x off len sys.reads w sys.trace buf fp
  ⟨r.code, r.w, { sys with reads := r.reads, trace := r.trace }, r.buf, r.fp⟩

/-! ## `PyOS_StdioReadline` -/

/-- What a reader returns: the `char *` (`none` is NULL) and the state left behind. -/
structure Ret where
  rv : Option Block
  w : World
  sys : Sys
  fp : FILE
deriving DecidableEq, Repr

/-- Lines 121 to 127: shrink the block to the content and its NUL, and return it. -/
def readline_finish (w : World) (sys : Sys) (fp : FILE) (p : Block) (n : Nat) : Ret :=
  match PyMem_Realloc sys p ((n + 1) % SIZE_MOD) with
  | (none, sys1) => ⟨none, PyErr_NoMemory w, PyMem_Free sys1, fp⟩
  | (some pr, sys1) => ⟨some pr, w, sys1, fp⟩

/-- The `while` loop of lines 99 to 119 followed by lines 121 to 127. Every pass that goes
round again has read at least one byte, so the loop is unrolled `fuel` times, and
`PyOS_StdioReadline` hands in more fuel than the stream has bytes; `none` means the fuel
ran out. -/
def readline_loop (x : Callbacks) :
    Nat → World → Sys → FILE → Block → Nat → Option Ret
  | 0, _, _, _, _, _ => none
  | fuel + 1, w, sys, fp, p, n =>
    if n > 0 ∧ p.mem.getD (n - 1) 0 ≠ 10 then
      let incr := (n + 2) % SIZE_MOD
      if incr > INT_MAX then
        some ⟨none, PyErr_SetString w (PyErr.OverflowError "input line too long"),
          PyMem_Free sys, fp⟩
      else
        match PyMem_Realloc { sys with trace := sys.trace ++ [Ev.grow n incr] } p
            ((n + incr) % SIZE_MOD) with
        | (none, sys1) => some ⟨none, PyErr_NoMemory w, PyMem_Free sys1, fp⟩
        | (some pr, sys1) =>
          let r := my_fgets x w
            { sys1 with trace := sys1.trace ++ [Ev.read pr.cap n incr (castInt incr)] }
            pr n (castInt incr) fp
          if r.code ≠ 0 then some (readline_finish r.w r.sys r.fp r.buf n)
          else
            readline_loop x fuel r.w r.sys r.fp r.buf
              ((n + strlen (r.buf.mem.drop n)) % SIZE_MOD)
    else some (readline_finish w sys fp p n)

/-- The C function `PyOS_StdioReadline (sys_stdin, sys_stdout, prompt)`. The stream
`sys_stdout` is only flushed. `assert (tstate != NULL)` is compiled out of a release build
and is not modelled; `PyOS_Readline` stores the thread state right before it calls. -/
def PyOS_StdioReadline (x : Callbacks) (w : World) (sys : Sys) (sys_stdin _sys_stdout : FILE)
    (prompt : Option (List Nat)) : Option Ret :=
  let n : Nat := 100
  match PyMem_Malloc sys n with
  | (none, sys1) => some ⟨none, PyErr_NoMemory w, sys1, sys_stdin⟩
  | (some p, sys1) =>
    let w1 : World :=
      match prompt with
      | some s => { w with stderr := w.stderr ++ s }
      | none => w
    let r := my_fgets x w1
      { sys1 with trace := sys1.trace ++ [Ev.read p.cap 0 n (castInt n)] }
      p 0 (castInt n) sys_stdin
    if r.code = 0 then
      readline_loop x (sys_stdin.data.length + 1) r.w r.sys r.fp r.buf (strlen r.buf.mem)
    else if r.code = 1 then
      some ⟨none, r.w, PyMem_Free r.sys, r.fp⟩
    else
      let p1 : Block := { r.buf with mem := store r.buf.mem 0 [0] }
      readline_loop x (sys_stdin.data.length + 1) r.w r.sys r.fp p1 (strlen p1.mem)

/-! ## `PyOS_Readline` -/

/-- A call of the reader `f`, written into the trace: the built-in reader, or the backend
at the address the pointer holds (which sees the globals and the two streams, not `Sys`). -/
def callBackend (x : Callbacks) (f : FnPtr) (w : World) (sys : Sys)
    (sys_stdin sys_stdout : FILE) (prompt : Option (List Nat)) : Option Ret :=
  match f with
  | FnPtr.PyOS_StdioReadline =>
    PyOS_StdioReadline x w { sys with trace := sys.trace ++ [Ev.call f] }
      sys_stdin sys_stdout prompt
  | FnPtr.custom a =>
    let b := x.backend a w sys_stdin sys_stdout prompt
    some ⟨b.rv, b.w, { sys with trace := sys.trace ++ [Ev.call f] }, b.fp⟩

/-- Lines 172 to 187 of `PyOS_Readline`, run on what the backend returned: the guard is
cleared, a NULL is passed on, a string is copied with its NUL into a fresh block of
`strlen (rv) + 1` bytes and the block of the backend is freed. -/
def PyOS_Readline_tail (r : Ret) : Ret :=
  let w3 : World := { r.w with _PyOS_ReadlineTState := none }
  match r.rv with
  | none => ⟨none, w3, r.sys, r.fp⟩
  | some rv =>
    let len := (strlen rv.mem + 1) % SIZE_MOD
    match PyMem_Malloc r.sys len with
    | (some res, sys1) => ⟨some { res with mem := rv.mem.take len }, w3, PyMem_Free sys1, r.fp⟩
    | (none, sys1) => ⟨none, PyErr_NoMemory w3, PyMem_Free sys1, r.fp⟩

/-- The C function `PyOS_Readline (sys_stdin, sys_stdout, prompt)` called by the thread whose
thread state is `tstate` (the value of `PyThreadState_Get ()`, never NULL). A call through
a NULL function pointer has no result; line 156 rules it out. -/
def PyOS_Readline (x : Callbacks) (tstate : Nat) (w : World) (sys : Sys)
    (sys_stdin sys_stdout : FILE) (prompt : Option (List Nat)) : Option Ret :=
  if w._PyOS_ReadlineTState = some tstate then
    some ⟨none, PyErr_SetString w (PyErr.RuntimeError "can't re-enter readline"), sys,
      sys_stdin⟩
  else
    let w1 : World :=
      if w.PyOS_ReadlineFunctionPointer = none then
        { w with PyOS_ReadlineFunctionPointer := some FnPtr.PyOS_StdioReadline }
      else w
    let w2 : World := { w1 with _PyOS_ReadlineTState := some tstate }
    let called : Option Ret :=
      if !sys_stdin.tty || !sys_stdout.tty then
        callBackend x FnPtr.PyOS_StdioReadline w2 sys sys_stdin sys_stdout prompt
      else
        match w2.PyOS_ReadlineFunctionPointer with
        | none => none
        | some f => callBackend x f w2 sys sys_stdin sys_stdout prompt
    match called with
    | none => none
    | some r => some (PyOS_Readline_tail r)

/-! ## Notions used to state the properties -/

/-- The first line of a stream: its bytes up to and including the first line feed, or all
of them when there is none. -/
def firstLine : List Nat → List Nat
  | [] => []
  | c :: cs => if c = 10 then [c] else c :: firstLine cs

/-- What is left to read of the line whose first bytes `acc` are in the buffer. -/
def lineRest (acc d : List Nat) : List Nat :=
  if acc.getLast? = some 10 then [] else firstLine d

/-- The length checks on the way to a line of `total` bytes all pass: the growth steps are
taken at the content lengths n, 2n+1, 4n+3, ... below `total`, and once more with all
`total` bytes read when the line has no terminator. -/
def GrowthFits (n total : Nat) (term : Prop) : Prop :=
  (∀ j, 2 ^ j * (n + 1) < total + 1 → 2 ^ j * (n + 1) + 1 ≤ INT_MAX) ∧
  (¬ term → total + 2 ≤ INT_MAX)

/-- A line passes every length check of `PyOS_StdioReadline`: it is at least two bytes
shorter than `INT_MAX`, or it ends in a line feed and has at most 100 * 2 ^ 25 - 1 bytes
(growth steps are taken at the content lengths 99, 199, 399, ..., 100 * 2 ^ k - 1, and
the step at 100 * 2 ^ 25 - 1 is the first one refused). -/
def LineFits (line : List Nat) : Prop :=
  line.length + 2 ≤ INT_MAX ∨ (line.getLast? = some 10 ∧ line.length ≤ 3355443199)

/-- The backends invoked according to a trace, oldest first. -/
def callsOf : List Ev → List FnPtr
  | [] => []
  | Ev.call f :: tr => f :: callsOf tr
  | _ :: tr => callsOf tr

/-- The number of growth steps in a trace. -/
def growths : List Ev → Nat
  | [] => 0
  | Ev.grow _ _ :: tr => growths tr + 1
  | _ :: tr => growths tr

/-- The first `k` lines of a stream, each with its line feed; once the stream is used up
the lines are empty. -/
def takeLines : Nat → List Nat → List (List Nat)
  | 0, _ => []
  | k + 1, d => firstLine d :: takeLines k (d.drop (firstLine d).length)

/-- The bytes of a list of lines, one after the other. -/
def joinLines : List (List Nat) → List Nat
  | [] => []
  | l :: ls => l ++ joinLines ls

/-- The block a reader returns for the line `l`: the bytes of `l` and a NUL, in an
allocation of exactly that size. -/
def lineBlock (l : List Nat) : Option Block := some ⟨l.length + 1, l ++ [0]⟩

/-- Result of `k` successive calls of `PyOS_StdioReadline`: what each call returned, and
the state after the last one. -/
structure Calls where
  rvs : List (Option Block)
  w : World
  sys : Sys
  fp : FILE
deriving DecidableEq, Repr

/-- The reader called `k` times in a row on the same stream, each call starting in the
state the one before left. -/
def readlines (x : Callbacks) (sys_stdout : FILE) (prompt : Option (List Nat)) :
    Nat → World → Sys → FILE → Option Calls
  | 0, w, sys, fp => some ⟨[], w, sys, fp⟩
  | k + 1, w, sys, fp =>
    match PyOS_StdioReadline x w sys fp sys_stdout prompt with
    | none => none
    | some r =>
      match readlines x sys_stdout prompt k r.w r.sys r.fp with
      | none => none
      | some c => some ⟨r.rv :: c.rvs, c.w, c.sys, c.fp⟩

/-! ## Concrete inputs -/

/-- Callbacks that do nothing: the hook returns 0, a custom backend returns NULL. -/
def idleCallbacks : Callbacks :=
  ⟨fun _ w => (0, w), fun _ w fp _ _ => ⟨none, w, fp⟩⟩

/-- Callbacks whose custom backend, at every address, returns the string "ok" and a line
feed in a block of 8 bytes, with two bytes of old data behind the NUL. -/
def echoCallbacks : Callbacks :=
  ⟨fun _ w => (0, w), fun _ w fp _ _ => ⟨some ⟨8, [111, 107, 10, 0, 55, 55]⟩, w, fp⟩⟩

/-- Three lines of 99, 100 and 101 bytes, line feed included, around the first buffer
size 100. -/
def boundaryStream : List Nat :=
  List.replicate 98 97 ++ [10] ++ (List.replicate 99 98 ++ [10]) ++
    (List.replicate 100 99 ++ [10])

/-- Globals as `PyOS_Readline` leaves them for a backend called by thread 1: the guard
records thread 1, nothing else is set. -/
def readingWorld : World := ⟨some 1, none, none, none, 0, []⟩

/-- Globals at program start: every pointer is NULL, no exception is pending. -/
def freshWorld : World := ⟨none, none, none, none, 0, []⟩

/-- Globals with a custom backend installed at address 7 and no read in progress. -/
def customWorld : World := ⟨none, none, some (FnPtr.custom 7), none, 0, []⟩

/-- Globals while thread 2 is reading: the guard records thread 2. -/
def otherThreadWorld : World := ⟨some 2, none, none, none, 0, []⟩

/-- No read fault, no allocation failure, nothing allocated, empty trace. -/
def calmSys : Sys := ⟨[], [], 0, []⟩

/-- A stream over the given bytes that is not a terminal. -/
def pipe (d : List Nat) : FILE := ⟨d, false, false, false⟩

/-- A stream over the given bytes that is a terminal. -/
def terminal (d : List Nat) : FILE := ⟨d, false, false, true⟩

/-- The scenario stream: the line "hello", then a line of 250 bytes "a", each with its
line feed. -/
def scenarioStream : List Nat :=
  [104, 101, 108, 108, 111, 10] ++ (List.replicate 250 97 ++ [10])

/-- Callbacks whose custom backend, at every address, sets `PyOS_ReadlineFunctionPointer`
to NULL and returns NULL; the hook does nothing. -/
def forgetfulCallbacks : Callbacks :=
  ⟨fun _ w => (0, w),
   fun _ w fp _ _ => ⟨none, { w with PyOS_ReadlineFunctionPointer := none }, fp⟩⟩

/-- One arrival at the test of the `while` loop of `PyOS_StdioReadline` (line 99): the
content length `n`, the size `cap` of the block at that moment, and whether the test
asks for growth (the content is not empty and does not end in a line feed). -/
structure Head where
  n : Nat
  cap : Nat
  grow : Bool
deriving DecidableEq, Repr

/-- The arrivals at the test of line 99, in order, for a run of `readline_loop` from the
same state: the recursion is that of `readline_loop`, and every arrival is written down. -/
def loopHeads (x : Callbacks) :
    Nat → World → Sys → FILE → Block → Nat → List Head
  | 0, _, _, _, _, _ => []
  | fuel + 1, w, sys, fp, p, n =>
    if n > 0 ∧ p.mem.getD (n - 1) 0 ≠ 10 then
      let incr := (n + 2) % SIZE_MOD
      if incr > INT_MAX then [⟨n, p.cap, true⟩]
      else
        match PyMem_Realloc { sys with trace := sys.trace ++ [Ev.grow n incr] } p
            ((n + incr) % SIZE_MOD) with
        | (none, _) => [⟨n, p.cap, true⟩]
        | (some pr, sys1) =>
          let r := my_fgets x w
            { sys1 with trace := sys1.trace ++ [Ev.read pr.cap n incr (castInt incr)] }
            pr n (castInt incr) fp
          if r.code ≠ 0 then [⟨n, p.cap, true⟩, ⟨n, r.buf.cap, false⟩]
          else
            ⟨n, p.cap, true⟩ :: loopHeads x fuel r.w r.sys r.fp r.buf
              ((n + strlen (r.buf.mem.drop n)) % SIZE_MOD)
    else [⟨n, p.cap, false⟩]

/-- The arrivals at the test of line 99 during a call of `PyOS_StdioReadline` from the
given state: none when the first allocation fails, else those of the loop entered after
the first read. -/
def readlineHeads (x : Callbacks) (w : World) (sys : Sys) (sys_stdin : FILE)
    (prompt : Option (List Nat)) : List Head :=
  let n : Nat := 100
  match PyMem_Malloc sys n with
  | (none, _) => []
  | (some p, sys1) =>
    let w1 : World :=
      match prompt with
      | some s => { w with stderr := w.stderr ++ s }
      | none => w
    let r := my_fgets x w1
      { sys1 with trace := sys1.trace ++ [Ev.read p.cap 0 n (castInt n)] }
      p 0 (castInt n) sys_stdin
    if r.code = 0 then
      loopHeads x (sys_stdin.data.length + 1) r.w r.sys r.fp r.buf (strlen r.buf.mem)
    else if r.code = 1 then []
    else
      let p1 : Block := { r.buf with mem := store r.buf.mem 0 [0] }
      loopHeads x (sys_stdin.data.length + 1) r.w r.sys r.fp p1 (strlen p1.mem)

/-- The content lengths at which growth was asked for. -/
def growthAt (hs : List Head) : List Nat :=
  (hs.filter (fun h => h.grow)).map (fun h => h.n)

/-- The content lengths of the growth steps taken, as the trace records them. -/
def grownAt : List Ev → List Nat
  | [] => []
  | Ev.grow n _ :: tr => n :: grownAt tr
  | _ :: tr => grownAt tr

/-- A trace entry of the reader respects the block it works on: a read of `size` bytes
at offset `off` lies inside the `cap` bytes of the block, with `off` itself inside, and
`size` survives the cast to `int`; a growth step asks for `n + incr` bytes with
`incr = n + 2` and neither the sum nor the cast goes out of range. -/
def SafeEv : Ev → Prop
  | Ev.read cap off size len =>
    off < cap ∧ off + size ≤ cap ∧ size ≤ INT_MAX ∧ len = (size : Int)
  | Ev.grow n incr => incr = n + 2 ∧ incr ≤ INT_MAX ∧ n + incr < SIZE_MOD
  | _ => True

/-- No failing read of the schedule has taken bytes from the stream before it failed. -/
def CleanFaults (reads : List ReadEvent) : Prop :=
  ∀ e ∈ reads, ∀ er s j, e = ReadEvent.fail er s j → j = 0

/-- What failed `fgets` calls at offset `off` can have done to a buffer and a stream: the
block keeps its size and its bytes before `off`, it holds no fewer bytes than before, and
the stream has lost some of its first bytes. -/
def Disturbed (off : Nat) (buf : Block) (data : List Nat) (buf1 : Block)
    (data1 : List Nat) : Prop :=
  buf1.cap = buf.cap ∧ buf1.mem.take off = buf.mem.take off ∧
    buf.mem.length ≤ buf1.mem.length ∧ ∃ j, data1 = data.drop j

end Myreadline

namespace Initconfig

/-! ## PyStatus: the macros of Include/internal/pycore_getopt.h -/

/-- Modelled from the spec: the tag of a `PyStatus`, the enumeration of
`_PyStatus_TYPE_OK`, `_PyStatus_TYPE_ERROR` and `_PyStatus_TYPE_EXIT` (declared in
Include/cpython/initconfig.h, which is not among the sources): one value for each of the
variants Ok, Error and Exit. -/
inductive StatusType where
  | _PyStatus_TYPE_OK
  | _PyStatus_TYPE_ERROR
  | _PyStatus_TYPE_EXIT
deriving DecidableEq, Repr

/-- Modelled from the spec: the struct `PyStatus` (declared in
Include/cpython/initconfig.h, which is not among the sources), with the fields the macros
name: the tag, the originating function and the message of an Error (`none` is NULL), and
the code of an Exit. -/
structure PyStatus where
  _type : StatusType
  func : Option String
  err_msg : Option String
  exitcode : Int
deriving DecidableEq, Repr

/-- The macro `_PyStatus_OK ()`, line 43: the tag is set, the other fields are 0. -/
def _PyStatus_OK : PyStatus :=
  { _type := StatusType._PyStatus_TYPE_OK, func := none, err_msg := none, exitcode := 0 }

/-- The macro `_PyStatus_ERR (ERR_MSG)`, line 46, expanded in the function named `func`
(the value of `_PyStatus_GET_FUNC ()`). -/
def _PyStatus_ERR (func : String) (ERR_MSG : Option String) : PyStatus :=
  { _type := StatusType._PyStatus_TYPE_ERROR, func := some func, err_msg := ERR_MSG,
    exitcode := 0 }

/-- The macro `_PyStatus_NO_MEMORY ()`, line 52. -/
def _PyStatus_NO_MEMORY (func : String) : PyStatus :=
  _PyStatus_ERR func (some "memory allocation failed")

/-- The macro `_PyStatus_EXIT (EXITCODE)`, line 53. -/
def _PyStatus_EXIT (EXITCODE : Int) : PyStatus :=
  { _type := StatusType._PyStatus_TYPE_EXIT, func := none, err_msg := none,
    exitcode := EXITCODE }

/-- The macro `_PyStatus_IS_ERROR (err)`, line 57. -/
def _PyStatus_IS_ERROR (err : PyStatus) : Bool :=
  err._type == StatusType._PyStatus_TYPE_ERROR

/-- The macro `_PyStatus_IS_EXIT (err)`, line 59. -/
def _PyStatus_IS_EXIT (err : PyStatus) : Bool :=
  err._type == StatusType._PyStatus_TYPE_EXIT

/-- The macro `_PyStatus_EXCEPTION (err)`, line 61. -/
def _PyStatus_EXCEPTION (err : PyStatus) : Bool :=
  err._type != StatusType._PyStatus_TYPE_OK

/-- The macro `_PyStatus_UPDATE_FUNC (err)`, line 63, expanded in the function `func`. -/
def _PyStatus_UPDATE_FUNC (err : PyStatus) (func : String) : PyStatus :=
  { err with func := some func }

/-- A status is Ok when its tag is `_PyStatus_TYPE_OK`; the header has no macro for it. -/
def isOK (err : PyStatus) : Bool :=
  err._type == StatusType._PyStatus_TYPE_OK

/-- Exactly one of three tests holds. -/
def exactlyOne (a b c : Bool) : Prop :=
  (a = true ∧ b = false ∧ c = false) ∨ (a = false ∧ b = true ∧ c = false) ∨
    (a = false ∧ b = false ∧ c = true)

/-! ## The early command line -/

/-- The struct `_PyPreCmdline`, lines 110 to 116: the arguments, the `-X` options, and the
three tri-state flags (-1 is unset). -/
structure _PyPreCmdline where
  argv : List String
  xoptions : List String
  isolated : Int
  use_environment : Int
  dev_mode : Int
deriving DecidableEq, Repr

/-- The macro `_PyPreCmdline_INIT`, line 118: the three flags are unset, the other fields
are 0 or NULL. -/
def _PyPreCmdline_INIT : _PyPreCmdline :=
  { argv := [], xoptions := [], isolated := -1, use_environment := -1, dev_mode := -1 }

/-- Modelled from the spec: the part of the struct `PyPreConfig` (declared in
Include/cpython/initconfig.h, which is not among the sources) that the early command line
starts from: the compiled-in defaults of the three flags, -1 for a flag left unset. -/
structure PyPreConfig where
  isolated : Int
  use_environment : Int
  dev_mode : Int
deriving DecidableEq, Repr

/-- Modelled from the spec: the part of the struct `PyConfig` (declared in
Include/cpython/initconfig.h, which is not among the sources) that
`_PyPreCmdline_SetConfig` writes: the three flags, resolved. -/
structure PyConfig where
  isolated : Int
  use_environment : Int
  dev_mode : Int
deriving DecidableEq, Repr

/-- Modelled from the spec: what the process environment gives for each of the three
flags once its variables are read leniently: a value, or -1 when the variable is absent
or malformed. -/
structure Environment where
  isolated : Int
  use_environment : Int
  dev_mode : Int
deriving DecidableEq, Repr

/-- Modelled from the spec: `readPreliminary`, the scan of the arguments for the early
flags without full option parsing (Python/preconfig.c is not among the sources): `-I`
sets `isolated`, `-E` clears `use_environment`, `-X value` records the option and
`-X dev` sets `dev_mode`; every other argument is passed over. It starts from `c`. -/
def readPreliminary : List String → _PyPreCmdline → _PyPreCmdline
  | [], c => c
  | [a], c =>
    if a = "-I" then { c with isolated := 1 }
    else if a = "-E" then { c with use_environment := 0 }
    else c
  | a :: v :: rest, c =>
    if a = "-I" then readPreliminary (v :: rest) { c with isolated := 1 }
    else if a = "-E" then readPreliminary (v :: rest) { c with use_environment := 0 }
    else if a = "-X" then
      readPreliminary rest
        { c with xoptions := c.xoptions ++ [v],
                 dev_mode := if v = "dev" then 1 else c.dev_mode }
    else readPreliminary (v :: rest) c

/-- Modelled from the spec: `applyEnvironment` (Python/preconfig.c is not among the
sources): when `useEnvironment` is true every flag the environment gives a value for takes
that value; when it is false the step does nothing. -/
def applyEnvironment (cfg : _PyPreCmdline) (env : Environment) (useEnvironment : Bool) :
    _PyPreCmdline :=
  if useEnvironment then
    { cfg with
      isolated := if env.isolated = -1 then cfg.isolated else env.isolated,
      use_environment :=
        if env.use_environment = -1 then cfg.use_environment else env.use_environment,
      dev_mode := if env.dev_mode = -1 then cfg.dev_mode else env.dev_mode }
  else cfg

/-- Modelled from the spec: `applyArguments` (Python/preconfig.c is not among the
sources), for the three early flags: every field set on the command line is overwritten
with the value given there, the others are kept. -/
def applyArguments (cfg : _PyPreCmdline) (args : List String) : _PyPreCmdline :=
  readPreliminary args cfg

/-- Modelled from the spec: `finalize` (Python/preconfig.c is not among the sources): a
flag still unset is resolved to false, and isolated mode forces `use_environment` to
false. -/
def finalize (cfg : _PyPreCmdline) : _PyPreCmdline :=
  let isolated : Int := if cfg.isolated < 0 then 0 else cfg.isolated
  { cfg with
    isolated := isolated,
    use_environment :=
      if isolated > 0 then 0 else if cfg.use_environment < 0 then 0 else cfg.use_environment,
    dev_mode := if cfg.dev_mode < 0 then 0 else cfg.dev_mode }

/-- Modelled from the spec: `_PyPreCmdline_Read (cmdline, preconfig)` (declared at line
131, defined in Python/preconfig.c, which is not among the sources), with the process
environment as an argument. The layers are merged in the fixed order: the defaults of
`preconfig`, then the environment unless the command line or the defaults suppress it
(`-E`, isolated mode), then the arguments of `cmdline`. -/
def _PyPreCmdline_Read (cmdline : _PyPreCmdline) (preconfig : PyPreConfig)
    (env : Environment) : PyStatus × _PyPreCmdline :=
  let defaults : _PyPreCmdline :=
    { cmdline with
      isolated := preconfig.isolated,
      use_environment := preconfig.use_environment,
      dev_mode := preconfig.dev_mode }
  let pre := readPreliminary cmdline.argv defaults
  let useEnvironment : Bool := decide (pre.isolated ≤ 0) && decide (pre.use_environment ≠ 0)
  let cfg1 := applyEnvironment defaults env useEnvironment
  (_PyStatus_OK, applyArguments cfg1 cmdline.argv)

/-- Modelled from the spec: `_PyPreCmdline_SetConfig (cmdline, config)` (declared at line
128, defined in Python/preconfig.c, which is not among the sources): the flags of the
command line, finalized, are written into the configuration. -/
def _PyPreCmdline_SetConfig (cmdline : _PyPreCmdline) (config : PyConfig) :
    PyStatus × PyConfig :=
  let f := finalize cmdline
  (_PyStatus_OK,
    { config with
      isolated := f.isolated, use_environment := f.use_environment, dev_mode := f.dev_mode })

/-- The three flags that both the environment and the command line can set. -/
inductive Flag where
  | isolated
  | use_environment
  | dev_mode
deriving DecidableEq, Repr

/-- The value of a flag in a `_PyPreCmdline`. -/
def cmdlineFlag (f : Flag) (c : _PyPreCmdline) : Int :=
  match f with
  | Flag.isolated => c.isolated
  | Flag.use_environment => c.use_environment
  | Flag.dev_mode => c.dev_mode

/-- The value of a flag in the final configuration. -/
def configFlag (f : Flag) (c : PyConfig) : Int :=
  match f with
  | Flag.isolated => c.isolated
  | Flag.use_environment => c.use_environment
  | Flag.dev_mode => c.dev_mode

/-- What the command line alone gives: the scan of the arguments from the unset flags of
`_PyPreCmdline_INIT`; a flag the command line does not set stays -1. -/
def givenOnCommandLine (args : List String) : _PyPreCmdline :=
  readPreliminary args _PyPreCmdline_INIT

end Initconfig

namespace Pymath

/-- Values of type `unsigned long` are below 2^64. -/
def ULONG_MOD : Nat := 18446744073709551616

/-- Values of type `unsigned int` are taken modulo 2^32. -/
def UINT_MOD : Nat := 4294967296

/-- The table `BitLengthTable`, lines 3 to 6. -/
def BitLengthTable : List Nat :=
  [0, 1, 2, 2, 3, 3, 3, 3, 4, 4, 4, 4, 4, 4, 4, 4,
   5, 5, 5, 5, 5, 5, 5, 5, 5, 5, 5, 5, 5, 5, 5, 5]

/-- The `while` loop of lines 10 to 13 on `d` and `d_bits`, unrolled `fuel` times; it
gives the two variables as the loop leaves them, `none` when the fuel ran out. -/
def _Py_bit_length_loop : Nat → Nat → Nat → Option (Nat × Nat)
  | 0, _, _ => none
  | fuel + 1, d, d_bits =>
    if d ≥ 32 then _Py_bit_length_loop fuel (d / 64) ((d_bits + 6) % UINT_MOD)
    else some (d, d_bits)

/-- The C function `_Py_bit_length (d)`. Every pass of the loop shifts six bits out of the
64 of an `unsigned long`, so 64 passes are more than the loop can make; a table index
out of range has no result. -/
def _Py_bit_length (d : Nat) : Option Nat :=
  match _Py_bit_length_loop 64 d 0 with
  | none => none
  | some (d1, d_bits) =>
    match BitLengthTable[d1]? with
    | none => none
    | some t => some ((d_bits + t) % UINT_MOD)

end Pymath

namespace Myreadline

/-! # Theorems -/

set_option maxRecDepth 100000

/-! ## Lists, lines and C strings -/

theorem readLine_append_drop (k : Nat) (d : List Nat) :
    readLine k d ++ d.drop (readLine k d).length = d := by
  induction k generalizing d with
  | zero => simp [readLine]
  | succ k ih =>
    cases d with
    | nil => simp [readLine]
    | cons c cs =>
      by_cases h : c = 10
      · simp [readLine, h]
      · simp [readLine, h, ih]

theorem readLine_length_le (k : Nat) (d : List Nat) : (readLine k d).length ≤ k := by
  induction k generalizing d with
  | zero => simp [readLine]
  | succ k ih =>
    cases d with
    | nil => simp [readLine]
    | cons c cs =>
      by_cases h : c = 10
      · simp [readLine, h]
      · simp [readLine, h, ih]

theorem readLine_eq_nil (k : Nat) (d : List Nat) (h : readLine k d = []) : k = 0 ∨ d = [] := by
  cases k with
  | zero => exact Or.inl rfl
  | succ k =>
    cases d with
    | nil => exact Or.inr rfl
    | cons c cs =>
      by_cases hc : c = 10 <;> simp [readLine, hc] at h

theorem strlen_le_length (m : List Nat) : strlen m ≤ m.length := by
  induction m with
  | nil => simp [strlen]
  | cons c cs ih =>
    by_cases h : c = 0
    · simp [strlen, h]
    · simp [strlen, h, ih]

theorem strlen_append_zero (a t : List Nat) : strlen (a ++ 0 :: t) = strlen (a ++ [0]) := by
  induction a with
  | nil => simp [strlen]
  | cons c cs ih =>
    by_cases h : c = 0
    · simp [strlen, h]
    · simp [strlen, h, ih]

theorem strlen_nonul (a t : List Nat) (h : ∀ c ∈ a, c ≠ 0) : strlen (a ++ 0 :: t) = a.length := by
  induction a with
  | nil => simp [strlen]
  | cons c cs ih =>
    have hc : c ≠ 0 := h c (by simp)
    have := ih (fun c hc => h c (by simp [hc]))
    simp [strlen, hc, this]

/-- The bytes in front of the first NUL are exactly the first `strlen` bytes. -/
theorem strlen_take_append (m t : List Nat) (h : strlen m < m.length) :
    strlen (m.take (strlen m) ++ t) = strlen m + strlen t := by
  induction m with
  | nil => simp [strlen] at h
  | cons c cs ih =>
    by_cases hc : c = 0
    · simp [strlen, hc]
    · simp only [strlen, hc, if_false] at h ⊢
      have := ih (by simpa using h)
      simp [strlen, hc, this]; omega

theorem length_take_strlen (m : List Nat) : (m.take (strlen m)).length = strlen m := by
  simp [strlen_le_length]

theorem getD_strlen (m : List Nat) (h : strlen m < m.length) : m.getD (strlen m) 1 = 0 := by
  induction m with
  | nil => simp [strlen] at h
  | cons c cs ih =>
    by_cases hc : c = 0
    · simp [strlen, hc]
    · simp only [strlen, hc, if_false] at h ⊢
      have := ih (by simpa using h)
      simpa using this

/-! ## What `fgets` and `my_fgets` do -/

theorem fgets_ok_true (ev : ReadEvent) (e : Nat) (buf : Block) (off : Nat) (len : Int)
    (fp : FILE) (h : (fgets ev e buf off len fp).ok = true) :
    0 < len ∧
    (fgets ev e buf off len fp).buf =
      { buf with mem := store buf.mem off (readLine (len - 1).toNat fp.data ++ [0]) } ∧
    (fgets ev e buf off len fp).fp.data =
      fp.data.drop (readLine (len - 1).toNat fp.data).length ∧
    (readLine (len - 1).toNat fp.data ≠ [] ∨ len = 1) := by
  cases ev with
  | fail e2 s j => simp [fgets] at h
  | ok =>
    by_cases hl : len ≤ 0
    · simp [fgets, hl] at h
    · simp only [fgets, hl, if_false] at h ⊢
      split at h
      · simp at h
      · rename_i hc
        rw [if_neg hc]
        refine ⟨by omega, rfl, rfl, ?_⟩
        by_cases hn : readLine (len - 1).toNat fp.data = []
        · right
          rw [hn] at hc
          simp at hc
          omega
        · exact Or.inl hn

/-- A served `fgets` call that returns NULL (end of file, or no room) transfers nothing. -/
theorem fgets_ok_false (e : Nat) (buf : Block) (off : Nat) (len : Int)
    (fp : FILE) (h : (fgets ReadEvent.ok e buf off len fp).ok = false) :
    (fgets ReadEvent.ok e buf off len fp).buf = buf ∧
    (fgets ReadEvent.ok e buf off len fp).fp.data = fp.data := by
  by_cases hl : len ≤ 0
  · simp [fgets, hl]
  · simp only [fgets, hl, if_false] at h ⊢
    split at h
    · rename_i hc
      rw [if_pos hc]
      simp
    · simp at h

theorem store_nil (mem : List Nat) (off : Nat) : store mem off [] = mem := by
  simp [store]

theorem store_take (mem : List Nat) (off : Nat) (bytes : List Nat) (h : off ≤ mem.length) :
    (store mem off bytes).take off = mem.take off := by
  unfold store
  rw [List.append_assoc, List.take_append_eq_append_take]
  have hl : (List.take off mem).length = off := by simp [h]
  rw [hl, Nat.sub_self, List.take_zero, List.append_nil, List.take_take, Nat.min_self]

theorem store_length (mem : List Nat) (off : Nat) (bytes : List Nat) (h : off ≤ mem.length) :
    mem.length ≤ (store mem off bytes).length := by
  unfold store
  simp only [List.length_append, List.length_take, List.length_drop]
  omega

theorem Disturbed_refl (off : Nat) (buf : Block) (data : List Nat) :
    Disturbed off buf data buf data :=
  ⟨rfl, rfl, le_refl _, 0, rfl⟩

theorem Disturbed_trans (off : Nat) (b1 b2 b3 : Block) (d1 d2 d3 : List Nat)
    (h12 : Disturbed off b1 d1 b2 d2) (h23 : Disturbed off b2 d2 b3 d3) :
    Disturbed off b1 d1 b3 d3 := by
  obtain ⟨c1, t1, l1, j1, e1⟩ := h12
  obtain ⟨c2, t2, l2, j2, e2⟩ := h23
  refine ⟨c2.trans c1, t2.trans t1, le_trans l1 l2, j1 + j2, ?_⟩
  rw [e2, e1, List.drop_drop, Nat.add_comm]

/-- A `fgets` call that returns NULL leaves the block size and the bytes before its
write position alone; what it took from the stream is gone. -/
theorem fgets_null (ev : ReadEvent) (e : Nat) (buf : Block) (off : Nat) (len : Int)
    (fp : FILE) (hoff : off ≤ buf.mem.length)
    (h : (fgets ev e buf off len fp).ok = false) :
    Disturbed off buf fp.data (fgets ev e buf off len fp).buf
      (fgets ev e buf off len fp).fp.data := by
  cases ev with
  | ok =>
    obtain ⟨h1, h2⟩ := fgets_ok_false e buf off len fp h
    rw [h1, h2]
    exact Disturbed_refl off buf fp.data
  | fail e2 s j =>
    exact ⟨rfl, store_take _ _ _ hoff, store_length _ _ _ hoff, _, rfl⟩

theorem fgets_tty (ev : ReadEvent) (e : Nat) (buf : Block) (off : Nat) (len : Int)
    (fp : FILE) : (fgets ev e buf off len fp).fp.tty = fp.tty := by
  cases ev with
  | fail e2 s j => simp [fgets]
  | ok =>
    simp only [fgets]
    split
    · rfl
    · split <;> rfl

theorem fgets_cap (ev : ReadEvent) (e : Nat) (buf : Block) (off : Nat) (len : Int)
    (fp : FILE) : (fgets ev e buf off len fp).buf.cap = buf.cap := by
  cases ev with
  | fail e2 s j => simp [fgets]
  | ok =>
    simp only [fgets]
    split
    · rfl
    · split <;> rfl

theorem attempt_fst (x : Callbacks) (ev : ReadEvent) (w : World) (tr : List Ev) (buf : Block)
    (off : Nat) (len : Int) (fp : FILE) :
    (attempt x ev w tr buf off len fp).1 = fgets ev 0 buf off len (clearerr fp) := rfl

/-- What `my_fgets` can return and what it then did to the buffer and the stream: the
attempts that failed left the buffer and the stream `Disturbed`; on 0 the last attempt
stored its line and a NUL from there, on -1 and -2 that is the state returned. -/
theorem my_fgets_loop_spec (x : Callbacks) (off : Nat) (len : Int) (reads : List ReadEvent) :
    ∀ (w : World) (tr : List Ev) (buf : Block) (fp : FILE) (r : MyFgetsRet),
    off ≤ buf.mem.length →
    my_fgets_loop x off len reads w tr buf fp = r →
    ∃ buf1 d1, Disturbed off buf fp.data buf1 d1 ∧
      ((r.code = 0 ∧ 0 < len ∧
        r.buf = { buf1 with mem := store buf1.mem off (readLine (len - 1).toNat d1 ++ [0]) } ∧
        r.fp.data = d1.drop (readLine (len - 1).toNat d1).length ∧
        (readLine (len - 1).toNat d1 ≠ [] ∨ len = 1)) ∨
      ((r.code = -1 ∨ r.code = -2) ∧ r.buf = buf1 ∧ r.fp.data = d1)) := by
  induction reads with
  | nil =>
    intro w tr buf fp r hoff hr
    simp only [my_fgets_loop, attempt_fst] at hr
    split at hr
    · rename_i h
      subst hr
      exact ⟨buf, fp.data, Disturbed_refl _ _ _, Or.inl ⟨rfl, fgets_ok_true _ _ _ _ _ _ h⟩⟩
    · rename_i h
      have hf := fgets_null _ _ _ _ _ (clearerr fp) hoff (by simpa using h)
      split at hr
      · subst hr
        exact ⟨_, _, hf, Or.inr ⟨Or.inl rfl, rfl, rfl⟩⟩
      · subst hr
        exact ⟨_, _, hf, Or.inr ⟨Or.inr rfl, rfl, rfl⟩⟩
  | cons ev rest ih =>
    intro w tr buf fp r hoff hr
    simp only [my_fgets_loop, attempt_fst] at hr
    split at hr
    · rename_i h
      subst hr
      exact ⟨buf, fp.data, Disturbed_refl _ _ _, Or.inl ⟨rfl, fgets_ok_true _ _ _ _ _ _ h⟩⟩
    · rename_i h
      have hf := fgets_null _ _ _ _ _ (clearerr fp) hoff (by simpa using h)
      split at hr
      · subst hr
        exact ⟨_, _, hf, Or.inr ⟨Or.inl rfl, rfl, rfl⟩⟩
      · split at hr
        · have hs : ¬ ((0 : Int) < 0) := by decide
          rw [if_neg hs] at hr
          obtain ⟨buf1, d1, hd, hcase⟩ := ih _ _ _ _ r (le_trans hoff hf.2.2.1) hr
          exact ⟨buf1, d1, Disturbed_trans _ _ _ _ _ _ _ hf hd, hcase⟩
        · subst hr
          exact ⟨_, _, hf, Or.inr ⟨Or.inr rfl, rfl, rfl⟩⟩

theorem my_fgets_spec (x : Callbacks) (w : World) (sys : Sys) (buf : Block) (off : Nat)
    (len : Int) (fp : FILE) (r : ReadRet) (hoff : off ≤ buf.mem.length)
    (hr : my_fgets x w sys buf off len fp = r) :
    r.sys.allocs = sys.allocs ∧ r.sys.live = sys.live ∧
    ∃ buf1 d1, Disturbed off buf fp.data buf1 d1 ∧
      ((r.code = 0 ∧ 0 < len ∧
        r.buf = { buf1 with mem := store buf1.mem off (readLine (len - 1).toNat d1 ++ [0]) } ∧
        r.fp.data = d1.drop (readLine (len - 1).toNat d1).length ∧
        (readLine (len - 1).toNat d1 ≠ [] ∨ len = 1)) ∨
      ((r.code = -1 ∨ r.code = -2) ∧ r.buf = buf1 ∧ r.fp.data = d1)) := by
  subst hr
  exact ⟨rfl, rfl, my_fgets_loop_spec x off len sys.reads w sys.trace buf fp _ hoff rfl⟩

/-- The codes `my_fgets` can return: 0, -1 and -2. -/
theorem my_fgets_loop_codes (x : Callbacks) (off : Nat) (len : Int) (reads : List ReadEvent) :
    ∀ (w : World) (tr : List Ev) (buf : Block) (fp : FILE),
    (my_fgets_loop x off len reads w tr buf fp).code = 0 ∨
    (my_fgets_loop x off len reads w tr buf fp).code = -1 ∨
    (my_fgets_loop x off len reads w tr buf fp).code = -2 := by
  induction reads with
  | nil =>
    intro w tr buf fp
    simp only [my_fgets_loop]
    split
    · exact Or.inl rfl
    · split
      · exact Or.inr (Or.inl rfl)
      · exact Or.inr (Or.inr rfl)
  | cons ev rest ih =>
    intro w tr buf fp
    simp only [my_fgets_loop]
    split
    · exact Or.inl rfl
    · split
      · exact Or.inr (Or.inl rfl)
      · split
        · have hs : ¬ ((0 : Int) < 0) := by decide
          rw [if_neg hs]
          exact ih _ _ _ _
        · exact Or.inr (Or.inr rfl)

theorem fgets_fail_clean (e : Nat) (s : Bool) (errno : Nat) (buf : Block) (off : Nat)
    (len : Int) (fp : FILE) :
    (fgets (ReadEvent.fail e s 0) errno buf off len fp).buf = buf ∧
    (fgets (ReadEvent.fail e s 0) errno buf off len fp).fp.data = fp.data := by
  simp [fgets, partialLine, store_nil]

theorem fgets_null_clean (ev : ReadEvent) (e : Nat) (buf : Block) (off : Nat) (len : Int)
    (fp : FILE) (hclean : ∀ er s j, ev = ReadEvent.fail er s j → j = 0)
    (h : (fgets ev e buf off len fp).ok = false) :
    (fgets ev e buf off len fp).buf = buf ∧ (fgets ev e buf off len fp).fp.data = fp.data := by
  cases ev with
  | ok => exact fgets_ok_false e buf off len fp h
  | fail e2 s j =>
    have : j = 0 := hclean e2 s j rfl
    subst this
    exact fgets_fail_clean e2 s e buf off len fp

/-- When no failing read has taken bytes, a call of `my_fgets` that does not return 0
leaves the buffer and the stream as they were, and one that returns 0 has stored the
line it read from the stream as it was. -/
theorem my_fgets_loop_clean (x : Callbacks) (off : Nat) (len : Int) (reads : List ReadEvent) :
    ∀ (w : World) (tr : List Ev) (buf : Block) (fp : FILE) (r : MyFgetsRet),
    CleanFaults reads →
    my_fgets_loop x off len reads w tr buf fp = r →
    CleanFaults r.reads ∧
    ((r.code = 0 ∧ 0 < len ∧
      r.buf = { buf with mem := store buf.mem off (readLine (len - 1).toNat fp.data ++ [0]) } ∧
      r.fp.data = fp.data.drop (readLine (len - 1).toNat fp.data).length ∧
      (readLine (len - 1).toNat fp.data ≠ [] ∨ len = 1)) ∨
    ((r.code = -1 ∨ r.code = -2) ∧ r.buf = buf ∧ r.fp.data = fp.data)) := by
  induction reads with
  | nil =>
    intro w tr buf fp r hcl hr
    simp only [my_fgets_loop, attempt_fst] at hr
    split at hr
    · rename_i h
      subst hr
      exact ⟨hcl, Or.inl ⟨rfl, fgets_ok_true _ _ _ _ _ _ h⟩⟩
    · rename_i h
      have hf := fgets_ok_false _ _ _ _ _ (by simpa using h)
      split at hr
      · subst hr
        exact ⟨hcl, Or.inr ⟨Or.inl rfl, hf.1, by simpa [clearerr] using hf.2⟩⟩
      · subst hr
        exact ⟨hcl, Or.inr ⟨Or.inr rfl, hf.1, by simpa [clearerr] using hf.2⟩⟩
  | cons ev rest ih =>
    intro w tr buf fp r hcl hr
    have hrest : CleanFaults rest := fun e he => hcl e (List.mem_cons_of_mem _ he)
    have hev : ∀ er s j, ev = ReadEvent.fail er s j → j = 0 := hcl ev (List.mem_cons_self _ _)
    simp only [my_fgets_loop, attempt_fst] at hr
    split at hr
    · rename_i h
      subst hr
      exact ⟨hrest, Or.inl ⟨rfl, fgets_ok_true _ _ _ _ _ _ h⟩⟩
    · rename_i h
      have hf := fgets_null_clean ev _ _ _ _ (clearerr fp) hev (by simpa using h)
      split at hr
      · subst hr
        exact ⟨hrest, Or.inr ⟨Or.inl rfl, hf.1, by simpa [clearerr] using hf.2⟩⟩
      · split at hr
        · have hs : ¬ ((0 : Int) < 0) := by decide
          rw [if_neg hs] at hr
          have := ih _ _ _ _ r hrest hr
          rw [hf.1, hf.2] at this
          simpa [clearerr] using this
        · subst hr
          exact ⟨hrest, Or.inr ⟨Or.inr rfl, hf.1, by simpa [clearerr] using hf.2⟩⟩

theorem my_fgets_clean (x : Callbacks) (w : World) (sys : Sys) (buf : Block) (off : Nat)
    (len : Int) (fp : FILE) (r : ReadRet) (hcl : CleanFaults sys.reads)
    (hr : my_fgets x w sys buf off len fp = r) :
    CleanFaults r.sys.reads ∧
    ((r.code = 0 ∧ 0 < len ∧
      r.buf = { buf with mem := store buf.mem off (readLine (len - 1).toNat fp.data ++ [0]) } ∧
      r.fp.data = fp.data.drop (readLine (len - 1).toNat fp.data).length ∧
      (readLine (len - 1).toNat fp.data ≠ [] ∨ len = 1)) ∨
    ((r.code = -1 ∨ r.code = -2) ∧ r.buf = buf ∧ r.fp.data = fp.data)) := by
  subst hr
  exact my_fgets_loop_clean x off len sys.reads w sys.trace buf fp _ hcl rfl

theorem PyMem_Realloc_cases (sys : Sys) (p : Block) (size : Nat) :
    ∃ sys1, (PyMem_Realloc sys p size = (none, sys1) ∨
        PyMem_Realloc sys p size = (some ⟨size, p.mem.take size⟩, sys1)) ∧
      sys1.reads = sys.reads ∧ sys1.trace = sys.trace ∧ sys1.live = sys.live ∧
      ∀ b ∈ sys1.allocs, b ∈ sys.allocs := by
  unfold PyMem_Realloc
  cases h : sys.allocs with
  | nil => exact ⟨sys, Or.inr rfl, rfl, rfl, rfl, by simp [h]⟩
  | cons b rest =>
    cases b with
    | true => exact ⟨_, Or.inr rfl, rfl, rfl, rfl, by simp⟩
    | false => exact ⟨_, Or.inl rfl, rfl, rfl, rfl, by simp⟩

theorem PyMem_Realloc_ok (sys : Sys) (p : Block) (size : Nat) (h : ∀ b ∈ sys.allocs, b = true) :
    ∃ sys1, PyMem_Realloc sys p size = (some ⟨size, p.mem.take size⟩, sys1) ∧
      sys1.reads = sys.reads ∧ sys1.trace = sys.trace ∧ sys1.live = sys.live ∧
      ∀ b ∈ sys1.allocs, b = true := by
  unfold PyMem_Realloc
  cases hs : sys.allocs with
  | nil => exact ⟨sys, rfl, rfl, rfl, rfl, by simp [hs]⟩
  | cons b rest =>
    have hb : b = true := h b (by simp [hs])
    subst hb
    exact ⟨_, rfl, rfl, rfl, rfl, fun b hb => h b (by simp [hs, hb])⟩

/-- A list with a NUL splits at its first NUL. -/
theorem split_at_nul (l t : List Nat) :
    ∃ a t2, l ++ 0 :: t = a ++ 0 :: t2 ∧ (∀ c ∈ a, c ≠ 0) ∧ strlen (l ++ 0 :: t) = a.length ∧
      a.length ≤ l.length := by
  induction l with
  | nil => exact ⟨[], t, rfl, by simp, by simp [strlen], by simp⟩
  | cons c cs ih =>
    by_cases hc : c = 0
    · exact ⟨[], cs ++ 0 :: t, by simp [hc], by simp, by simp [strlen, hc], by simp⟩
    · obtain ⟨a, t2, h1, h2, h3, h4⟩ := ih
      refine ⟨c :: a, t2, by simp [h1], ?_, by simp [strlen, hc, h3], by simpa using h4⟩
      intro d hd
      rcases List.mem_cons.1 hd with rfl | hd
      · exact hc
      · exact h2 d hd

theorem store_at_end (acc t bytes : List Nat) :
    store (acc ++ 0 :: t) acc.length bytes = acc ++ bytes ++ (0 :: t).drop bytes.length := by
  simp [store, List.take_append_eq_append_take, List.drop_append_eq_append_drop]

theorem readline_finish_spec (w : World) (sys : Sys) (fp : FILE) (p : Block) (acc t : List Nat)
    (hp : p.mem = acc ++ 0 :: t) (hn : acc.length + 1 < SIZE_MOD) :
    (readline_finish w sys fp p acc.length).fp = fp ∧
    ∀ b, (readline_finish w sys fp p acc.length).rv = some b →
      b = ⟨acc.length + 1, acc ++ [0]⟩ ∧ (readline_finish w sys fp p acc.length).w = w := by
  have hm : (acc.length + 1) % SIZE_MOD = acc.length + 1 := Nat.mod_eq_of_lt hn
  obtain ⟨sys1, h1, -⟩ := PyMem_Realloc_cases sys p (acc.length + 1)
  unfold readline_finish
  rw [hm]
  rcases h1 with h1 | h1
  · rw [h1]; simp
  · rw [h1]
    have : List.take (acc.length + 1) (acc ++ 0 :: t) = acc ++ [0] := by
      simp [List.take_append_eq_append_take]
    simp [hp, this]

/-! ## The loop of `PyOS_StdioReadline` returns, and what it returns is bounded -/

theorem castInt_of_le (n : Nat) (h : n ≤ INT_MAX) : castInt n = (n : Int) := by
  unfold castInt
  have : n % 4294967296 = n := Nat.mod_eq_of_lt (by unfold INT_MAX at h; omega)
  rw [this, if_pos h]

theorem readLine_length_le_data (k : Nat) (d : List Nat) : (readLine k d).length ≤ d.length := by
  have h := congrArg List.length (readLine_append_drop k d)
  simp at h
  omega

theorem readline_finish_block (w : World) (sys : Sys) (fp : FILE) (p : Block) (n : Nat)
    (b : Block) (hb : (readline_finish w sys fp p n).rv = some b) :
    b = ⟨(n + 1) % SIZE_MOD, p.mem.take ((n + 1) % SIZE_MOD)⟩ := by
  obtain ⟨sys1, h1, -⟩ := PyMem_Realloc_cases sys p ((n + 1) % SIZE_MOD)
  unfold readline_finish at hb
  rcases h1 with h1 | h1
  · rw [h1] at hb; simp at hb
  · rw [h1] at hb
    simp only [Option.some.injEq] at hb
    exact hb.symm

theorem store_from_take (mem acc bytes : List Nat) (h : mem.take acc.length = acc) :
    store mem acc.length bytes = acc ++ bytes ++ mem.drop (acc.length + bytes.length) := by
  unfold store
  rw [h]

/-- A read that returns 0 at the end of the content `acc` leaves the content, what it
read up to the first NUL, and a NUL. -/
theorem growth_read_ok (acc : List Nat) (mem : List Nat) (chunk : List Nat)
    (h : mem.take acc.length = acc) :
    ∃ a t2, store mem acc.length (chunk ++ [0]) = (acc ++ a) ++ 0 :: t2 ∧
      (∀ c ∈ a, c ≠ 0) ∧ a.length ≤ chunk.length ∧
      strlen ((store mem acc.length (chunk ++ [0])).drop acc.length) = a.length ∧
      ((∀ c ∈ chunk, c ≠ 0) → a = chunk) := by
  obtain ⟨a, t2, e1, e2, e3, e4⟩ := split_at_nul chunk
    (mem.drop (acc.length + (chunk ++ [0]).length))
  have hst : store mem acc.length (chunk ++ [0]) = (acc ++ a) ++ 0 :: t2 := by
    rw [store_from_take mem acc _ h]
    simp only [List.append_assoc, List.singleton_append] at e1 ⊢
    rw [e1]
  refine ⟨a, t2, hst, e2, e4, ?_, ?_⟩
  · rw [hst, List.append_assoc, List.drop_left]
    exact strlen_nonul a t2 e2
  · intro hnul
    have h1 : strlen (chunk ++ 0 :: mem.drop (acc.length + (chunk ++ [0]).length))
        = chunk.length := strlen_nonul chunk _ hnul
    have hlen : a.length = chunk.length := by rw [← e3, h1]
    have := congrArg (List.take a.length) e1
    rw [List.take_left, hlen, List.take_left] at this
    exact this.symm

/-- The loop of `PyOS_StdioReadline` returns for every input, and a returned block has at
most `2 * INT_MAX - 2` bytes; when no failing read has taken bytes from the stream, the
block holds a NUL-terminated string and nothing else. -/
theorem readline_loop_total (x : Callbacks) :
    ∀ (fuel : Nat) (w : World) (sys : Sys) (fp : FILE) (p : Block) (acc t : List Nat),
    fp.data.length < fuel → p.mem = acc ++ 0 :: t → (∀ c ∈ acc, c ≠ 0) →
    acc.length ≤ 2 * INT_MAX - 3 →
    ∃ r, readline_loop x fuel w sys fp p acc.length = some r ∧
      (∀ b, r.rv = some b → b.mem.length ≤ b.cap ∧ b.cap ≤ 2 * INT_MAX - 2) ∧
      (CleanFaults sys.reads → ∀ b, r.rv = some b →
        ∃ a, b = ⟨a.length + 1, a ++ [0]⟩ ∧ (∀ c ∈ a, c ≠ 0) ∧
          a.length ≤ 2 * INT_MAX - 3) := by
  intro fuel
  induction fuel with
  | zero => intro w sys fp p acc t hfuel; omega
  | succ fuel ih =>
    intro w sys fp p acc t hfuel hp hnul hn
    have hsz : acc.length + 1 < SIZE_MOD := by
      unfold INT_MAX at hn; unfold SIZE_MOD; omega
    have hmod1 : (acc.length + 1) % SIZE_MOD = acc.length + 1 := Nat.mod_eq_of_lt hsz
    have hfin : ∀ (w : World) (sys : Sys) (fp : FILE) (p : Block),
        ∀ b, (readline_finish w sys fp p acc.length).rv = some b →
        b.mem.length ≤ b.cap ∧ b.cap ≤ 2 * INT_MAX - 2 := by
      intro w sys fp p b hb
      have := readline_finish_block w sys fp p acc.length b hb
      rw [hmod1] at this
      subst this
      refine ⟨?_, ?_⟩
      · simp only [List.length_take]; omega
      · simp only []; unfold INT_MAX at hn ⊢; omega
    have hfin2 : ∀ (w : World) (sys : Sys) (fp : FILE) (p : Block) (t : List Nat),
        p.mem = acc ++ 0 :: t →
        ∀ b, (readline_finish w sys fp p acc.length).rv = some b →
        ∃ a, b = ⟨a.length + 1, a ++ [0]⟩ ∧ (∀ c ∈ a, c ≠ 0) ∧ a.length ≤ 2 * INT_MAX - 3 := by
      intro w sys fp p t hp b hb
      have := (readline_finish_spec w sys fp p acc t hp hsz).2 b hb
      exact ⟨acc, this.1, hnul, hn⟩
    rw [readline_loop]
    by_cases hc : acc.length > 0 ∧ p.mem.getD (acc.length - 1) 0 ≠ 10
    · rw [if_pos hc]
      have hmod : (acc.length + 2) % SIZE_MOD = acc.length + 2 :=
        Nat.mod_eq_of_lt (by unfold INT_MAX at hn; unfold SIZE_MOD; omega)
      simp only [hmod]
      by_cases ho : acc.length + 2 > INT_MAX
      · rw [if_pos ho]; exact ⟨_, rfl, by simp, by simp⟩
      · rw [if_neg ho]
        have hmod2 : (acc.length + (acc.length + 2)) % SIZE_MOD = acc.length + (acc.length + 2) :=
          Nat.mod_eq_of_lt (by unfold INT_MAX at hn; unfold SIZE_MOD; omega)
        obtain ⟨sys1, h1, hreads1, -⟩ := PyMem_Realloc_cases
          { sys with trace := sys.trace ++ [Ev.grow acc.length (acc.length + 2)] } p
          (acc.length + (acc.length + 2))
        simp only [] at hreads1
        rw [hmod2]
        rcases h1 with h1 | h1
        · rw [h1]; exact ⟨_, rfl, by simp, by simp⟩
        · rw [h1]
          simp only []
          have hcast : castInt (acc.length + 2) = ((acc.length + 2 : Nat) : Int) :=
            castInt_of_le _ (by omega)
          rw [hcast]
          have hpr : List.take (acc.length + (acc.length + 2)) p.mem
              = acc ++ 0 :: List.take (acc.length + 1) t := by
            rw [hp, List.take_append_eq_append_take]
            have e1 : acc.length + (acc.length + 2) - acc.length = (acc.length + 1) + 1 := by omega
            rw [e1, List.take_of_length_le (by omega), List.take_succ_cons]
          generalize hr : my_fgets x w _ _ acc.length _ fp = r
          obtain ⟨-, -, buf1, d1, ⟨-, htake, -, j, hd1⟩, hcase⟩ :=
            my_fgets_spec _ _ _ _ _ _ _ r (by simp only [hpr]; simp) hr
          have hclean := fun hcl => my_fgets_clean _ _ _ _ _ _ _ r (by exact hcl) hr
          simp only [hreads1] at hclean
          simp only [hpr] at htake
          rw [List.take_left] at htake
          rcases hcase with ⟨h0, -, hbuf, hdata, hne⟩ | ⟨hcode, -, -⟩
          · have h0' : ¬ r.code ≠ 0 := by simp [h0]
            rw [if_neg h0']
            have hk : (((acc.length + 2 : Nat) : Int) - 1).toNat = acc.length + 1 := by omega
            rw [hk] at hbuf hdata hne
            have hne' : readLine (acc.length + 1) d1 ≠ [] := by
              rcases hne with h | h
              · exact h
              · omega
            obtain ⟨a, t2, e1, e2, e3, e4, -⟩ :=
              growth_read_ok acc buf1.mem (readLine (acc.length + 1) d1) htake
            have hmem : r.buf.mem = (acc ++ a) ++ 0 :: t2 := by rw [hbuf]; exact e1
            have hlen := readLine_length_le (acc.length + 1) d1
            have hs : strlen (r.buf.mem.drop acc.length) = a.length := by rw [hbuf]; exact e4
            rw [hs]
            have hmod3 : (acc.length + a.length) % SIZE_MOD = acc.length + a.length :=
              Nat.mod_eq_of_lt (by unfold INT_MAX at hn ho; unfold SIZE_MOD; omega)
            rw [hmod3]
            have hl : (acc ++ a).length = acc.length + a.length := by simp
            rw [← hl]
            obtain ⟨r2, hr2, hb2, hc2⟩ := ih r.w r.sys r.fp r.buf (acc ++ a) t2
              (by
                have hdl : d1.length ≤ fp.data.length := by
                  rw [hd1, List.length_drop]; omega
                have hpos : 0 < (readLine (acc.length + 1) d1).length :=
                  List.length_pos.2 hne'
                have hle := readLine_length_le_data (acc.length + 1) d1
                rw [hdata, List.length_drop]
                omega)
              hmem
              (by
                intro c hc
                rcases List.mem_append.1 hc with h | h
                · exact hnul c h
                · exact e2 c h)
              (by rw [hl]; unfold INT_MAX at ho ⊢; omega)
            exact ⟨r2, hr2, hb2, fun hcl => hc2 (hclean hcl).1⟩
          · have h0' : r.code ≠ 0 := by rcases hcode with h | h <;> simp [h]
            rw [if_pos h0']
            refine ⟨_, rfl, hfin r.w r.sys r.fp r.buf, ?_⟩
            intro hcl
            rcases (hclean hcl).2 with ⟨h0, -⟩ | ⟨-, hbuf, -⟩
            · exact absurd h0 h0'
            · apply hfin2 r.w r.sys r.fp r.buf (List.take (acc.length + 1) t)
              rw [hbuf]
              exact hpr
    · rw [if_neg hc]
      exact ⟨_, rfl, hfin w sys fp p, fun _ => hfin2 w sys fp p t hp⟩

theorem PyMem_Malloc_cases (sys : Sys) (size : Nat) :
    ∃ sys1, (PyMem_Malloc sys size = (none, sys1) ∨
        PyMem_Malloc sys size = (some ⟨size, []⟩, sys1)) ∧
      sys1.reads = sys.reads ∧ sys1.trace = sys.trace ∧
      ∀ b ∈ sys1.allocs, b ∈ sys.allocs := by
  unfold PyMem_Malloc
  cases h : sys.allocs with
  | nil => exact ⟨_, Or.inr rfl, rfl, rfl, by simp [h]⟩
  | cons b rest =>
    cases b with
    | true => exact ⟨_, Or.inr rfl, rfl, rfl, by simp⟩
    | false => exact ⟨_, Or.inl rfl, rfl, rfl, by simp⟩

theorem PyMem_Malloc_ok (sys : Sys) (size : Nat) (h : ∀ b ∈ sys.allocs, b = true) :
    ∃ sys1, PyMem_Malloc sys size = (some ⟨size, []⟩, sys1) ∧
      sys1.reads = sys.reads ∧ sys1.trace = sys.trace ∧ sys1.live = sys.live + 1 ∧
      ∀ b ∈ sys1.allocs, b = true := by
  unfold PyMem_Malloc
  cases hs : sys.allocs with
  | nil => exact ⟨_, rfl, rfl, rfl, rfl, by simp [hs]⟩
  | cons b rest =>
    have hb : b = true := h b (by simp [hs])
    subst hb
    exact ⟨_, rfl, rfl, rfl, rfl, fun b hb => h b (by simp [hs, hb])⟩

theorem castInt_100 : castInt 100 = 100 := by decide

/-- The reader `PyOS_StdioReadline` returns for every input (the fuel of its loop never
runs out), and a returned block has at most `2 * INT_MAX - 2` bytes; when no failing read
has taken bytes from the stream, the block holds a NUL-terminated string and nothing
else. -/
theorem PyOS_StdioReadline_total (x : Callbacks) (w : World) (sys : Sys)
    (sys_stdin sys_stdout : FILE) (prompt : Option (List Nat)) :
    ∃ r, PyOS_StdioReadline x w sys sys_stdin sys_stdout prompt = some r ∧
      (∀ b, r.rv = some b → b.mem.length ≤ b.cap ∧ b.cap ≤ 2 * INT_MAX - 2) ∧
      (CleanFaults sys.reads → ∀ b, r.rv = some b →
        ∃ a, b = ⟨a.length + 1, a ++ [0]⟩ ∧ (∀ c ∈ a, c ≠ 0) ∧
          a.length ≤ 2 * INT_MAX - 3) := by
  unfold PyOS_StdioReadline
  obtain ⟨sys1, h1, hreads1, -⟩ := PyMem_Malloc_cases sys 100
  simp only []
  rcases h1 with h1 | h1
  · rw [h1]; exact ⟨_, rfl, by simp, by simp⟩
  · rw [h1]
    simp only [castInt_100]
    generalize hr : my_fgets x _ _ _ 0 100 sys_stdin = r
    obtain ⟨-, -, buf1, d1, ⟨-, -, -, j, hd1⟩, hcase⟩ :=
      my_fgets_spec _ _ _ _ _ _ _ r (Nat.zero_le _) hr
    have hclean := fun hcl => (my_fgets_clean _ _ _ _ _ _ _ r (by exact hcl) hr).1
    simp only [hreads1] at hclean
    have hdl : d1.length ≤ sys_stdin.data.length := by
      rw [hd1, List.length_drop]; omega
    rcases hcase with ⟨h0, -, hbuf, hdata, -⟩ | ⟨hcode, -, hdata⟩
    · rw [if_pos h0]
      have hk : ((100 : Int) - 1).toNat = 99 := by decide
      rw [hk] at hbuf hdata
      obtain ⟨a, t2, e1, e2, e3, e4, -⟩ :=
        growth_read_ok [] buf1.mem (readLine 99 d1) (by simp)
      simp only [List.length_nil, List.nil_append, List.drop_zero] at e1 e4
      have hmem : r.buf.mem = a ++ 0 :: t2 := by rw [hbuf]; exact e1
      have hs : strlen r.buf.mem = a.length := by rw [hbuf]; exact e4
      rw [hs]
      have hlen := readLine_length_le 99 d1
      obtain ⟨r2, hr2, hb2, hc2⟩ := readline_loop_total x (sys_stdin.data.length + 1)
        r.w r.sys r.fp r.buf a t2 (by rw [hdata, List.length_drop]; omega) hmem e2
        (by unfold INT_MAX; omega)
      exact ⟨r2, hr2, hb2, fun hcl => hc2 (hclean hcl)⟩
    · have h0 : ¬ r.code = 0 := by rcases hcode with h | h <;> simp [h]
      have h1 : ¬ r.code = 1 := by rcases hcode with h | h <;> simp [h]
      rw [if_neg h0, if_neg h1]
      have hmem : store r.buf.mem 0 [0] = ([] : List Nat) ++ 0 :: r.buf.mem.drop 1 := by
        simp [store]
      have hs : strlen (store r.buf.mem 0 [0]) = ([] : List Nat).length := by
        rw [hmem]; simp [strlen]
      rw [hs]
      obtain ⟨r2, hr2, hb2, hc2⟩ := readline_loop_total x (sys_stdin.data.length + 1)
        r.w r.sys r.fp { r.buf with mem := store r.buf.mem 0 [0] } [] (r.buf.mem.drop 1)
        (by rw [hdata]; omega) hmem (by simp) (by unfold INT_MAX; simp)
      exact ⟨r2, hr2, hb2, fun hcl => hc2 (hclean hcl)⟩

/-! ## Reads without faults -/

theorem fgets_data (buf : Block) (off : Nat) (k : Nat) (fp : FILE) (h : fp.data ≠ []) :
    (fgets ReadEvent.ok 0 buf off ((k + 2 : Nat) : Int) fp).ok = true := by
  have hl : ¬ (((k + 2 : Nat) : Int) ≤ 0) := by omega
  have hk : (((k + 2 : Nat) : Int) - 1).toNat = k + 1 := by omega
  simp only [fgets, hl, if_false, hk]
  have hne : readLine (k + 1) fp.data ≠ [] := by
    intro hc
    rcases readLine_eq_nil _ _ hc with h1 | h1
    · omega
    · exact h h1
  simp [hne]

theorem fgets_eof (buf : Block) (off : Nat) (k : Nat) (fp : FILE) (h : fp.data = []) :
    (fgets ReadEvent.ok 0 buf off ((k + 2 : Nat) : Int) fp).ok = false ∧
    (fgets ReadEvent.ok 0 buf off ((k + 2 : Nat) : Int) fp).fp.eof = true := by
  have hl : ¬ (((k + 2 : Nat) : Int) ≤ 0) := by omega
  have hk : (((k + 2 : Nat) : Int) - 1).toNat = k + 1 := by omega
  simp only [fgets, hl, if_false, hk, h, readLine]
  have hc : (True ∧
      (decide (([] : List Nat).length < k + 1) && (([] : List Nat).getLast? != some 10)) = true) := by
    refine ⟨trivial, ?_⟩
    simp
  rw [if_pos hc]
  exact ⟨rfl, rfl⟩

/-- Without read faults `my_fgets` makes one `fgets` call: it reports data when the stream
has some and end of file when it has none. -/
theorem my_fgets_loop_nofault (x : Callbacks) (off : Nat) (k : Nat) (reads : List ReadEvent)
    (w : World) (tr : List Ev) (buf : Block) (fp : FILE) (hnf : ∀ e ∈ reads, e = ReadEvent.ok) :
    (∀ e ∈ (my_fgets_loop x off ((k + 2 : Nat) : Int) reads w tr buf fp).reads,
      e = ReadEvent.ok) ∧
    (fp.data ≠ [] → (my_fgets_loop x off ((k + 2 : Nat) : Int) reads w tr buf fp).code = 0) ∧
    (fp.data = [] → (my_fgets_loop x off ((k + 2 : Nat) : Int) reads w tr buf fp).code = -1) := by
  have hclr : (clearerr fp).data = fp.data := rfl
  cases reads with
  | nil =>
    simp only [my_fgets_loop, attempt_fst]
    refine ⟨?_, ?_, ?_⟩
    · split
      · simp
      · split <;> simp
    · intro hd
      rw [if_pos (fgets_data buf off k (clearerr fp) (by rw [hclr]; exact hd))]
    · intro hd
      have := fgets_eof buf off k (clearerr fp) (by rw [hclr]; exact hd)
      rw [this.1, this.2]
      rfl
  | cons ev rest =>
    have hev : ev = ReadEvent.ok := hnf ev (by simp)
    subst hev
    have hrest : ∀ e ∈ rest, e = ReadEvent.ok := fun e he => hnf e (by simp [he])
    simp only [my_fgets_loop, attempt_fst]
    refine ⟨?_, ?_, ?_⟩
    · by_cases hd : fp.data = []
      · have := fgets_eof buf off k (clearerr fp) (by rw [hclr]; exact hd)
        rw [this.1, this.2]
        exact hrest
      · rw [if_pos (fgets_data buf off k (clearerr fp) (by rw [hclr]; exact hd))]
        exact hrest
    · intro hd
      rw [if_pos (fgets_data buf off k (clearerr fp) (by rw [hclr]; exact hd))]
    · intro hd
      have := fgets_eof buf off k (clearerr fp) (by rw [hclr]; exact hd)
      rw [this.1, this.2]
      rfl

/-- An attempt that is not faulted has a definitive outcome: data when the stream has
some, end of file when it has none. -/
theorem my_fgets_loop_served (x : Callbacks) (off k : Nat) (rest : List ReadEvent)
    (w : World) (tr : List Ev) (buf : Block) (fp : FILE)
    (hhead : rest = [] ∨ ∃ t, rest = ReadEvent.ok :: t) :
    (fp.data ≠ [] →
      (my_fgets_loop x off ((k + 2 : Nat) : Int) rest w tr buf fp).code = 0 ∧
      (my_fgets_loop x off ((k + 2 : Nat) : Int) rest w tr buf fp).buf
        = { buf with mem := store buf.mem off (readLine (k + 1) fp.data ++ [0]) } ∧
      (my_fgets_loop x off ((k + 2 : Nat) : Int) rest w tr buf fp).fp.data
        = fp.data.drop (readLine (k + 1) fp.data).length) ∧
    (fp.data = [] →
      (my_fgets_loop x off ((k + 2 : Nat) : Int) rest w tr buf fp).code = -1 ∧
      (my_fgets_loop x off ((k + 2 : Nat) : Int) rest w tr buf fp).buf = buf ∧
      (my_fgets_loop x off ((k + 2 : Nat) : Int) rest w tr buf fp).fp.data = []) := by
  have hclr : (clearerr fp).data = fp.data := rfl
  have hk : (((k + 2 : Nat) : Int) - 1).toNat = k + 1 := by omega
  constructor
  · intro hd
    have hok := fgets_data buf off k (clearerr fp) (by rw [hclr]; exact hd)
    have ht := fgets_ok_true _ _ _ _ _ _ hok
    rw [hk] at ht
    rcases hhead with rfl | ⟨t, rfl⟩
    · simp only [my_fgets_loop, attempt_fst]
      rw [if_pos hok]
      exact ⟨rfl, ht.2.1, ht.2.2.1⟩
    · simp only [my_fgets_loop, attempt_fst]
      rw [if_pos hok]
      exact ⟨rfl, ht.2.1, ht.2.2.1⟩
  · intro hd
    have he := fgets_eof buf off k (clearerr fp) (by rw [hclr]; exact hd)
    have hf := fgets_ok_false _ _ _ _ _ he.1
    rcases hhead with rfl | ⟨t, rfl⟩
    · simp only [my_fgets_loop, attempt_fst]
      rw [he.1, he.2]
      rw [if_neg Bool.false_ne_true, if_pos rfl]
      refine ⟨rfl, hf.1, ?_⟩
      show (clearerr (fgets ReadEvent.ok 0 buf off ((k + 2 : Nat) : Int) (clearerr fp)).fp).data
        = []
      show (fgets ReadEvent.ok 0 buf off ((k + 2 : Nat) : Int) (clearerr fp)).fp.data = []
      rw [hf.2]
      exact hd
    · simp only [my_fgets_loop, attempt_fst]
      rw [he.1, he.2]
      rw [if_neg Bool.false_ne_true, if_pos rfl]
      refine ⟨rfl, hf.1, ?_⟩
      show (fgets ReadEvent.ok 0 buf off ((k + 2 : Nat) : Int) (clearerr fp)).fp.data = []
      rw [hf.2]
      exact hd

theorem my_fgets_nofault (x : Callbacks) (w : World) (sys : Sys) (buf : Block) (off k : Nat)
    (fp : FILE) (hnf : ∀ e ∈ sys.reads, e = ReadEvent.ok) (r : ReadRet)
    (hr : my_fgets x w sys buf off ((k + 2 : Nat) : Int) fp = r) :
    (∀ e ∈ r.sys.reads, e = ReadEvent.ok) ∧ r.sys.allocs = sys.allocs ∧
    (fp.data ≠ [] → r.code = 0 ∧
      r.buf = { buf with mem := store buf.mem off (readLine (k + 1) fp.data ++ [0]) } ∧
      r.fp.data = fp.data.drop (readLine (k + 1) fp.data).length) ∧
    (fp.data = [] → r.code = -1 ∧ r.buf = buf ∧ r.fp.data = []) := by
  have hnf2 := my_fgets_loop_nofault x off k sys.reads w sys.trace buf fp hnf
  have hhead : sys.reads = [] ∨ ∃ t, sys.reads = ReadEvent.ok :: t := by
    cases hs : sys.reads with
    | nil => exact Or.inl rfl
    | cons ev t =>
      have : ev = ReadEvent.ok := hnf ev (by simp [hs])
      subst this
      exact Or.inr ⟨t, rfl⟩
  have hserved := my_fgets_loop_served x off k sys.reads w sys.trace buf fp hhead
  subst hr
  exact ⟨hnf2.1, rfl, hserved.1, hserved.2⟩

/-! ## Lines and the length checks -/

theorem firstLine_split (k : Nat) (d : List Nat) (hk : 0 < k) :
    firstLine d = readLine k d ++
      (if (readLine k d).getLast? = some 10 then []
       else firstLine (d.drop (readLine k d).length)) := by
  induction k generalizing d with
  | zero => omega
  | succ k ih =>
    cases d with
    | nil => simp [readLine, firstLine]
    | cons c cs =>
      by_cases hc : c = 10
      · simp [readLine, firstLine, hc]
      · rcases Nat.eq_zero_or_pos k with h0 | hpos
        · subst h0
          simp [readLine, firstLine, hc]
        · have := ih cs hpos
          cases hl : readLine k cs with
          | nil =>
            rw [hl] at this
            simp [readLine, firstLine, hc, hl] at this ⊢
          | cons y ys =>
            rw [hl] at this
            simp only [readLine, firstLine, hc, if_false, hl, List.getLast?_cons_cons,
              List.length_cons, List.drop_succ_cons, List.cons_append] at this ⊢
            rw [this]

theorem readLine_full_or_done (k : Nat) (d : List Nat) :
    (readLine k d).length = k ∨ (readLine k d).getLast? = some 10 ∨
      d.drop (readLine k d).length = [] := by
  induction k generalizing d with
  | zero => simp [readLine]
  | succ k ih =>
    cases d with
    | nil => simp [readLine]
    | cons c cs =>
      by_cases hc : c = 10
      · simp [readLine, hc]
      · rcases ih cs with h | h | h
        · left; simp [readLine, hc, h]
        · right; left
          cases hl : readLine k cs with
          | nil => rw [hl] at h; simp at h
          | cons y ys =>
            rw [hl] at h
            simp [readLine, hc, hl, List.getLast?_cons_cons, h]
        · right; right
          simp [readLine, hc, h]

theorem mem_readLine (k : Nat) (d : List Nat) (c : Nat) (h : c ∈ readLine k d) : c ∈ d := by
  rw [← readLine_append_drop k d]
  exact List.mem_append_left _ h

theorem getD_last (acc t : List Nat) (h : acc ≠ []) :
    (acc ++ t).getD (acc.length - 1) 0 = 10 ↔ acc.getLast? = some 10 := by
  have hpos : 0 < acc.length := List.length_pos.2 h
  rw [List.getLast?_eq_getElem?, List.getD_eq_getElem?_getD]
  rw [List.getElem?_append_left (by omega)]
  have hlt : acc.length - 1 < acc.length := by omega
  obtain ⟨v, hv⟩ : ∃ v, acc[acc.length - 1]? = some v :=
    ⟨acc[acc.length - 1], List.getElem?_eq_getElem hlt⟩
  rw [hv]
  simp

theorem GrowthFits_step (n total c : Nat) (term : Prop) (h : GrowthFits n total term)
    (hc : n + c < total → c = n + 1) : GrowthFits (n + c) total term := by
  refine ⟨?_, h.2⟩
  intro j hj
  have hpos : 1 ≤ 2 ^ j := Nat.one_le_two_pow
  have hlt : n + c < total := by
    have : 1 * (n + c + 1) ≤ 2 ^ j * (n + c + 1) := Nat.mul_le_mul_right _ hpos
    omega
  have hce := hc hlt
  subst hce
  have e : 2 ^ j * (n + (n + 1) + 1) = 2 ^ (j + 1) * (n + 1) := by ring
  rw [e] at hj ⊢
  exact h.1 (j + 1) hj

theorem GrowthFits_head (n total : Nat) (term : Prop) (h : GrowthFits n total term)
    (hle : n ≤ total) (hterm : n = total → ¬ term) : n + 2 ≤ INT_MAX := by
  rcases Nat.lt_or_ge n total with hlt | hge
  · have := h.1 0 (by simpa using hlt)
    simpa using this
  · have he : n = total := by omega
    have := h.2 (hterm he)
    omega

theorem GrowthFits_back (n total c : Nat) (term : Prop) (h : GrowthFits (n + c) total term)
    (hn : n + 2 ≤ INT_MAX) (hle : c ≤ n + 1) (hc : n + c < total → c = n + 1) :
    GrowthFits n total term := by
  refine ⟨?_, h.2⟩
  intro j hj
  cases j with
  | zero => simpa using hn
  | succ j =>
    have hpos : 1 ≤ 2 ^ j := Nat.one_le_two_pow
    have e : 2 ^ (j + 1) * (n + 1) = 2 ^ j * (n + (n + 1) + 1) := by ring
    have hlt : n + c < total := by
      have : 1 * (n + (n + 1) + 1) ≤ 2 ^ j * (n + (n + 1) + 1) := Nat.mul_le_mul_right _ hpos
      omega
    have hce := hc hlt
    subst hce
    rw [e] at hj ⊢
    exact h.1 j hj

theorem readline_finish_ok (w : World) (sys : Sys) (fp : FILE) (p : Block) (acc t : List Nat)
    (hp : p.mem = acc ++ 0 :: t) (hn : acc.length + 1 < SIZE_MOD)
    (hal : ∀ b ∈ sys.allocs, b = true) :
    ∃ sys1, readline_finish w sys fp p acc.length
        = ⟨some ⟨acc.length + 1, acc ++ [0]⟩, w, sys1, fp⟩ ∧
      sys1.reads = sys.reads ∧ sys1.trace = sys.trace ∧ sys1.live = sys.live ∧
      ∀ b ∈ sys1.allocs, b = true := by
  have hm : (acc.length + 1) % SIZE_MOD = acc.length + 1 := Nat.mod_eq_of_lt hn
  obtain ⟨sys1, h1, h2⟩ := PyMem_Realloc_ok sys p (acc.length + 1) hal
  refine ⟨sys1, ?_, h2⟩
  unfold readline_finish
  rw [hm, h1]
  have : List.take (acc.length + 1) (acc ++ 0 :: t) = acc ++ [0] := by
    simp [List.take_append_eq_append_take]
  simp [hp, this]

/-- The loop of `PyOS_StdioReadline` on a stream without NUL bytes, without read faults and
with a working allocator: started with the first bytes `acc` of a line in the buffer, it
returns the whole line and leaves the stream right behind it. -/
theorem readline_loop_line (x : Callbacks) :
    ∀ (fuel : Nat) (w : World) (sys : Sys) (fp : FILE) (p : Block) (acc : List Nat),
    acc ≠ [] → fp.data.length < fuel → p.mem = acc ++ [0] →
    (∀ c ∈ acc, c ≠ 0) → (∀ c ∈ fp.data, c ≠ 0) →
    (∀ e ∈ sys.reads, e = ReadEvent.ok) → (∀ b ∈ sys.allocs, b = true) →
    acc.length ≤ 2 * INT_MAX - 3 →
    ∃ r, readline_loop x fuel w sys fp p acc.length = some r ∧
      (∀ e ∈ r.sys.reads, e = ReadEvent.ok) ∧ (∀ b ∈ r.sys.allocs, b = true) ∧
      (GrowthFits acc.length (acc ++ lineRest acc fp.data).length
          ((acc ++ lineRest acc fp.data).getLast? = some 10) →
        r.rv = some ⟨(acc ++ lineRest acc fp.data).length + 1,
          acc ++ lineRest acc fp.data ++ [0]⟩ ∧
        r.fp.data = fp.data.drop (lineRest acc fp.data).length) ∧
      (¬ GrowthFits acc.length (acc ++ lineRest acc fp.data).length
          ((acc ++ lineRest acc fp.data).getLast? = some 10) →
        r.rv = none ∧
        r.w.curexc = some (PyErr.OverflowError "input line too long")) := by
  intro fuel
  induction fuel with
  | zero => intro w sys fp p acc _ hfuel; omega
  | succ fuel ih =>
    intro w sys fp p acc hne hfuel hp hnul hdnul hnf hal hn
    have hpos : 0 < acc.length := List.length_pos.2 hne
    have hsz : acc.length + 1 < SIZE_MOD := by unfold INT_MAX at hn; unfold SIZE_MOD; omega
    rw [readline_loop]
    by_cases hlast : acc.getLast? = some 10
    · have hc : ¬ (acc.length > 0 ∧ p.mem.getD (acc.length - 1) 0 ≠ 10) := by
        rw [hp]
        have := (getD_last acc [0] hne).2 hlast
        exact fun h => h.2 this
      rw [if_neg hc]
      obtain ⟨sys1, h1, h2, -, -, h5⟩ := readline_finish_ok w sys fp p acc [] hp hsz hal
      have hrest : lineRest acc fp.data = [] := by simp [lineRest, hlast]
      rw [h1, hrest]
      refine ⟨_, rfl, ?_, h5, fun _ => ⟨by simp, by simp⟩, ?_⟩
      · intro e he
        exact hnf e (by simpa [h2] using he)
      · intro hno
        exfalso
        apply hno
        refine ⟨?_, ?_⟩
        · intro j hj
          have hpos : 1 ≤ 2 ^ j := Nat.one_le_two_pow
          have : 1 * (acc.length + 1) ≤ 2 ^ j * (acc.length + 1) := Nat.mul_le_mul_right _ hpos
          simp at hj
        · intro hterm
          exfalso
          apply hterm
          simpa using hlast
    · have hc : acc.length > 0 ∧ p.mem.getD (acc.length - 1) 0 ≠ 10 := by
        refine ⟨hpos, ?_⟩
        rw [hp]
        intro h
        exact hlast ((getD_last acc [0] hne).1 h)
      rw [if_pos hc]
      have hrest : lineRest acc fp.data = firstLine fp.data := by simp [lineRest, hlast]
      rw [hrest]
      have hmod : (acc.length + 2) % SIZE_MOD = acc.length + 2 :=
        Nat.mod_eq_of_lt (by unfold INT_MAX at hn; unfold SIZE_MOD; omega)
      simp only [hmod]
      by_cases hhead : acc.length + 2 ≤ INT_MAX
      swap
      · rw [if_pos (by omega)]
        refine ⟨_, rfl, hnf, hal, ?_, fun _ => ⟨rfl, rfl⟩⟩
        intro hfit
        exfalso
        apply hhead
        apply GrowthFits_head _ _ _ hfit (by simp)
        intro he
        have hfl : firstLine fp.data = [] := by
          have : (firstLine fp.data).length = 0 := by simpa using he.symm
          exact List.length_eq_zero.1 this
        rw [hfl, List.append_nil]
        exact hlast
      rw [if_neg (by omega)]
      have hmod2 : (acc.length + (acc.length + 2)) % SIZE_MOD = acc.length + (acc.length + 2) :=
        Nat.mod_eq_of_lt (by unfold INT_MAX at hn; unfold SIZE_MOD; omega)
      rw [hmod2]
      obtain ⟨sys1, h1, hreads1, -, -, hal1⟩ := PyMem_Realloc_ok
        { sys with trace := sys.trace ++ [Ev.grow acc.length (acc.length + 2)] } p
        (acc.length + (acc.length + 2)) hal
      rw [h1]
      simp only []
      rw [castInt_of_le _ hhead]
      have hpr : List.take (acc.length + (acc.length + 2)) p.mem = acc ++ 0 :: [] := by
        rw [hp]
        apply List.take_of_length_le
        simp
      generalize hr : my_fgets x w _ _ acc.length _ fp = r
      have hnf1 : ∀ e ∈ sys1.reads, e = ReadEvent.ok := by
        intro e he
        exact hnf e (by simpa [hreads1] using he)
      obtain ⟨hnfr, halr, hdata, heof⟩ := my_fgets_nofault x w _ _ acc.length acc.length fp
        (by exact hnf1) r hr
      have halr' : ∀ b ∈ r.sys.allocs, b = true := by
        intro b hb
        exact hal1 b (by simpa [halr] using hb)
      by_cases hd : fp.data = []
      · obtain ⟨hcode, hbuf, hfd⟩ := heof hd
        have h0 : r.code ≠ 0 := by simp [hcode]
        rw [if_pos h0]
        have hmem : r.buf.mem = acc ++ 0 :: [] := by rw [hbuf]; exact hpr
        obtain ⟨sys2, e1, e2, -, -, e5⟩ := readline_finish_ok r.w r.sys r.fp r.buf acc [] hmem
          hsz halr'
        rw [e1]
        refine ⟨_, rfl, ?_, e5, fun _ => ⟨by simp [hd, firstLine], by simp [hfd, hd]⟩, ?_⟩
        · intro e he
          exact hnfr e (by simpa [e2] using he)
        · intro hno
          exfalso
          apply hno
          refine ⟨?_, ?_⟩
          · intro j hj
            have hpos : 1 ≤ 2 ^ j := Nat.one_le_two_pow
            have : 1 * (acc.length + 1) ≤ 2 ^ j * (acc.length + 1) :=
              Nat.mul_le_mul_right _ hpos
            simp [hd, firstLine] at hj
          · intro _
            simp [hd, firstLine]
            omega
      · obtain ⟨hcode, hbuf, hfd⟩ := hdata hd
        have h0 : ¬ r.code ≠ 0 := by simp [hcode]
        rw [if_neg h0]
        simp only [hpr] at hbuf
        rw [store_at_end] at hbuf
        have hchunk : ∀ c ∈ readLine (acc.length + 1) fp.data, c ≠ 0 :=
          fun c hc => hdnul c (mem_readLine _ _ c hc)
        have hne2 : readLine (acc.length + 1) fp.data ≠ [] := by
          intro hcon
          rcases readLine_eq_nil _ _ hcon with h | h
          · omega
          · exact hd h
        have hmem : r.buf.mem = (acc ++ readLine (acc.length + 1) fp.data) ++ [0] := by
          rw [hbuf]; simp
        have hdrop : r.buf.mem.drop acc.length
            = readLine (acc.length + 1) fp.data ++ 0 :: [] := by
          rw [hmem, List.append_assoc, List.drop_left]
        rw [hdrop, strlen_nonul _ _ hchunk]
        have hlen := readLine_length_le (acc.length + 1) fp.data
        have hmod3 : (acc.length + (readLine (acc.length + 1) fp.data).length) % SIZE_MOD
            = acc.length + (readLine (acc.length + 1) fp.data).length :=
          Nat.mod_eq_of_lt (by unfold INT_MAX at hhead; unfold SIZE_MOD; omega)
        rw [hmod3]
        have hl : (acc ++ readLine (acc.length + 1) fp.data).length
            = acc.length + (readLine (acc.length + 1) fp.data).length := by simp
        have hsplit := firstLine_split (acc.length + 1) fp.data (by omega)
        have hlast2 : (acc ++ readLine (acc.length + 1) fp.data).getLast?
            = (readLine (acc.length + 1) fp.data).getLast? :=
          List.getLast?_append_of_ne_nil _ hne2
        have hrest2 : lineRest (acc ++ readLine (acc.length + 1) fp.data) r.fp.data
            = (if (readLine (acc.length + 1) fp.data).getLast? = some 10 then []
               else firstLine (fp.data.drop (readLine (acc.length + 1) fp.data).length)) := by
          simp only [lineRest, hlast2, hfd]
        have hwhole : (acc ++ readLine (acc.length + 1) fp.data) ++
            lineRest (acc ++ readLine (acc.length + 1) fp.data) r.fp.data
            = acc ++ firstLine fp.data := by
          rw [hrest2, List.append_assoc, ← hsplit]
        have hlenrest : (firstLine fp.data).length
            = (readLine (acc.length + 1) fp.data).length +
              (lineRest (acc ++ readLine (acc.length + 1) fp.data) r.fp.data).length := by
          rw [hrest2]
          conv_lhs => rw [hsplit]
          simp
        rw [← hl]
        have hfuel2 : r.fp.data.length < fuel := by
          rw [hfd, List.length_drop]
          have := readLine_length_le_data (acc.length + 1) fp.data
          have : 0 < (readLine (acc.length + 1) fp.data).length := List.length_pos.2 hne2
          omega
        have hdnul2 : ∀ c ∈ r.fp.data, c ≠ 0 := by
          intro c hc
          rw [hfd] at hc
          exact hdnul c (List.mem_of_mem_drop hc)
        have hshort : acc.length + (readLine (acc.length + 1) fp.data).length
            < (acc ++ firstLine fp.data).length →
            (readLine (acc.length + 1) fp.data).length = acc.length + 1 := by
          intro hlt
          rcases readLine_full_or_done (acc.length + 1) fp.data with h | h | h
          · exact h
          · exfalso
            rw [hrest2, if_pos h] at hlenrest
            simp at hlt hlenrest
            omega
          · exfalso
            rw [hrest2, h] at hlenrest
            simp [firstLine] at hlt hlenrest
            omega
        obtain ⟨r2, g1, g4, g5, gfit, gno⟩ := ih r.w r.sys r.fp r.buf
          (acc ++ readLine (acc.length + 1) fp.data) (by simp [hne]) hfuel2 hmem
          (by
            intro c hc
            rcases List.mem_append.1 hc with h | h
            · exact hnul c h
            · exact hchunk c h)
          hdnul2 hnfr halr' (by rw [hl]; unfold INT_MAX at hhead ⊢; omega)
        rw [hwhole, hl] at gfit gno
        refine ⟨r2, g1, g4, g5, ?_, ?_⟩
        · intro hfit
          obtain ⟨g2, g3⟩ := gfit (GrowthFits_step _ _ _ _ hfit hshort)
          refine ⟨g2, ?_⟩
          have hdd : ∀ a, List.drop a r.fp.data
              = List.drop ((readLine (acc.length + 1) fp.data).length + a) fp.data := by
            intro a
            rw [hfd, List.drop_drop]
          rw [g3, hlenrest, hdd]
        · intro hno
          apply gno
          intro hfit2
          exact hno (GrowthFits_back _ _ _ _ hfit2 hhead hlen hshort)

theorem growthFits_iff (c L : Nat) (term : Prop) (hc99 : c ≤ 99) (hcl : c ≤ L)
    (hfull : c < L → c = 99) :
    GrowthFits c L term ↔ (L + 2 ≤ INT_MAX ∨ (term ∧ L ≤ 3355443199)) := by
  constructor
  · intro h
    by_cases ht : term
    · by_cases hL : L ≤ 3355443199
      · exact Or.inr ⟨ht, hL⟩
      · exfalso
        have hc : c = 99 := hfull (by omega)
        subst hc
        have := h.1 25 (by norm_num; omega)
        unfold INT_MAX at this
        norm_num at this
    · exact Or.inl (h.2 ht)
  · intro h
    refine ⟨fun j hj => ?_, fun hnt => ?_⟩
    · have hpos : 1 ≤ 2 ^ j := Nat.one_le_two_pow
      have hlt : c < L := by
        have : 1 * (c + 1) ≤ 2 ^ j * (c + 1) := Nat.mul_le_mul_right _ hpos
        omega
      have hc : c = 99 := hfull hlt
      subst hc
      rcases h with h | ⟨-, h⟩
      · omega
      · have hj25 : j < 25 := by
          by_contra hge
          have : 2 ^ 25 ≤ 2 ^ j := Nat.pow_le_pow_right (by norm_num) (by omega)
          norm_num at this
          omega
        have : 2 ^ j ≤ 2 ^ 24 := Nat.pow_le_pow_right (by norm_num) (by omega)
        norm_num at this
        unfold INT_MAX
        omega
    · rcases h with h | ⟨ht, -⟩
      · exact h
      · exact absurd ht hnt

theorem readLine_le_firstLine (k : Nat) (d : List Nat) (hk : 0 < k) :
    (readLine k d).length ≤ (firstLine d).length := by
  conv_rhs => rw [firstLine_split k d hk]
  simp

theorem readLine_short (k : Nat) (d : List Nat) (hk : 0 < k)
    (h : (readLine k d).length < (firstLine d).length) : (readLine k d).length = k := by
  have hs := firstLine_split k d hk
  rcases readLine_full_or_done k d with h1 | h1 | h1
  · exact h1
  · exfalso
    rw [if_pos h1] at hs
    rw [hs] at h
    simp at h
  · exfalso
    rw [h1] at hs
    rw [hs] at h
    simp [firstLine] at h

theorem firstLine_append_drop (d : List Nat) : firstLine d ++ d.drop (firstLine d).length = d := by
  induction d with
  | nil => simp [firstLine]
  | cons c cs ih =>
    by_cases h : c = 10
    · simp [firstLine, h]
    · simp [firstLine, h, ih]

/-- The reader `PyOS_StdioReadline` on a stream without NUL bytes, without read faults and with a
working allocator: it returns the first line when that line passes the length checks, and
fails with OverflowError when it does not. -/
theorem PyOS_StdioReadline_line (x : Callbacks) (w : World) (sys : Sys)
    (sys_stdin sys_stdout : FILE) (prompt : Option (List Nat))
    (hnul : ∀ c ∈ sys_stdin.data, c ≠ 0)
    (hnf : ∀ e ∈ sys.reads, e = ReadEvent.ok) (hal : ∀ b ∈ sys.allocs, b = true) :
    ∃ r, PyOS_StdioReadline x w sys sys_stdin sys_stdout prompt = some r ∧
      (∀ e ∈ r.sys.reads, e = ReadEvent.ok) ∧ (∀ b ∈ r.sys.allocs, b = true) ∧
      (LineFits (firstLine sys_stdin.data) →
        r.rv = some ⟨(firstLine sys_stdin.data).length + 1, firstLine sys_stdin.data ++ [0]⟩ ∧
        r.fp.data = sys_stdin.data.drop (firstLine sys_stdin.data).length) ∧
      (¬ LineFits (firstLine sys_stdin.data) →
        r.rv = none ∧ r.w.curexc = some (PyErr.OverflowError "input line too long")) := by
  unfold PyOS_StdioReadline
  obtain ⟨sys1, h1, hreads1, -, -, hal1⟩ := PyMem_Malloc_ok sys 100 hal
  simp only []
  rw [h1]
  simp only [castInt_100]
  have h100 : (100 : Int) = ((98 + 2 : Nat) : Int) := by norm_num
  rw [h100]
  generalize hr : my_fgets x _ _ _ 0 _ sys_stdin = r
  have hnf1 : ∀ e ∈ sys1.reads, e = ReadEvent.ok := by
    intro e he
    exact hnf e (by simpa [hreads1] using he)
  obtain ⟨hnfr, halr, hdata, heof⟩ := my_fgets_nofault x _ _ _ 0 98 sys_stdin
    (by exact hnf1) r hr
  have halr' : ∀ b ∈ r.sys.allocs, b = true := by
    intro b hb
    exact hal1 b (by simpa [halr] using hb)
  by_cases hd : sys_stdin.data = []
  · obtain ⟨hcode, hbuf, hfd⟩ := heof hd
    have h0 : ¬ r.code = 0 := by simp [hcode]
    have h1 : ¬ r.code = 1 := by simp [hcode]
    rw [if_neg h0, if_neg h1]
    have hmem : store r.buf.mem 0 [0] = ([] : List Nat) ++ 0 :: [] := by
      rw [hbuf]; simp [store]
    have hs : strlen (store r.buf.mem 0 [0]) = 0 := by
      rw [hmem]; simp [strlen]
    rw [hs, hd]
    simp only [List.length_nil, Nat.zero_add]
    rw [readline_loop]
    rw [if_neg (by simp)]
    obtain ⟨sys2, e1, e2, -, -, e5⟩ := readline_finish_ok r.w r.sys r.fp
      { r.buf with mem := store r.buf.mem 0 [0] } [] [] hmem (by unfold SIZE_MOD; simp) halr'
    simp only [List.length_nil] at e1
    rw [e1]
    refine ⟨_, rfl, ?_, e5, fun _ => ⟨by simp [firstLine], by simp [hfd]⟩, ?_⟩
    · intro e he
      exact hnfr e (by simpa [e2] using he)
    · intro hno
      exfalso
      apply hno
      left
      simp [firstLine, INT_MAX]
  · obtain ⟨hcode, hbuf, hfd⟩ := hdata hd
    rw [if_pos hcode]
    have hst : store [] 0 (readLine 99 sys_stdin.data ++ [0])
        = readLine 99 sys_stdin.data ++ [0] := by simp [store]
    simp only [hst] at hbuf
    have hchunk : ∀ c ∈ readLine 99 sys_stdin.data, c ≠ 0 :=
      fun c hc => hnul c (mem_readLine _ _ c hc)
    have hne2 : readLine 99 sys_stdin.data ≠ [] := by
      intro hcon
      rcases readLine_eq_nil _ _ hcon with h | h
      · omega
      · exact hd h
    have hmem : r.buf.mem = readLine 99 sys_stdin.data ++ [0] := by rw [hbuf]
    have hs : strlen r.buf.mem = (readLine 99 sys_stdin.data).length := by
      rw [hmem]; exact strlen_nonul _ [] hchunk
    rw [hs]
    have hlen := readLine_length_le 99 sys_stdin.data
    have hsplit := firstLine_split 99 sys_stdin.data (by omega)
    have hrest2 : lineRest (readLine 99 sys_stdin.data) r.fp.data
        = (if (readLine 99 sys_stdin.data).getLast? = some 10 then []
           else firstLine (sys_stdin.data.drop (readLine 99 sys_stdin.data).length)) := by
      simp only [lineRest, hfd]
    have hwhole : readLine 99 sys_stdin.data ++ lineRest (readLine 99 sys_stdin.data) r.fp.data
        = firstLine sys_stdin.data := by
      rw [hrest2, ← hsplit]
    have hlenrest : (firstLine sys_stdin.data).length
        = (readLine 99 sys_stdin.data).length +
          (lineRest (readLine 99 sys_stdin.data) r.fp.data).length := by
      conv_lhs => rw [← hwhole]
      simp
    obtain ⟨r2, g1, g4, g5, gfit, gno⟩ := readline_loop_line x (sys_stdin.data.length + 1)
      r.w r.sys r.fp r.buf (readLine 99 sys_stdin.data) hne2
      (by rw [hfd, List.length_drop]; omega) hmem hchunk
      (by
        intro c hc
        rw [hfd] at hc
        exact hnul c (List.mem_of_mem_drop hc))
      hnfr halr' (by unfold INT_MAX; omega)
    rw [hwhole] at gfit gno
    have hiff := growthFits_iff (readLine 99 sys_stdin.data).length
      (firstLine sys_stdin.data).length ((firstLine sys_stdin.data).getLast? = some 10)
      hlen (readLine_le_firstLine 99 _ (by omega))
      (fun h => readLine_short 99 _ (by omega) h)
    refine ⟨r2, g1, g4, g5, ?_, ?_⟩
    · intro hfit
      obtain ⟨g2, g3⟩ := gfit (hiff.2 hfit)
      refine ⟨g2, ?_⟩
      have hdd : ∀ a, List.drop a r.fp.data
          = List.drop ((readLine 99 sys_stdin.data).length + a) sys_stdin.data := by
        intro a
        rw [hfd, List.drop_drop]
      rw [g3, hlenrest, hdd]
    · intro hno
      exact gno (fun h => hno (hiff.1 h))

/-! ## The call trace -/

theorem callsOf_append (a b : List Ev) : callsOf (a ++ b) = callsOf a ++ callsOf b := by
  induction a with
  | nil => simp [callsOf]
  | cons e tr ih => cases e <;> simp [callsOf, ih]

theorem growths_append (a b : List Ev) : growths (a ++ b) = growths a + growths b := by
  induction a with
  | nil => simp [growths]
  | cons e tr ih => cases e <;> simp [growths, ih]; omega

theorem attempt_trace (x : Callbacks) (ev : ReadEvent) (w : World) (tr : List Ev) (buf : Block)
    (off : Nat) (len : Int) (fp : FILE) :
    callsOf (attempt x ev w tr buf off len fp).2.2 = callsOf tr ∧
    growths (attempt x ev w tr buf off len fp).2.2 = growths tr := by
  unfold attempt
  cases w.PyOS_InputHook <;> simp [callsOf_append, growths_append, callsOf, growths]

/-- The trace entries `my_fgets` adds are hook calls and `fgets` calls only. -/
theorem my_fgets_loop_trace (x : Callbacks) (off : Nat) (len : Int) (reads : List ReadEvent) :
    ∀ (w : World) (tr : List Ev) (buf : Block) (fp : FILE),
    callsOf (my_fgets_loop x off len reads w tr buf fp).trace = callsOf tr ∧
    growths (my_fgets_loop x off len reads w tr buf fp).trace = growths tr := by
  induction reads with
  | nil =>
    intro w tr buf fp
    have := attempt_trace x ReadEvent.ok w tr buf off len fp
    simp only [my_fgets_loop]
    split
    · exact this
    · split <;> exact this
  | cons ev rest ih =>
    intro w tr buf fp
    have := attempt_trace x ev w tr buf off len fp
    simp only [my_fgets_loop]
    split
    · exact this
    · split
      · exact this
      · split
        · have hs : ¬ ((0 : Int) < 0) := by decide
          rw [if_neg hs]
          have h2 := ih (attempt x ev w tr buf off len fp).2.1
            (attempt x ev w tr buf off len fp).2.2
            (attempt x ev w tr buf off len fp).1.buf (attempt x ev w tr buf off len fp).1.fp
          rw [this.1, this.2] at h2
          exact h2
        · exact this

theorem my_fgets_trace (x : Callbacks) (w : World) (sys : Sys) (buf : Block) (off : Nat)
    (len : Int) (fp : FILE) (m : ReadRet) (hm : my_fgets x w sys buf off len fp = m) :
    callsOf m.sys.trace = callsOf sys.trace ∧ growths m.sys.trace = growths sys.trace := by
  subst hm
  exact my_fgets_loop_trace x off len sys.reads w sys.trace buf fp

theorem readline_finish_trace (w : World) (sys : Sys) (fp : FILE) (p : Block) (n : Nat) :
    (readline_finish w sys fp p n).sys.trace = sys.trace := by
  obtain ⟨sys1, h1, -, h3, -⟩ := PyMem_Realloc_cases sys p ((n + 1) % SIZE_MOD)
  unfold readline_finish
  rcases h1 with h1 | h1 <;> rw [h1] <;> simp [PyMem_Free, h3]

/-- The loop of `PyOS_StdioReadline` invokes no backend. -/
theorem readline_loop_calls (x : Callbacks) :
    ∀ (fuel : Nat) (w : World) (sys : Sys) (fp : FILE) (p : Block) (n : Nat) (r : Ret),
    readline_loop x fuel w sys fp p n = some r → callsOf r.sys.trace = callsOf sys.trace := by
  intro fuel
  induction fuel with
  | zero => intro w sys fp p n r h; simp [readline_loop] at h
  | succ fuel ih =>
    intro w sys fp p n r h
    rw [readline_loop] at h
    split at h
    · simp only [] at h
      split at h
      · simp only [Option.some.injEq] at h
        subst h
        simp [PyMem_Free]
      · obtain ⟨sys1, h1, -, h3, -⟩ := PyMem_Realloc_cases
          { sys with trace := sys.trace ++ [Ev.grow n ((n + 2) % SIZE_MOD)] } p
          ((n + (n + 2) % SIZE_MOD) % SIZE_MOD)
        have hg : callsOf sys1.trace = callsOf sys.trace := by
          rw [h3]; simp [callsOf_append, callsOf]
        rcases h1 with h1 | h1
        · rw [h1] at h
          simp only [Option.some.injEq] at h
          subst h
          simp [PyMem_Free, hg]
        · rw [h1] at h
          simp only [] at h
          generalize hm : my_fgets x w _ _ n _ fp = m at h
          have ht := (my_fgets_trace _ _ _ _ _ _ _ m hm).1
          have ht2 : callsOf m.sys.trace = callsOf sys.trace := by
            rw [ht]; simp [callsOf_append, callsOf, hg]
          split at h
          · simp only [Option.some.injEq] at h
            subst h
            rw [readline_finish_trace, ht2]
          · rw [ih _ _ _ _ _ r h, ht2]
    · simp only [Option.some.injEq] at h
      subst h
      rw [readline_finish_trace]

/-- The built-in reader `PyOS_StdioReadline` invokes no backend. -/
theorem PyOS_StdioReadline_calls (x : Callbacks) (w : World) (sys : Sys)
    (sys_stdin sys_stdout : FILE) (prompt : Option (List Nat)) (r : Ret)
    (h : PyOS_StdioReadline x w sys sys_stdin sys_stdout prompt = some r) :
    callsOf r.sys.trace = callsOf sys.trace := by
  unfold PyOS_StdioReadline at h
  obtain ⟨sys1, h1, -, h3, -⟩ := PyMem_Malloc_cases sys 100
  simp only [] at h
  rcases h1 with h1 | h1
  · rw [h1] at h
    simp only [Option.some.injEq] at h
    subst h
    simp [h3]
  · rw [h1] at h
    simp only [] at h
    generalize hm : my_fgets x _ _ _ 0 _ sys_stdin = m at h
    have ht := (my_fgets_trace _ _ _ _ _ _ _ m hm).1
    have ht2 : callsOf m.sys.trace = callsOf sys.trace := by
      rw [ht]; simp [callsOf_append, callsOf, h3]
    split at h
    · rw [readline_loop_calls x _ _ _ _ _ _ r h, ht2]
    · split at h
      · simp only [Option.some.injEq] at h
        subst h
        simp [PyMem_Free, ht2]
      · rw [readline_loop_calls x _ _ _ _ _ _ r h, ht2]

/-! ## `PyOS_Readline` -/

/-- The globals a backend sees when thread `t` has passed the check of `PyOS_Readline`:
the pointer holds the installed backend or else the built-in reader, the guard records `t`. -/
theorem entered_world (w : World) (t : Nat) :
    ({ (if w.PyOS_ReadlineFunctionPointer = none then
          { w with PyOS_ReadlineFunctionPointer := some FnPtr.PyOS_StdioReadline }
        else w) with _PyOS_ReadlineTState := some t } : World)
    = { w with
        PyOS_ReadlineFunctionPointer :=
          some (w.PyOS_ReadlineFunctionPointer.getD FnPtr.PyOS_StdioReadline),
        _PyOS_ReadlineTState := some t } := by
  cases w with
  | mk g h p e n s =>
    cases p with
    | none => simp
    | some f => simp

theorem installed_pointer (w : World) :
    (if w.PyOS_ReadlineFunctionPointer = none then
        { w with PyOS_ReadlineFunctionPointer := some FnPtr.PyOS_StdioReadline }
      else w).PyOS_ReadlineFunctionPointer
    = some (w.PyOS_ReadlineFunctionPointer.getD FnPtr.PyOS_StdioReadline) := by
  cases h : w.PyOS_ReadlineFunctionPointer with
  | none => simp
  | some f => simp [h]

theorem callBackend_total (x : Callbacks) (f : FnPtr) (w : World) (sys : Sys)
    (sys_stdin sys_stdout : FILE) (prompt : Option (List Nat)) :
    ∃ b, callBackend x f w sys sys_stdin sys_stdout prompt = some b ∧
      callsOf b.sys.trace = callsOf sys.trace ++ [f] ∧
      (f = FnPtr.PyOS_StdioReadline → ∀ blk, b.rv = some blk →
        strlen blk.mem + 1 < SIZE_MOD) ∧
      (∀ a, f = FnPtr.custom a → b.rv = (x.backend a w sys_stdin sys_stdout prompt).rv) := by
  cases f with
  | PyOS_StdioReadline =>
    obtain ⟨b, hb, hbound⟩ := PyOS_StdioReadline_total x w
      { sys with trace := sys.trace ++ [Ev.call FnPtr.PyOS_StdioReadline] }
      sys_stdin sys_stdout prompt
    refine ⟨b, hb, ?_, ?_, ?_⟩
    · rw [PyOS_StdioReadline_calls x _ _ _ _ _ b hb]
      simp [callsOf_append, callsOf]
    · intro _ blk hblk
      obtain ⟨hlen, hcap⟩ := hbound.1 blk hblk
      have := strlen_le_length blk.mem
      unfold INT_MAX at hcap; unfold SIZE_MOD; omega
    · intro a ha
      cases ha
  | custom a =>
    refine ⟨_, rfl, ?_, ?_, ?_⟩
    · simp [callsOf_append, callsOf]
    · intro h; cases h
    · intro a2 ha2
      cases ha2
      rfl

/-- A call of `PyOS_Readline` that passes the re-entrancy check invokes one backend, chosen
by the two terminal tests, and returns what lines 172 to 187 make of its result. -/
theorem PyOS_Readline_pass (x : Callbacks) (t : Nat) (w : World) (sys : Sys)
    (sys_stdin sys_stdout : FILE) (prompt : Option (List Nat))
    (hg : w._PyOS_ReadlineTState ≠ some t) :
    ∃ b, callBackend x
        (if sys_stdin.tty = true ∧ sys_stdout.tty = true then
          w.PyOS_ReadlineFunctionPointer.getD FnPtr.PyOS_StdioReadline
         else FnPtr.PyOS_StdioReadline)
        { w with
          PyOS_ReadlineFunctionPointer :=
            some (w.PyOS_ReadlineFunctionPointer.getD FnPtr.PyOS_StdioReadline),
          _PyOS_ReadlineTState := some t }
        sys sys_stdin sys_stdout prompt = some b ∧
      PyOS_Readline x t w sys sys_stdin sys_stdout prompt = some (PyOS_Readline_tail b) := by
  unfold PyOS_Readline
  rw [if_neg hg]
  simp only [entered_world]
  simp only [installed_pointer]
  by_cases htty : sys_stdin.tty = true ∧ sys_stdout.tty = true
  · rw [if_pos htty]
    have hc : ¬ ((!sys_stdin.tty || !sys_stdout.tty) = true) := by simp [htty.1, htty.2]
    rw [if_neg hc]
    obtain ⟨b, hb, -⟩ := callBackend_total x
      (w.PyOS_ReadlineFunctionPointer.getD FnPtr.PyOS_StdioReadline)
      { w with
        PyOS_ReadlineFunctionPointer :=
          some (w.PyOS_ReadlineFunctionPointer.getD FnPtr.PyOS_StdioReadline),
        _PyOS_ReadlineTState := some t } sys sys_stdin sys_stdout prompt
    refine ⟨b, hb, ?_⟩
    rw [hb]
  · rw [if_neg htty]
    have hc : (!sys_stdin.tty || !sys_stdout.tty) = true := by
      cases h1 : sys_stdin.tty <;> cases h2 : sys_stdout.tty <;> simp_all
    rw [if_pos hc]
    obtain ⟨b, hb, -⟩ := callBackend_total x FnPtr.PyOS_StdioReadline
      { w with
        PyOS_ReadlineFunctionPointer :=
          some (w.PyOS_ReadlineFunctionPointer.getD FnPtr.PyOS_StdioReadline),
        _PyOS_ReadlineTState := some t } sys sys_stdin sys_stdout prompt
    refine ⟨b, hb, ?_⟩
    rw [hb]

/-- Lines 172 to 187: the guard is cleared on both ways out, a NULL is passed on, and a
string comes back as a copy up to and including its NUL. -/
theorem PyOS_Readline_tail_spec (b : Ret) :
    (PyOS_Readline_tail b).w._PyOS_ReadlineTState = none ∧
    (PyOS_Readline_tail b).fp = b.fp ∧
    (PyOS_Readline_tail b).sys.trace = b.sys.trace ∧
    (b.rv = none → (PyOS_Readline_tail b).rv = none) ∧
    (∀ s, (PyOS_Readline_tail b).rv = some s → ∃ blk, b.rv = some blk ∧
      s = ⟨(strlen blk.mem + 1) % SIZE_MOD, blk.mem.take ((strlen blk.mem + 1) % SIZE_MOD)⟩) ∧
    (∀ blk, b.rv = some blk →
      (PyOS_Readline_tail b).rv = some ⟨(strlen blk.mem + 1) % SIZE_MOD,
        blk.mem.take ((strlen blk.mem + 1) % SIZE_MOD)⟩ ∨
      ((PyOS_Readline_tail b).rv = none ∧
        (PyOS_Readline_tail b).w.curexc = some PyErr.MemoryError)) := by
  unfold PyOS_Readline_tail
  cases hrv : b.rv with
  | none => simp
  | some blk =>
    obtain ⟨sys1, h1, -, h3, -⟩ := PyMem_Malloc_cases b.sys ((strlen blk.mem + 1) % SIZE_MOD)
    simp only []
    rcases h1 with h1 | h1
    · rw [h1]
      simp [PyErr_NoMemory, PyMem_Free, h3]
    · rw [h1]
      simp [PyMem_Free, h3]

/-! ## Successive calls -/

theorem firstLine_inner (d : List Nat) : 10 ∉ (firstLine d).dropLast := by
  induction d with
  | nil => simp [firstLine]
  | cons c cs ih =>
    by_cases h : c = 10
    · simp [firstLine, h]
    · cases hl : firstLine cs with
      | nil => simp [firstLine, h, hl]
      | cons y ys =>
        rw [hl] at ih
        simp only [firstLine, h, if_false, hl, List.dropLast_cons₂, List.mem_cons, not_or]
        exact ⟨fun e => h e.symm, ih⟩

theorem firstLine_last_or_end (d : List Nat) :
    (firstLine d).getLast? = some 10 ∨ d.drop (firstLine d).length = [] := by
  induction d with
  | nil => simp [firstLine]
  | cons c cs ih =>
    by_cases h : c = 10
    · simp [firstLine, h]
    · rcases ih with ih | ih
      · left
        cases hl : firstLine cs with
        | nil => rw [hl] at ih; simp at ih
        | cons y ys =>
          rw [hl] at ih
          simp [firstLine, h, hl, List.getLast?_cons_cons, ih]
      · right
        simp [firstLine, h, ih]

theorem firstLine_ne_nil (d : List Nat) (h : d ≠ []) : firstLine d ≠ [] := by
  cases d with
  | nil => exact absurd rfl h
  | cons c cs =>
    by_cases hc : c = 10 <;> simp [firstLine, hc]

theorem firstLine_length_le (d : List Nat) : (firstLine d).length ≤ d.length := by
  have h := congrArg List.length (firstLine_append_drop d)
  simp at h
  omega

theorem takeLines_length (k : Nat) (d : List Nat) : (takeLines k d).length = k := by
  induction k generalizing d with
  | zero => rfl
  | succ k ih => simp [takeLines, ih]

/-- A line that is followed by more of the stream ends in its line feed and has no other. -/
theorem takeLines_terminated (k : Nat) :
    ∀ (d rest l : List Nat) (front post : List (List Nat)),
    joinLines (takeLines k d) ++ rest = d → takeLines k d = front ++ l :: post →
    joinLines post ++ rest ≠ [] → l.getLast? = some 10 ∧ 10 ∉ l.dropLast := by
  induction k with
  | zero =>
    intro d rest l front post _ h
    simp [takeLines] at h
  | succ k ih =>
    intro d rest l front post hjoin hsplit hmore
    have hrest : joinLines (takeLines k (d.drop (firstLine d).length)) ++ rest
        = d.drop (firstLine d).length := by
      have h1 : firstLine d ++ (joinLines (takeLines k (d.drop (firstLine d).length)) ++ rest)
          = firstLine d ++ d.drop (firstLine d).length := by
        rw [firstLine_append_drop]
        simpa [takeLines, joinLines, List.append_assoc] using hjoin
      exact List.append_cancel_left h1
    cases front with
    | nil =>
      simp only [takeLines, List.nil_append, List.cons.injEq] at hsplit
      obtain ⟨h1, h2⟩ := hsplit
      subst h1
      refine ⟨?_, firstLine_inner d⟩
      rcases firstLine_last_or_end d with h | h
      · exact h
      · exfalso
        rw [← h2, hrest, h] at hmore
        exact hmore rfl
    | cons p front2 =>
      simp only [takeLines, List.cons_append, List.cons.injEq] at hsplit
      exact ih _ rest l front2 post hrest hsplit.2 hmore

theorem takeLines_all (k : Nat) : ∀ (d : List Nat), d.length ≤ k → joinLines (takeLines k d) = d := by
  induction k with
  | zero =>
    intro d h
    have : d = [] := List.length_eq_zero.1 (by omega)
    simp [takeLines, joinLines, this]
  | succ k ih =>
    intro d h
    simp only [takeLines, joinLines]
    by_cases hd : d = []
    · subst hd
      simp only [firstLine, List.length_nil, List.drop_nil, List.nil_append]
      exact ih [] (by simp)
    · have hpos : 0 < (firstLine d).length := List.length_pos.2 (firstLine_ne_nil d hd)
      rw [ih (d.drop (firstLine d).length) (by rw [List.length_drop]; omega)]
      exact firstLine_append_drop d

/-- Successive calls of `PyOS_StdioReadline` on a stream without NUL bytes whose lines all
pass the length checks (no read fault, working allocator) return the lines of the stream
in order. -/
theorem readlines_lines (x : Callbacks) (sys_stdout : FILE) (prompt : Option (List Nat))
    (k : Nat) :
    ∀ (w : World) (sys : Sys) (fp : FILE),
    (∀ c ∈ fp.data, c ≠ 0) → (∀ e ∈ sys.reads, e = ReadEvent.ok) →
    (∀ b ∈ sys.allocs, b = true) → (∀ i, LineFits (firstLine (fp.data.drop i))) →
    ∃ c, readlines x sys_stdout prompt k w sys fp = some c ∧
      c.rvs = (takeLines k fp.data).map lineBlock ∧
      joinLines (takeLines k fp.data) ++ c.fp.data = fp.data := by
  induction k with
  | zero =>
    intro w sys fp _ _ _ _
    exact ⟨_, rfl, rfl, by simp [takeLines, joinLines]⟩
  | succ k ih =>
    intro w sys fp hnul hnf hal hfit
    obtain ⟨r, hr, hnf2, hal2, hline, -⟩ :=
      PyOS_StdioReadline_line x w sys fp sys_stdout prompt hnul hnf hal
    obtain ⟨hrv, hdata⟩ := hline (by simpa using hfit 0)
    obtain ⟨c, hc, hrvs, hjoin⟩ := ih r.w r.sys r.fp
      (by
        intro c hc
        rw [hdata] at hc
        exact hnul c (List.mem_of_mem_drop hc))
      hnf2 hal2
      (by
        intro i
        rw [hdata, List.drop_drop]
        exact hfit _)
    refine ⟨⟨r.rv :: c.rvs, c.w, c.sys, c.fp⟩, ?_, ?_, ?_⟩
    · simp only [readlines, hr, hc]
    · simp only [takeLines, List.map_cons, hrvs, hrv, hdata, lineBlock]
    · simp only [takeLines, joinLines, List.append_assoc]
      rw [← hdata, hjoin, hdata]
      exact firstLine_append_drop fp.data

theorem firstLine_replicate (n : Nat) (t : List Nat) :
    firstLine (List.replicate n 97 ++ 10 :: t) = List.replicate n 97 ++ [10] := by
  induction n with
  | zero => simp [firstLine]
  | succ n ih => simp [List.replicate_succ, firstLine, ih]

theorem firstLine_replicate_open (n : Nat) :
    firstLine (List.replicate n 97) = List.replicate n 97 := by
  induction n with
  | zero => simp [firstLine]
  | succ n ih => simp [List.replicate_succ, firstLine, ih]

theorem replicate_nonul (n : Nat) (t : List Nat) (ht : ∀ c ∈ t, c ≠ 0) :
    ∀ c ∈ List.replicate n 97 ++ t, c ≠ 0 := by
  intro c hc
  rcases List.mem_append.1 hc with h | h
  · rw [(List.mem_replicate.1 h).2]; decide
  · exact ht c h

/-! ## The claims -/

/-- When the first `fgets` call is not faulted and the stream is exhausted, `my_fgets`
reports end of file and leaves the buffer alone. -/
theorem my_fgets_eof_head (x : Callbacks) (w : World) (sys : Sys) (buf : Block) (off k : Nat)
    (fp : FILE) (hd : fp.data = [])
    (hfirst : ∀ e s j, sys.reads.head? ≠ some (ReadEvent.fail e s j)) :
    (my_fgets x w sys buf off ((k + 2 : Nat) : Int) fp).code = -1 ∧
    (my_fgets x w sys buf off ((k + 2 : Nat) : Int) fp).buf = buf ∧
    (my_fgets x w sys buf off ((k + 2 : Nat) : Int) fp).fp.data = [] ∧
    (my_fgets x w sys buf off ((k + 2 : Nat) : Int) fp).sys.allocs = sys.allocs := by
  have hhead : sys.reads = [] ∨ ∃ t, sys.reads = ReadEvent.ok :: t := by
    cases hs : sys.reads with
    | nil => exact Or.inl rfl
    | cons ev t =>
      cases ev with
      | ok => exact Or.inr ⟨t, rfl⟩
      | fail e s j => exact absurd (by simp [hs]) (hfirst e s j)
  have h := (my_fgets_loop_served x off k sys.reads w sys.trace buf fp hhead).2 hd
  exact ⟨h.1, h.2.1, h.2.2, rfl⟩

/-- C1: on a stream without NUL bytes, with no read fault, a working allocator and a first
line that passes the length checks, `PyOS_StdioReadline` returns a block holding exactly
the first line of the stream (its bytes up to and including the first line feed, or all
remaining bytes when there is none, whatever the length) followed by a NUL, and the
stream is left exactly behind the returned bytes. -/
theorem C1_stdio_readline_returns_first_line (x : Callbacks) (w : World) (sys : Sys)
    (sys_stdin sys_stdout : FILE) (prompt : Option (List Nat))
    (hnul : ∀ c ∈ sys_stdin.data, c ≠ 0)
    (hreads : ∀ e ∈ sys.reads, e = ReadEvent.ok)
    (hallocs : ∀ b ∈ sys.allocs, b = true)
    (hfit : LineFits (firstLine sys_stdin.data)) :
    ∃ r, PyOS_StdioReadline x w sys sys_stdin sys_stdout prompt = some r ∧
      r.rv = some ⟨(firstLine sys_stdin.data).length + 1, firstLine sys_stdin.data ++ [0]⟩ ∧
      sys_stdin.data = firstLine sys_stdin.data ++ r.fp.data := by
  obtain ⟨r, hr, -, -, hline, -⟩ :=
    PyOS_StdioReadline_line x w sys sys_stdin sys_stdout prompt hnul hreads hallocs
  obtain ⟨hrv, hdata⟩ := hline hfit
  refine ⟨r, hr, hrv, ?_⟩
  rw [hdata]
  exact (firstLine_append_drop sys_stdin.data).symm

/-- C1 at a line of 121 bytes, longer than the first buffer of 100 bytes. -/
theorem C1_witness_line_of_121_bytes :
    (∀ c ∈ List.replicate 120 97 ++ [10, 98, 10], c ≠ 0) ∧
    ∃ r, PyOS_StdioReadline idleCallbacks readingWorld calmSys
        (pipe (List.replicate 120 97 ++ [10, 98, 10])) (pipe []) none = some r ∧
      r.rv = some ⟨122, List.replicate 120 97 ++ [10] ++ [0]⟩ ∧
      List.replicate 120 97 ++ [10, 98, 10] = (List.replicate 120 97 ++ [10]) ++ r.fp.data := by
  have hnul : ∀ c ∈ List.replicate 120 97 ++ [10, 98, 10], c ≠ 0 :=
    replicate_nonul 120 [10, 98, 10] (by decide)
  have hline : firstLine (pipe (List.replicate 120 97 ++ [10, 98, 10])).data
      = List.replicate 120 97 ++ [10] := firstLine_replicate 120 [98, 10]
  have h := C1_stdio_readline_returns_first_line idleCallbacks readingWorld calmSys
    (pipe (List.replicate 120 97 ++ [10, 98, 10])) (pipe []) none hnul
    (by decide) (by decide)
    (by
      rw [hline]
      refine Or.inl ?_
      rw [List.length_append, List.length_replicate]
      decide)
  rw [hline] at h
  exact ⟨hnul, h⟩

/-- C2: when the guard records the calling thread, `PyOS_Readline` returns NULL with
RuntimeError "can't re-enter readline" and changes nothing else: the globals are the old
ones apart from the pending exception (the guard still records the thread, the backend
pointer is unchanged), the schedules, the trace (so no backend, hook or read ran) and the
input stream are as they were. This holds for every state with that guard, so also for the
state in which the hook of the thread runs. -/
theorem C2_reentrant_call_fails_untouched (x : Callbacks) (t : Nat) (w : World) (sys : Sys)
    (sys_stdin sys_stdout : FILE) (prompt : Option (List Nat))
    (hguard : w._PyOS_ReadlineTState = some t) :
    ∃ r, PyOS_Readline x t w sys sys_stdin sys_stdout prompt = some r ∧ r.rv = none ∧
      r.w = { w with curexc := some (PyErr.RuntimeError "can't re-enter readline") } ∧
      r.w._PyOS_ReadlineTState = some t ∧
      r.w.PyOS_ReadlineFunctionPointer = w.PyOS_ReadlineFunctionPointer ∧
      r.sys = sys ∧ r.fp = sys_stdin := by
  unfold PyOS_Readline
  rw [if_pos hguard]
  exact ⟨_, rfl, rfl, rfl, hguard, rfl, rfl, rfl⟩

/-- C2 at thread 1 calling while the guard records thread 1. -/
theorem C2_witness_thread_1 :
    readingWorld._PyOS_ReadlineTState = some 1 ∧
    ∃ r, PyOS_Readline idleCallbacks 1 readingWorld calmSys
        (terminal [104, 105, 10]) (terminal []) none = some r ∧ r.rv = none ∧
      r.w = { readingWorld with
        curexc := some (PyErr.RuntimeError "can't re-enter readline") } ∧
      r.w._PyOS_ReadlineTState = some 1 ∧
      r.w.PyOS_ReadlineFunctionPointer = readingWorld.PyOS_ReadlineFunctionPointer ∧
      r.sys = calmSys ∧ r.fp = terminal [104, 105, 10] :=
  ⟨rfl, C2_reentrant_call_fails_untouched idleCallbacks 1 readingWorld calmSys
    (terminal [104, 105, 10]) (terminal []) none rfl⟩

/-- C3 fails on the re-entrancy path: thread 1 calls while the guard records thread 1;
the call returns NULL and the guard still records thread 1, so the next call of thread 1
is rejected again. -/
theorem C3_counterexample_guard_stays_set :
    ∃ r, PyOS_Readline idleCallbacks 1 readingWorld calmSys
        (pipe [104, 105, 10]) (pipe []) none = some r ∧
      r.rv = none ∧ r.w._PyOS_ReadlineTState = some 1 ∧
      ∃ r2, PyOS_Readline idleCallbacks 1 r.w calmSys
          (pipe [104, 105, 10]) (pipe []) none = some r2 ∧
        r2.rv = none ∧
        r2.w.curexc = some (PyErr.RuntimeError "can't re-enter readline") :=
  ⟨_, rfl, rfl, rfl, _, rfl, rfl, rfl⟩

/-- C3 as amended: a call of `PyOS_Readline` that passes the re-entrancy check returns with
the guard NULL, whatever the backend, the hook, the read faults and the allocator do, and
the next call of the same thread passes the check too (it invokes a backend); a call that
fails the check returns with the guard still recording the caller. -/
theorem C3_guard_clear_after_passed_check (x : Callbacks) (t : Nat) (w : World) (sys : Sys)
    (sys_stdin sys_stdout : FILE) (prompt : Option (List Nat)) :
    (w._PyOS_ReadlineTState ≠ some t →
      ∃ r, PyOS_Readline x t w sys sys_stdin sys_stdout prompt = some r ∧
        r.w._PyOS_ReadlineTState = none ∧
        ∀ (sys2 : Sys) (in2 out2 : FILE) (prompt2 : Option (List Nat)),
          ∃ r2 f, PyOS_Readline x t r.w sys2 in2 out2 prompt2 = some r2 ∧
            callsOf r2.sys.trace = callsOf sys2.trace ++ [f]) ∧
    (w._PyOS_ReadlineTState = some t →
      ∃ r, PyOS_Readline x t w sys sys_stdin sys_stdout prompt = some r ∧
        r.w._PyOS_ReadlineTState = some t) := by
  constructor
  · intro hg
    obtain ⟨b, -, hr⟩ := PyOS_Readline_pass x t w sys sys_stdin sys_stdout prompt hg
    have hclear := (PyOS_Readline_tail_spec b).1
    refine ⟨_, hr, hclear, ?_⟩
    intro sys2 in2 out2 prompt2
    obtain ⟨b2, hb2, hr2⟩ := PyOS_Readline_pass x t (PyOS_Readline_tail b).w sys2 in2 out2
      prompt2 (by rw [hclear]; simp)
    obtain ⟨b3, hb3, hcalls, -⟩ := callBackend_total x _ _ sys2 in2 out2 prompt2
    rw [hb2] at hb3
    cases hb3
    refine ⟨_, _, hr2, Eq.trans ?_ hcalls⟩
    rw [(PyOS_Readline_tail_spec b2).2.2.1]
  · intro hg
    unfold PyOS_Readline
    rw [if_pos hg]
    exact ⟨_, rfl, hg⟩

/-- C3 as amended, at thread 1 calling with the guard NULL. -/
theorem C3_witness_fresh_call :
    freshWorld._PyOS_ReadlineTState ≠ some 1 ∧
    ∃ r, PyOS_Readline idleCallbacks 1 freshWorld calmSys
        (pipe [104, 105, 10]) (pipe []) none = some r ∧
      r.w._PyOS_ReadlineTState = none ∧
      ∀ (sys2 : Sys) (in2 out2 : FILE) (prompt2 : Option (List Nat)),
        ∃ r2 f, PyOS_Readline idleCallbacks 1 r.w sys2 in2 out2 prompt2 = some r2 ∧
          callsOf r2.sys.trace = callsOf sys2.trace ++ [f] :=
  ⟨by decide, (C3_guard_clear_after_passed_check idleCallbacks 1 freshWorld calmSys
    (pipe [104, 105, 10]) (pipe []) none).1 (by decide)⟩

/-- C4 fails on the code: with the first `fgets` call failing with errno 5 (EIO),
`my_fgets` returns -2 and `PyOS_StdioReadline` returns an empty string with no exception
set, the value it returns at end of file; with the failure on the growth read of a line
of 121 bytes it returns the 99 bytes read so far. -/
theorem C4_io_error_returns_a_string :
    (my_fgets idleCallbacks readingWorld
        { calmSys with reads := [ReadEvent.fail 5 false 0] } ⟨100, []⟩ 0 100
        (pipe [104, 105, 10])).code = -2 ∧
    (∃ r, PyOS_StdioReadline idleCallbacks readingWorld
        { calmSys with reads := [ReadEvent.fail 5 false 0] }
        (pipe [104, 105, 10]) (pipe []) none = some r ∧
      r.rv = some ⟨1, [0]⟩ ∧ r.w.curexc = none ∧ r.fp.data = [104, 105, 10]) ∧
    (∃ r, PyOS_StdioReadline idleCallbacks readingWorld
        { calmSys with reads := [ReadEvent.ok, ReadEvent.fail 5 false 0] }
        (pipe (List.replicate 120 97 ++ [10])) (pipe []) none = some r ∧
      r.rv = some ⟨100, List.replicate 99 97 ++ [0]⟩ ∧ r.w.curexc = none) :=
  ⟨by decide, ⟨_, rfl, by decide, by decide, by decide⟩, ⟨_, rfl, by decide, by decide⟩⟩

/-- C5: on an exhausted stream, when the first `fgets` call is not faulted and the
allocator works, `PyOS_StdioReadline` returns a block of one byte holding the empty string,
takes no growth step and leaves the stream exhausted. -/
theorem C5_eof_returns_empty_string (x : Callbacks) (w : World) (sys : Sys)
    (sys_stdin sys_stdout : FILE) (prompt : Option (List Nat))
    (hd : sys_stdin.data = [])
    (hfirst : ∀ e s j, sys.reads.head? ≠ some (ReadEvent.fail e s j))
    (hallocs : ∀ b ∈ sys.allocs, b = true) :
    ∃ r b, PyOS_StdioReadline x w sys sys_stdin sys_stdout prompt = some r ∧
      r.rv = some b ∧ b = ⟨1, [0]⟩ ∧ strlen b.mem = 0 ∧
      growths r.sys.trace = growths sys.trace ∧ r.fp.data = [] := by
  unfold PyOS_StdioReadline
  obtain ⟨sys1, h1, hreads1, htr1, -, hal1⟩ := PyMem_Malloc_ok sys 100 hallocs
  simp only []
  rw [h1]
  simp only [castInt_100]
  have h100 : (100 : Int) = ((98 + 2 : Nat) : Int) := by norm_num
  rw [h100]
  generalize hm : my_fgets x _ _ _ 0 _ sys_stdin = m
  have hfirst1 : ∀ e s j, sys1.reads.head? ≠ some (ReadEvent.fail e s j) := by
    rw [hreads1]; exact hfirst
  obtain ⟨hcode, hbuf, hfd, hal⟩ := my_fgets_eof_head x _
    { sys1 with trace := sys1.trace ++ [Ev.read 100 0 100 ((98 + 2 : Nat) : Int)] }
    ⟨100, []⟩ 0 98 sys_stdin hd (by exact hfirst1)
  have htr := (my_fgets_trace _ _ _ _ _ _ _ m hm).2
  rw [hm] at hcode hbuf hfd hal
  have hgr : growths m.sys.trace = growths sys.trace := by
    rw [htr]; simp [growths_append, growths, htr1]
  have h0 : ¬ m.code = 0 := by simp [hcode]
  have h1' : ¬ m.code = 1 := by simp [hcode]
  rw [if_neg h0, if_neg h1']
  have hmem : store m.buf.mem 0 [0] = ([] : List Nat) ++ 0 :: [] := by
    rw [hbuf]; simp [store]
  have hs : strlen (store m.buf.mem 0 [0]) = 0 := by
    rw [hmem]; simp [strlen]
  rw [hs, hd]
  simp only [List.length_nil, Nat.zero_add]
  rw [readline_loop]
  rw [if_neg (by simp)]
  obtain ⟨sys2, e1, -, e3, -⟩ := readline_finish_ok m.w m.sys m.fp
    { m.buf with mem := store m.buf.mem 0 [0] } [] [] hmem (by unfold SIZE_MOD; simp)
    (by
      intro b hb
      exact hal1 b (by simpa [hal] using hb))
  simp only [List.length_nil] at e1
  rw [e1]
  exact ⟨_, _, rfl, rfl, by simp, by simp [strlen], by simp [e3, hgr], by simp [hfd]⟩

/-- C5 at an empty pipe. -/
theorem C5_witness_empty_pipe :
    (pipe []).data = [] ∧
    ∃ r b, PyOS_StdioReadline idleCallbacks readingWorld calmSys (pipe []) (pipe []) none
        = some r ∧
      r.rv = some b ∧ b = ⟨1, [0]⟩ ∧ strlen b.mem = 0 ∧
      growths r.sys.trace = growths calmSys.trace ∧ r.fp.data = [] :=
  ⟨rfl, C5_eof_returns_empty_string idleCallbacks readingWorld calmSys (pipe []) (pipe [])
    none rfl (fun e s j => by simp [calmSys]) (by decide)⟩

theorem lineFits_of_short (d : List Nat) (h : d.length + 2 ≤ INT_MAX) :
    ∀ i, LineFits (firstLine (d.drop i)) := by
  intro i
  left
  have h1 := firstLine_length_le (d.drop i)
  have h2 : (d.drop i).length ≤ d.length := by rw [List.length_drop]; omega
  omega

theorem replicate_last (n : Nat) : (List.replicate n 97).getLast? ≠ some 10 := by
  rw [List.getLast?_replicate]
  split <;> simp

/-- C6 fails for a line beyond the length checks: on a stream without NUL bytes that
starts with a line of 3355443200 bytes and its line feed, with no read fault and a working
allocator, the first call returns NULL with OverflowError, not the line. -/
theorem C6_counterexample_overlong_line :
    (∀ c ∈ List.replicate 3355443200 97 ++ [10, 98, 10], c ≠ 0) ∧
    ∃ r, PyOS_StdioReadline idleCallbacks readingWorld calmSys
        (pipe (List.replicate 3355443200 97 ++ [10, 98, 10])) (pipe []) none = some r ∧
      r.rv = none ∧ r.w.curexc = some (PyErr.OverflowError "input line too long") := by
  have hnul : ∀ c ∈ List.replicate 3355443200 97 ++ [10, 98, 10], c ≠ 0 :=
    replicate_nonul 3355443200 [10, 98, 10] (by decide)
  have hline : firstLine (pipe (List.replicate 3355443200 97 ++ [10, 98, 10])).data
      = List.replicate 3355443200 97 ++ [10] := firstLine_replicate 3355443200 [98, 10]
  obtain ⟨r, hr, -, -, -, hno⟩ := PyOS_StdioReadline_line idleCallbacks readingWorld calmSys
    (pipe (List.replicate 3355443200 97 ++ [10, 98, 10])) (pipe []) none hnul
    (by decide) (by decide)
  refine ⟨hnul, r, hr, hno ?_⟩
  rw [hline]
  intro hfit
  unfold LineFits INT_MAX at hfit
  rw [List.length_append, List.length_replicate] at hfit
  simp only [List.length_singleton] at hfit
  omega

/-- C6 as amended: on a stream without NUL bytes in which every line passes the length
checks (no read fault, working allocator), `k` successive calls of `PyOS_StdioReadline`
return the first `k` lines in order, each as a block holding the line and a NUL: their
concatenation followed by what is left of the stream is the stream, every returned line
that is followed by more of the stream ends in a line feed and has no other, and once
`k` is at least the length of the stream nothing is left and the concatenation is the
whole stream. -/
theorem C6_successive_calls_return_lines_in_order (x : Callbacks) (w : World) (sys : Sys)
    (sys_stdin sys_stdout : FILE) (prompt : Option (List Nat)) (k : Nat)
    (hnul : ∀ c ∈ sys_stdin.data, c ≠ 0)
    (hreads : ∀ e ∈ sys.reads, e = ReadEvent.ok)
    (hallocs : ∀ b ∈ sys.allocs, b = true)
    (hfit : ∀ i, LineFits (firstLine (sys_stdin.data.drop i))) :
    ∃ lines c, readlines x sys_stdout prompt k w sys sys_stdin = some c ∧
      lines.length = k ∧ c.rvs = lines.map lineBlock ∧
      joinLines lines ++ c.fp.data = sys_stdin.data ∧
      (∀ front l post, lines = front ++ l :: post → joinLines post ++ c.fp.data ≠ [] →
        l.getLast? = some 10 ∧ 10 ∉ l.dropLast) ∧
      (sys_stdin.data.length ≤ k → c.fp.data = [] ∧ joinLines lines = sys_stdin.data) := by
  obtain ⟨c, hc, hrvs, hjoin⟩ :=
    readlines_lines x sys_stdout prompt k w sys sys_stdin hnul hreads hallocs hfit
  refine ⟨takeLines k sys_stdin.data, c, hc, takeLines_length k _, hrvs, hjoin, ?_, ?_⟩
  · intro front l post hsplit hmore
    exact takeLines_terminated k sys_stdin.data c.fp.data l front post hjoin hsplit hmore
  · intro hk
    have hall := takeLines_all k sys_stdin.data hk
    refine ⟨?_, hall⟩
    rw [hall] at hjoin
    simpa using hjoin

/-- C6 as amended, at three lines of 99, 100 and 101 bytes read by four calls: the calls
return the three lines and then the empty string. -/
theorem C6_witness_lines_around_capacity :
    (∀ c ∈ boundaryStream, c ≠ 0) ∧
    (∃ lines c, readlines idleCallbacks (pipe []) none 4 readingWorld calmSys
        (pipe boundaryStream) = some c ∧
      lines.length = 4 ∧ c.rvs = lines.map lineBlock ∧
      joinLines lines ++ c.fp.data = boundaryStream ∧
      (∀ front l post, lines = front ++ l :: post → joinLines post ++ c.fp.data ≠ [] →
        l.getLast? = some 10 ∧ 10 ∉ l.dropLast) ∧
      ((pipe boundaryStream).data.length ≤ 4 →
        c.fp.data = [] ∧ joinLines lines = boundaryStream)) ∧
    (readlines idleCallbacks (pipe []) none 4 readingWorld calmSys
        (pipe boundaryStream)).map (fun c => (c.rvs, c.fp.data)) =
      some ([lineBlock (List.replicate 98 97 ++ [10]), lineBlock (List.replicate 99 98 ++ [10]),
        lineBlock (List.replicate 100 99 ++ [10]), lineBlock []], []) :=
  ⟨by decide,
    C6_successive_calls_return_lines_in_order idleCallbacks readingWorld calmSys
      (pipe boundaryStream) (pipe []) none 4 (by decide) (by decide) (by decide)
      (lineFits_of_short _ (by decide)),
    by decide⟩

/-- C7 fails for a line between `INT_MAX` and 100 * 2 ^ 25 - 1 bytes: a line of
3000000000 bytes and its line feed (no NUL bytes, no read fault, working allocator) is
returned, and the returned string is longer than `INT_MAX`. -/
theorem C7_counterexample_line_above_INT_MAX :
    ∃ r b, PyOS_StdioReadline idleCallbacks readingWorld calmSys
        (pipe (List.replicate 3000000000 97 ++ [10])) (pipe []) none = some r ∧
      r.rv = some b ∧ strlen b.mem = 3000000001 ∧ INT_MAX < strlen b.mem := by
  have hnul : ∀ c ∈ List.replicate 3000000000 97 ++ [10], c ≠ 0 :=
    replicate_nonul 3000000000 [10] (by decide)
  have hline : firstLine (pipe (List.replicate 3000000000 97 ++ [10])).data
      = List.replicate 3000000000 97 ++ [10] := firstLine_replicate 3000000000 []
  obtain ⟨r, hr, -, -, hyes, -⟩ := PyOS_StdioReadline_line idleCallbacks readingWorld calmSys
    (pipe (List.replicate 3000000000 97 ++ [10])) (pipe []) none hnul
    (by decide) (by decide)
  rw [hline] at hyes
  have hfit : LineFits (List.replicate 3000000000 97 ++ [10]) := by
    right
    refine ⟨List.getLast?_concat _, ?_⟩
    rw [List.length_append, List.length_replicate]
    decide
  obtain ⟨hrv, -⟩ := hyes hfit
  have hlen : strlen (List.replicate 3000000000 97 ++ [10] ++ [0]) = 3000000001 := by
    have := strlen_nonul (List.replicate 3000000000 97 ++ [10]) [] hnul
    rw [this, List.length_append, List.length_replicate]
    rfl
  refine ⟨r, _, hr, hrv, hlen, ?_⟩
  show INT_MAX < strlen (List.replicate 3000000000 97 ++ [10] ++ [0])
  rw [hlen]
  decide

/-- C7 as amended: `PyOS_StdioReadline` returns for every input, and a block it returns
has at most `2 * INT_MAX - 2` bytes, so a string in it has at most `2 * INT_MAX - 3` (a
growth step is taken only while the content length `n` has `n + 2 ≤ INT_MAX` and adds at
most `n + 1` bytes); when no failing read has taken bytes from the stream the block is
exactly the string and its NUL. On a stream without NUL bytes, with no read fault and a
working allocator, the first line is returned when it passes the length checks
(`LineFits`: at most `INT_MAX - 2` bytes, or ending in a line feed and at most
100 * 2 ^ 25 - 1 bytes) and is otherwise rejected: NULL is returned and OverflowError
"input line too long" is set. -/
theorem C7_length_ceiling_of_the_reader (x : Callbacks) (w : World) (sys : Sys)
    (sys_stdin sys_stdout : FILE) (prompt : Option (List Nat)) :
    ∃ r, PyOS_StdioReadline x w sys sys_stdin sys_stdout prompt = some r ∧
      (∀ b, r.rv = some b →
        b.mem.length ≤ b.cap ∧ b.cap ≤ 2 * INT_MAX - 2 ∧
        ∀ a t, b.mem = a ++ 0 :: t → a.length ≤ 2 * INT_MAX - 3) ∧
      (CleanFaults sys.reads → ∀ b, r.rv = some b →
        strlen b.mem ≤ 2 * INT_MAX - 3 ∧ b.mem.length = strlen b.mem + 1 ∧
        b.cap = strlen b.mem + 1) ∧
      ((∀ c ∈ sys_stdin.data, c ≠ 0) → (∀ e ∈ sys.reads, e = ReadEvent.ok) →
        (∀ b ∈ sys.allocs, b = true) →
        (LineFits (firstLine sys_stdin.data) →
          r.rv = lineBlock (firstLine sys_stdin.data)) ∧
        (¬ LineFits (firstLine sys_stdin.data) →
          r.rv = none ∧ r.w.curexc = some (PyErr.OverflowError "input line too long"))) := by
  obtain ⟨r, hr, hbound, hclean⟩ :=
    PyOS_StdioReadline_total x w sys sys_stdin sys_stdout prompt
  refine ⟨r, hr, ?_, ?_, ?_⟩
  · intro b hb
    obtain ⟨h1, h2⟩ := hbound b hb
    refine ⟨h1, h2, ?_⟩
    intro a t hm
    have := congrArg List.length hm
    simp only [List.length_append, List.length_cons] at this
    omega
  · intro hcl b hb
    obtain ⟨a, ha, hnul, hlen⟩ := hclean hcl b hb
    subst ha
    simp only [strlen_nonul a [] hnul]
    exact ⟨hlen, by simp, trivial⟩
  · intro hnul hnf hal
    obtain ⟨r2, hr2, -, -, hyes, hno⟩ :=
      PyOS_StdioReadline_line x w sys sys_stdin sys_stdout prompt hnul hnf hal
    rw [hr] at hr2
    cases hr2
    exact ⟨fun h => (hyes h).1, hno⟩

/-- C7 as amended, at a final line of `INT_MAX - 1` bytes without a line feed: it is
rejected. -/
theorem C7_witness_open_line_of_INT_MAX_minus_1 :
    (∀ c ∈ List.replicate 2147483646 97, c ≠ 0) ∧
    ¬ LineFits (firstLine (pipe (List.replicate 2147483646 97)).data) ∧
    ∃ r, PyOS_StdioReadline idleCallbacks readingWorld calmSys
        (pipe (List.replicate 2147483646 97)) (pipe []) none = some r ∧
      r.rv = none ∧ r.w.curexc = some (PyErr.OverflowError "input line too long") := by
  have hnul : ∀ c ∈ List.replicate 2147483646 97, c ≠ 0 := by
    intro c hc
    rw [(List.mem_replicate.1 hc).2]
    decide
  have hline : firstLine (pipe (List.replicate 2147483646 97)).data
      = List.replicate 2147483646 97 := firstLine_replicate_open 2147483646
  have hno : ¬ LineFits (firstLine (pipe (List.replicate 2147483646 97)).data) := by
    rw [hline]
    intro hfit
    rcases hfit with h | ⟨h, -⟩
    · rw [List.length_replicate] at h
      exact absurd h (by decide)
    · exact replicate_last _ h
  obtain ⟨r, hr, -, -, hrest⟩ := C7_length_ceiling_of_the_reader idleCallbacks readingWorld
    calmSys (pipe (List.replicate 2147483646 97)) (pipe []) none
  exact ⟨hnul, hno, r, hr, (hrest hnul (by decide) (by decide)).2 hno⟩

/-- C9 fails on the code: the guard records thread 2 and thread 1 calls; the call is not
rejected: the built-in reader is invoked, the line is returned, no exception is set, and
the guard is NULL afterwards, no longer recording thread 2. -/
theorem C9_counterexample_other_thread_reads :
    ∃ r, PyOS_Readline idleCallbacks 1 otherThreadWorld
        calmSys (pipe [104, 105, 10]) (pipe []) none = some r ∧
      r.rv = some ⟨4, [104, 105, 10, 0]⟩ ∧ r.w.curexc = none ∧
      callsOf r.sys.trace = [FnPtr.PyOS_StdioReadline] ∧
      r.w._PyOS_ReadlineTState = none ∧ r.fp.data = [] :=
  ⟨_, rfl, by decide, by decide, by decide, by decide, by decide⟩

/-- C9 as amended: the re-entrancy check compares the guard with the caller only. When the
guard records a thread `b` and a different thread `a` calls `PyOS_Readline`, the call
passes the check: one backend is invoked with the guard overwritten by `a`, the call
returns what that backend returned (copied), and the guard is NULL afterwards, not `b`. -/
theorem C9_other_thread_passes_the_check (x : Callbacks) (a b : Nat) (w : World) (sys : Sys)
    (sys_stdin sys_stdout : FILE) (prompt : Option (List Nat))
    (hab : a ≠ b) (hguard : w._PyOS_ReadlineTState = some b) :
    ∃ f back r,
      callBackend x f
        { w with
          PyOS_ReadlineFunctionPointer :=
            some (w.PyOS_ReadlineFunctionPointer.getD FnPtr.PyOS_StdioReadline),
          _PyOS_ReadlineTState := some a }
        sys sys_stdin sys_stdout prompt = some back ∧
      PyOS_Readline x a w sys sys_stdin sys_stdout prompt = some r ∧
      r = PyOS_Readline_tail back ∧
      callsOf r.sys.trace = callsOf sys.trace ++ [f] ∧
      r.w._PyOS_ReadlineTState = none := by
  have hpass : w._PyOS_ReadlineTState ≠ some a := by
    rw [hguard]
    intro h
    exact hab (Option.some.inj h).symm
  obtain ⟨back, hback, hr⟩ := PyOS_Readline_pass x a w sys sys_stdin sys_stdout prompt hpass
  obtain ⟨b2, hb2, hcalls, -⟩ := callBackend_total x
    (if sys_stdin.tty = true ∧ sys_stdout.tty = true then
      w.PyOS_ReadlineFunctionPointer.getD FnPtr.PyOS_StdioReadline
     else FnPtr.PyOS_StdioReadline)
    { w with
      PyOS_ReadlineFunctionPointer :=
        some (w.PyOS_ReadlineFunctionPointer.getD FnPtr.PyOS_StdioReadline),
      _PyOS_ReadlineTState := some a }
    sys sys_stdin sys_stdout prompt
  rw [hback] at hb2
  cases hb2
  obtain ⟨hclear, -, htrace, -⟩ := PyOS_Readline_tail_spec back
  exact ⟨_, back, _, hback, hr, rfl, by rw [htrace]; exact hcalls, hclear⟩

/-- C9 as amended, at thread 1 calling while the guard records thread 2. -/
theorem C9_witness_thread_1_while_2_reads :
    (1 : Nat) ≠ 2 ∧ otherThreadWorld._PyOS_ReadlineTState = some 2 ∧
    ∃ f back r,
      callBackend idleCallbacks f
        { otherThreadWorld with
          PyOS_ReadlineFunctionPointer :=
            some (otherThreadWorld.PyOS_ReadlineFunctionPointer.getD FnPtr.PyOS_StdioReadline),
          _PyOS_ReadlineTState := some 1 }
        calmSys (pipe [104, 105, 10]) (pipe []) none = some back ∧
      PyOS_Readline idleCallbacks 1 otherThreadWorld
        calmSys (pipe [104, 105, 10]) (pipe []) none = some r ∧
      r = PyOS_Readline_tail back ∧
      callsOf r.sys.trace = callsOf calmSys.trace ++ [f] ∧
      r.w._PyOS_ReadlineTState = none :=
  ⟨by decide, rfl,
    C9_other_thread_passes_the_check idleCallbacks 1 2 otherThreadWorld calmSys
      (pipe [104, 105, 10]) (pipe []) none (by decide) rfl⟩

/-- C10 fails on the code: `my_fgets` never returns 1, whatever it is given; with the
first `fgets` call failing with `errno == EINTR` while a real interrupt is pending, it
retries (two `fgets` calls) and returns 0, and `PyOS_StdioReadline` returns the line
instead of NULL. -/
theorem C10_pending_interrupt_is_retried :
    (∀ (x : Callbacks) (w : World) (sys : Sys) (buf : Block) (off : Nat) (len : Int)
        (fp : FILE), (my_fgets x w sys buf off len fp).code ≠ 1) ∧
    (my_fgets idleCallbacks readingWorld
        { calmSys with reads := [ReadEvent.fail EINTR true 0] } ⟨100, []⟩ 0 100
        (pipe [104, 105, 10])).code = 0 ∧
    ∃ r, PyOS_StdioReadline idleCallbacks readingWorld
        { calmSys with reads := [ReadEvent.fail EINTR true 0] }
        (pipe [104, 105, 10]) (pipe []) none = some r ∧
      r.rv = some ⟨4, [104, 105, 10, 0]⟩ ∧
      r.sys.trace = [Ev.read 100 0 100 100, Ev.attempt, Ev.attempt] := by
  refine ⟨?_, by decide, ⟨_, rfl, by decide, by decide⟩⟩
  intro x w sys buf off len fp h
  have hcase := my_fgets_loop_codes x off len sys.reads w sys.trace buf fp
  have hc : (my_fgets_loop x off len sys.reads w sys.trace buf fp).code = 1 := h
  rcases hcase with h0 | h1 | h1
  · rw [hc] at h0; exact absurd h0 (by decide)
  · rw [hc] at h1; exact absurd h1 (by decide)
  · rw [hc] at h1; exact absurd h1 (by decide)

/-- C11 fails on the code in its byte count: on the scenario stream the second call
returns the 250 bytes "a" and the line feed, a string of 251 bytes, not 255. -/
theorem C11_counterexample_second_line_has_251_bytes :
    ∃ r1 r2 b, PyOS_StdioReadline idleCallbacks readingWorld calmSys (pipe scenarioStream)
        (pipe []) none = some r1 ∧
      PyOS_StdioReadline idleCallbacks r1.w r1.sys r1.fp (pipe []) none = some r2 ∧
      r2.rv = some b ∧ strlen b.mem = 251 ∧ strlen b.mem ≠ 255 :=
  ⟨_, _, _, rfl, rfl, rfl, by decide, by decide⟩

/-- C11 as amended: on the scenario stream, with the first buffer of 100 bytes, the first
call returns the line "hello" with its line feed and takes no growth step; the second
call returns the 250 bytes "a" and the line feed, 251 bytes, after exactly two growth
steps (to 200 and to 400 bytes), and the stream is then used up. -/
theorem C11_scenario_hello_then_250_a :
    ∃ r1 r2, PyOS_StdioReadline idleCallbacks readingWorld calmSys (pipe scenarioStream)
        (pipe []) none = some r1 ∧
      r1.rv = lineBlock [104, 101, 108, 108, 111, 10] ∧
      r1.sys.trace = [Ev.read 100 0 100 100, Ev.attempt] ∧
      growths r1.sys.trace = 0 ∧
      PyOS_StdioReadline idleCallbacks r1.w r1.sys r1.fp (pipe []) none = some r2 ∧
      r2.rv = lineBlock (List.replicate 250 97 ++ [10]) ∧
      (List.replicate 250 97 ++ [10]).length = 251 ∧
      (List.replicate 250 97 ++ [10]).getLast? = some 10 ∧
      r2.sys.trace = r1.sys.trace ++
        [Ev.read 100 0 100 100, Ev.attempt,
         Ev.grow 99 101, Ev.read 200 99 101 101, Ev.attempt,
         Ev.grow 199 201, Ev.read 400 199 201 201, Ev.attempt] ∧
      growths r2.sys.trace = growths r1.sys.trace + 2 ∧
      r2.fp.data = [] :=
  ⟨_, _, rfl, by decide, by decide, by decide, rfl, by decide, by decide, by decide,
    by decide, by decide, by decide⟩

/-! ## The hook and the retries of `my_fgets` -/

theorem attempt_trace_exact (x : Callbacks) (ev : ReadEvent) (w : World) (tr : List Ev)
    (buf : Block) (off : Nat) (len : Int) (fp : FILE) :
    (attempt x ev w tr buf off len fp).2.2 =
      tr ++ (match w.PyOS_InputHook with
        | some a => [Ev.hook a]
        | none => []) ++ [Ev.attempt] := by
  unfold attempt
  cases w.PyOS_InputHook <;> simp

theorem grownAt_append (a b : List Ev) : grownAt (a ++ b) = grownAt a ++ grownAt b := by
  induction a with
  | nil => simp [grownAt]
  | cons e tr ih => cases e <;> simp [grownAt, ih]

theorem attempt_quiet (x : Callbacks) (ev : ReadEvent) (w : World) (tr : List Ev)
    (buf : Block) (off : Nat) (len : Int) (fp : FILE) :
    ∃ new, (attempt x ev w tr buf off len fp).2.2 = tr ++ new ∧
      ∀ e ∈ new, e = Ev.attempt ∨ ∃ a, e = Ev.hook a := by
  rw [attempt_trace_exact]
  cases w.PyOS_InputHook with
  | none => exact ⟨[Ev.attempt], by simp, by simp⟩
  | some a => exact ⟨[Ev.hook a, Ev.attempt], by simp, by simp⟩

/-- The trace entries `my_fgets` adds are hook calls and `fgets` calls, behind what was
there. -/
theorem my_fgets_loop_quiet (x : Callbacks) (off : Nat) (len : Int) (reads : List ReadEvent) :
    ∀ (w : World) (tr : List Ev) (buf : Block) (fp : FILE),
    ∃ new, (my_fgets_loop x off len reads w tr buf fp).trace = tr ++ new ∧
      ∀ e ∈ new, e = Ev.attempt ∨ ∃ a, e = Ev.hook a := by
  induction reads with
  | nil =>
    intro w tr buf fp
    have := attempt_quiet x ReadEvent.ok w tr buf off len fp
    simp only [my_fgets_loop]
    split
    · exact this
    · split <;> exact this
  | cons ev rest ih =>
    intro w tr buf fp
    have := attempt_quiet x ev w tr buf off len fp
    simp only [my_fgets_loop]
    split
    · exact this
    · split
      · exact this
      · split
        · have hs : ¬ ((0 : Int) < 0) := by decide
          rw [if_neg hs]
          obtain ⟨n1, h1, q1⟩ := this
          obtain ⟨n2, h2, q2⟩ := ih (attempt x ev w tr buf off len fp).2.1
            (attempt x ev w tr buf off len fp).2.2
            (attempt x ev w tr buf off len fp).1.buf (attempt x ev w tr buf off len fp).1.fp
          refine ⟨n1 ++ n2, ?_, ?_⟩
          · rw [h2, h1, List.append_assoc]
          · intro e he
            rcases List.mem_append.1 he with h | h
            · exact q1 e h
            · exact q2 e h
        · exact this

theorem my_fgets_quiet (x : Callbacks) (w : World) (sys : Sys) (buf : Block) (off : Nat)
    (len : Int) (fp : FILE) (m : ReadRet) (hm : my_fgets x w sys buf off len fp = m) :
    ∃ new, m.sys.trace = sys.trace ++ new ∧
      ∀ e ∈ new, e = Ev.attempt ∨ ∃ a, e = Ev.hook a := by
  subst hm
  exact my_fgets_loop_quiet x off len sys.reads w sys.trace buf fp

theorem quiet_safe (l : List Ev) (h : ∀ e ∈ l, e = Ev.attempt ∨ ∃ a, e = Ev.hook a) :
    (∀ e ∈ l, SafeEv e) ∧ grownAt l = [] ∧
    ∀ cap off size len, Ev.read cap off size len ∉ l := by
  induction l with
  | nil => simp [grownAt]
  | cons e tr ih =>
    have ht := ih (fun e he => h e (List.mem_cons_of_mem _ he))
    rcases h e (List.mem_cons_self _ _) with rfl | ⟨a, rfl⟩
    · refine ⟨?_, ?_, ?_⟩
      · intro e he
        rcases List.mem_cons.1 he with rfl | he
        · simp [SafeEv]
        · exact ht.1 e he
      · simp [grownAt, ht.2.1]
      · intro cap off size len hm
        rcases List.mem_cons.1 hm with h | h
        · cases h
        · exact ht.2.2 _ _ _ _ h
    · refine ⟨?_, ?_, ?_⟩
      · intro e he
        rcases List.mem_cons.1 he with rfl | he
        · simp [SafeEv]
        · exact ht.1 e he
      · simp [grownAt, ht.2.1]
      · intro cap off size len hm
        rcases List.mem_cons.1 hm with h | h
        · cases h
        · exact ht.2.2 _ _ _ _ h

/-- Lines 121 to 127: the first `n + 1` bytes of the block come back in a block of that
size, or the block is released with MemoryError. -/
theorem readline_finish_audit (w : World) (sys : Sys) (fp : FILE) (p : Block)
    (n : Nat) (hn : n + 1 < SIZE_MOD) :
    (readline_finish w sys fp p n).sys.trace = sys.trace ∧
    ((readline_finish w sys fp p n).rv = none →
      (readline_finish w sys fp p n).w.curexc = some PyErr.MemoryError ∧
      (readline_finish w sys fp p n).sys.live = sys.live - 1) ∧
    (∀ b, (readline_finish w sys fp p n).rv = some b →
      b = ⟨n + 1, p.mem.take (n + 1)⟩ ∧
      (readline_finish w sys fp p n).sys.live = sys.live) := by
  have hm : (n + 1) % SIZE_MOD = n + 1 := Nat.mod_eq_of_lt hn
  refine ⟨readline_finish_trace w sys fp p n, ?_, ?_⟩
  · obtain ⟨sys1, h1, -, -, h4, -⟩ := PyMem_Realloc_cases sys p (n + 1)
    unfold readline_finish
    rw [hm]
    rcases h1 with h1 | h1
    · rw [h1]; simp [PyErr_NoMemory, PyMem_Free, h4]
    · rw [h1]; simp
  · intro b hb
    have hblk := readline_finish_block w sys fp p n b hb
    rw [hm] at hblk
    refine ⟨hblk, ?_⟩
    obtain ⟨sys1, h1, -, -, h4, -⟩ := PyMem_Realloc_cases sys p (n + 1)
    unfold readline_finish at hb ⊢
    rw [hm] at hb ⊢
    rcases h1 with h1 | h1
    · rw [h1] at hb; simp at hb
    · rw [h1]; simp [h4]

theorem getLast?_cons_of_some {α : Type} (h : α) (l : List α) (v : α)
    (hl : l.getLast? = some v) : (h :: l).getLast? = some v := by
  cases l with
  | nil => simp at hl
  | cons c cs => rw [List.getLast?_cons_cons]; exact hl

/-- The loop of `PyOS_StdioReadline`, pass by pass: what it writes into the trace, the
arrivals at its test, when it fails with the length error, and what it returns. -/
theorem readline_loop_audit (x : Callbacks) :
    ∀ (fuel : Nat) (w : World) (sys : Sys) (fp : FILE) (p : Block) (acc t : List Nat),
    fp.data.length < fuel → p.mem = acc ++ 0 :: t → (∀ c ∈ acc, c ≠ 0) →
    acc.length ≤ 2 * INT_MAX - 3 → acc.length < p.cap →
    ∃ r new, readline_loop x fuel w sys fp p acc.length = some r ∧
      r.sys.trace = sys.trace ++ new ∧
      (∀ e ∈ new, SafeEv e) ∧
      (∀ cap off size len, Ev.read cap off size len ∈ new →
        size = off + 2 ∧ cap = 2 * off + 2) ∧
      grownAt new = (growthAt (loopHeads x fuel w sys fp p acc.length)).filter
        (fun n => n + 2 ≤ INT_MAX) ∧
      (∀ h ∈ loopHeads x fuel w sys fp p acc.length, h.n < h.cap) ∧
      ((r.rv = none ∧ r.w.curexc = some (PyErr.OverflowError "input line too long")) ↔
        ∃ n ∈ growthAt (loopHeads x fuel w sys fp p acc.length), INT_MAX < n + 2) ∧
      (r.rv = none → r.sys.live = sys.live - 1) ∧
      (∀ b, r.rv = some b → r.sys.live = sys.live ∧
        ∃ n cap, b.cap = n + 1 ∧ b.mem.length ≤ n + 1 ∧ n < cap ∧
          (loopHeads x fuel w sys fp p acc.length).getLast? = some ⟨n, cap, false⟩) := by
  intro fuel
  induction fuel with
  | zero => intro w sys fp p acc t hfuel; omega
  | succ fuel ih =>
    intro w sys fp p acc t hfuel hp hnul hn hcap
    have hsz : acc.length + 1 < SIZE_MOD := by
      unfold INT_MAX at hn; unfold SIZE_MOD; omega
    rw [readline_loop, loopHeads]
    by_cases hc : acc.length > 0 ∧ p.mem.getD (acc.length - 1) 0 ≠ 10
    · have hmod : (acc.length + 2) % SIZE_MOD = acc.length + 2 :=
        Nat.mod_eq_of_lt (by unfold INT_MAX at hn; unfold SIZE_MOD; omega)
      simp only [if_pos hc, hmod]
      by_cases ho : acc.length + 2 > INT_MAX
      · simp only [if_pos ho]
        refine ⟨_, [], rfl, by simp [PyMem_Free], by simp, by simp, ?_, ?_, ?_, ?_, ?_⟩
        · have : ¬ acc.length + 2 ≤ INT_MAX := by omega
          simp [grownAt, growthAt, this]
        · intro h hh
          simp only [List.mem_singleton] at hh
          subst hh
          exact hcap
        · simp only [growthAt, PyErr_SetString]
          simp
          exact ho
        · intro _; simp [PyMem_Free]
        · intro b hb; simp at hb
      · simp only [if_neg ho]
        have hle : acc.length + 2 ≤ INT_MAX := by omega
        have hmod2 : (acc.length + (acc.length + 2)) % SIZE_MOD
            = acc.length + (acc.length + 2) :=
          Nat.mod_eq_of_lt (by unfold INT_MAX at hn; unfold SIZE_MOD; omega)
        obtain ⟨sys1, h1, -, h3, h4, -⟩ := PyMem_Realloc_cases
          { sys with trace := sys.trace ++ [Ev.grow acc.length (acc.length + 2)] } p
          (acc.length + (acc.length + 2))
        simp only [] at h3 h4
        have hsafe : SafeEv (Ev.grow acc.length (acc.length + 2)) := by
          refine ⟨rfl, hle, ?_⟩
          unfold INT_MAX at hle; unfold SIZE_MOD; omega
        simp only [hmod2]
        rcases h1 with h1 | h1
        · simp only [h1]
          refine ⟨_, [Ev.grow acc.length (acc.length + 2)], rfl, by simp [PyMem_Free, h3],
            ?_, by simp, ?_, ?_, ?_, ?_, ?_⟩
          · intro e he
            simp only [List.mem_singleton] at he
            subst he
            exact hsafe
          · simp [grownAt, growthAt, hle]
          · intro h hh
            simp only [List.mem_singleton] at hh
            subst hh
            exact hcap
          · simp only [growthAt, PyErr_NoMemory]
            simp
            omega
          · intro _; simp [PyMem_Free, h4]
          · intro b hb; simp at hb
        · simp only [h1]
          have hcast : castInt (acc.length + 2) = ((acc.length + 2 : Nat) : Int) :=
            castInt_of_le _ hle
          rw [hcast]
          have hpr : List.take (acc.length + (acc.length + 2)) p.mem
              = acc ++ 0 :: List.take (acc.length + 1) t := by
            rw [hp, List.take_append_eq_append_take]
            have e1 : acc.length + (acc.length + 2) - acc.length = (acc.length + 1) + 1 := by
              omega
            rw [e1, List.take_of_length_le (by omega), List.take_succ_cons]
          generalize hm : my_fgets x w _ _ acc.length _ fp = m
          obtain ⟨-, hlive, buf1, d1, ⟨hcap1, htake, -, j, hd1⟩, hcase⟩ :=
            my_fgets_spec _ _ _ _ _ _ _ m (by simp only [hpr]; simp) hm
          simp only [hpr] at htake
          simp only [] at hcap1
          rw [List.take_left] at htake
          obtain ⟨q, hq1, hq2⟩ := my_fgets_quiet _ _ _ _ _ _ _ m hm
          simp only [] at hlive hq1
          rw [h3] at hq1
          rw [h4] at hlive
          obtain ⟨qs, qg, qr⟩ := quiet_safe q hq2
          have hread : SafeEv (Ev.read (acc.length + (acc.length + 2)) acc.length
              (acc.length + 2) ((acc.length + 2 : Nat) : Int)) :=
            ⟨by omega, by omega, hle, rfl⟩
          have hnew : ∀ e ∈ [Ev.grow acc.length (acc.length + 2),
              Ev.read (acc.length + (acc.length + 2)) acc.length (acc.length + 2)
                ((acc.length + 2 : Nat) : Int)] ++ q, SafeEv e := by
            intro e he
            rcases List.mem_append.1 he with h | h
            · simp only [List.mem_cons, List.mem_singleton, List.not_mem_nil, or_false] at h
              rcases h with rfl | rfl
              · exact hsafe
              · exact hread
            · exact qs e h
          have hshape : ∀ cap off size len, Ev.read cap off size len ∈
              [Ev.grow acc.length (acc.length + 2),
                Ev.read (acc.length + (acc.length + 2)) acc.length (acc.length + 2)
                  ((acc.length + 2 : Nat) : Int)] ++ q →
              size = off + 2 ∧ cap = 2 * off + 2 := by
            intro cap off size len he
            rcases List.mem_append.1 he with h | h
            · simp only [List.mem_cons, List.mem_singleton, List.not_mem_nil, or_false] at h
              rcases h with h | h
              · cases h
              · cases h
                exact ⟨rfl, by omega⟩
            · exact absurd h (qr _ _ _ _)
          have hgrown : grownAt ([Ev.grow acc.length (acc.length + 2),
              Ev.read (acc.length + (acc.length + 2)) acc.length (acc.length + 2)
                ((acc.length + 2 : Nat) : Int)] ++ q) = [acc.length] := by
            rw [grownAt_append, qg]
            simp [grownAt]
          have htrace : m.sys.trace = sys.trace ++
              ([Ev.grow acc.length (acc.length + 2),
                Ev.read (acc.length + (acc.length + 2)) acc.length (acc.length + 2)
                  ((acc.length + 2 : Nat) : Int)] ++ q) := by
            rw [hq1]; simp
          rcases hcase with ⟨h0, -, hbuf, hdata, hne⟩ | ⟨hcode, hbuf, -⟩
          · have h0' : ¬ m.code ≠ 0 := by simp [h0]
            simp only [if_neg h0']
            have hk : (((acc.length + 2 : Nat) : Int) - 1).toNat = acc.length + 1 := by omega
            rw [hk] at hbuf hdata hne
            have hne' : readLine (acc.length + 1) d1 ≠ [] := by
              rcases hne with h | h
              · exact h
              · omega
            obtain ⟨a, t2, e1, e2, e3, e4, -⟩ :=
              growth_read_ok acc buf1.mem (readLine (acc.length + 1) d1) htake
            have hmem : m.buf.mem = (acc ++ a) ++ 0 :: t2 := by rw [hbuf]; exact e1
            have hmcap : m.buf.cap = acc.length + (acc.length + 2) := by
              rw [hbuf]; exact hcap1
            have hlen := readLine_length_le (acc.length + 1) d1
            have hs : strlen (m.buf.mem.drop acc.length) = a.length := by rw [hbuf]; exact e4
            rw [hs]
            have hmod3 : (acc.length + a.length) % SIZE_MOD = acc.length + a.length :=
              Nat.mod_eq_of_lt (by unfold INT_MAX at hn ho; unfold SIZE_MOD; omega)
            rw [hmod3]
            have hl : (acc ++ a).length = acc.length + a.length := by simp
            rw [← hl]
            obtain ⟨r, new2, hr1, hr2, hr3, hr4, hr5, hr6, hr7, hr8, hr9⟩ :=
              ih m.w m.sys m.fp m.buf (acc ++ a) t2
                (by
                  have hdl : d1.length ≤ fp.data.length := by
                    rw [hd1, List.length_drop]; omega
                  have hle2 := readLine_length_le_data (acc.length + 1) d1
                  have hpos : 0 < (readLine (acc.length + 1) d1).length :=
                    List.length_pos.2 hne'
                  rw [hdata, List.length_drop]
                  omega)
                hmem
                (by
                  intro c hc
                  rcases List.mem_append.1 hc with h | h
                  · exact hnul c h
                  · exact e2 c h)
                (by rw [hl]; unfold INT_MAX at ho ⊢; omega)
                (by rw [hl, hmcap]; omega)
            refine ⟨r, ([Ev.grow acc.length (acc.length + 2),
                Ev.read (acc.length + (acc.length + 2)) acc.length (acc.length + 2)
                  ((acc.length + 2 : Nat) : Int)] ++ q) ++ new2, hr1, ?_, ?_, ?_, ?_, ?_,
                ?_, ?_, ?_⟩
            · rw [hr2, htrace, List.append_assoc]
            · intro e he
              rcases List.mem_append.1 he with h | h
              · exact hnew e h
              · exact hr3 e h
            · intro cap off size len he
              rcases List.mem_append.1 he with h | h
              · exact hshape _ _ _ _ h
              · exact hr4 _ _ _ _ h
            · rw [grownAt_append, hgrown, hr5]
              simp [growthAt, hle]
            · intro h hh
              rcases List.mem_cons.1 hh with rfl | hh
              · exact hcap
              · exact hr6 h hh
            · rw [hr7]
              simp only [growthAt, List.filter_cons, List.map_cons]
              simp
              intro hbad
              omega
            · intro hnone
              rw [hr8 hnone, hlive]
            · intro b hb
              obtain ⟨hl1, n2, cap2, hb1, hb2, hb3, hb4⟩ := hr9 b hb
              exact ⟨by rw [hl1, hlive], n2, cap2, hb1, hb2, hb3,
                getLast?_cons_of_some _ _ _ hb4⟩
          · have h0' : m.code ≠ 0 := by rcases hcode with h | h <;> simp [h]
            simp only [if_pos h0']
            have hmcap : m.buf.cap = acc.length + (acc.length + 2) := by
              rw [hbuf]; exact hcap1
            obtain ⟨f1, f2, f3⟩ := readline_finish_audit m.w m.sys m.fp m.buf acc.length hsz
            refine ⟨_, [Ev.grow acc.length (acc.length + 2),
                Ev.read (acc.length + (acc.length + 2)) acc.length (acc.length + 2)
                  ((acc.length + 2 : Nat) : Int)] ++ q, rfl, ?_, hnew, hshape, ?_, ?_,
                ?_, ?_, ?_⟩
            · rw [f1, htrace]
            · rw [hgrown]
              simp [growthAt, hle]
            · intro h hh
              simp only [List.mem_cons, List.mem_singleton, List.not_mem_nil, or_false] at hh
              rcases hh with rfl | rfl
              · exact hcap
              · simp only [hmcap]; omega
            · constructor
              · rintro ⟨hnone, hexc⟩
                rw [(f2 hnone).1] at hexc
                simp at hexc
              · simp only [growthAt]
                simp
                omega
            · intro hnone
              rw [(f2 hnone).2, hlive]
            · intro b hb
              obtain ⟨g1, g2⟩ := f3 b hb
              refine ⟨by rw [g2, hlive], acc.length, m.buf.cap, by rw [g1], ?_,
                by rw [hmcap]; omega, by simp⟩
              rw [g1]
              simp only [List.length_take]
              omega
    · simp only [if_neg hc]
      obtain ⟨f1, f2, f3⟩ := readline_finish_audit w sys fp p acc.length hsz
      refine ⟨_, [], rfl, by simp [f1], by simp, by simp, ?_, ?_, ?_, fun hnone => (f2 hnone).2, ?_⟩
      · simp [grownAt, growthAt]
      · intro h hh
        simp only [List.mem_singleton] at hh
        subst hh
        exact hcap
      · constructor
        · rintro ⟨hnone, hexc⟩
          rw [(f2 hnone).1] at hexc
          simp at hexc
        · simp [growthAt]
      · intro b hb
        obtain ⟨g1, g2⟩ := f3 b hb
        refine ⟨g2, acc.length, p.cap, by rw [g1], ?_, hcap, by simp⟩
        rw [g1]
        simp only [List.length_take]
        omega

theorem PyMem_Malloc_live (sys : Sys) (size : Nat) :
    ∃ sys1, (PyMem_Malloc sys size = (none, sys1) ∧ sys1.live = sys.live ∨
        PyMem_Malloc sys size = (some ⟨size, []⟩, sys1) ∧ sys1.live = sys.live + 1) ∧
      sys1.trace = sys.trace := by
  unfold PyMem_Malloc
  cases h : sys.allocs with
  | nil => exact ⟨_, Or.inr ⟨rfl, rfl⟩, rfl⟩
  | cons b rest =>
    cases b with
    | true => exact ⟨_, Or.inr ⟨rfl, rfl⟩, rfl⟩
    | false => exact ⟨_, Or.inl ⟨rfl, rfl⟩, rfl⟩

/-- The reader `PyOS_StdioReadline`, pass by pass: it returns, and the trace entries it
adds, the arrivals at the test of its loop, the length error and the returned block are
as the loop leaves them. -/
theorem PyOS_StdioReadline_audit (x : Callbacks) (w : World) (sys : Sys)
    (sys_stdin sys_stdout : FILE) (prompt : Option (List Nat)) :
    ∃ r new, PyOS_StdioReadline x w sys sys_stdin sys_stdout prompt = some r ∧
      r.sys.trace = sys.trace ++ new ∧
      (∀ e ∈ new, SafeEv e) ∧
      (∀ cap off size len, Ev.read cap off size len ∈ new →
        (off = 0 ∧ size = 100 ∧ cap = 100) ∨ (size = off + 2 ∧ cap = 2 * off + 2)) ∧
      grownAt new = (growthAt (readlineHeads x w sys sys_stdin prompt)).filter
        (fun n => n + 2 ≤ INT_MAX) ∧
      (∀ h ∈ readlineHeads x w sys sys_stdin prompt, h.n < h.cap) ∧
      ((r.rv = none ∧ r.w.curexc = some (PyErr.OverflowError "input line too long")) ↔
        ∃ n ∈ growthAt (readlineHeads x w sys sys_stdin prompt), INT_MAX < n + 2) ∧
      (r.rv = none → r.sys.live = sys.live) ∧
      (∀ b, r.rv = some b → r.sys.live = sys.live + 1 ∧
        ∃ n cap, b.cap = n + 1 ∧ b.mem.length ≤ n + 1 ∧ n < cap ∧
          (readlineHeads x w sys sys_stdin prompt).getLast? = some ⟨n, cap, false⟩) := by
  unfold PyOS_StdioReadline readlineHeads
  obtain ⟨sys1, h1, h3⟩ := PyMem_Malloc_live sys 100
  simp only []
  rcases h1 with ⟨h1, h4⟩ | ⟨h1, h4⟩
  · simp only [h1]
    refine ⟨_, [], rfl, by simp [h3], by simp, by simp, by simp [grownAt, growthAt],
      by simp, ?_, fun _ => h4, ?_⟩
    · simp [growthAt, PyErr_NoMemory]
    · intro b hb; simp at hb
  · simp only [h1, castInt_100]
    generalize hm : my_fgets x _ _ _ 0 100 sys_stdin = m
    obtain ⟨-, hlive, buf1, d1, ⟨hcap1, -, -, j, hd1⟩, hcase⟩ :=
      my_fgets_spec _ _ _ _ _ _ _ m (Nat.zero_le _) hm
    simp only [] at hcap1
    have hdl : d1.length ≤ sys_stdin.data.length := by
      rw [hd1, List.length_drop]; omega
    obtain ⟨q, hq1, hq2⟩ := my_fgets_quiet _ _ _ _ _ _ _ m hm
    simp only [] at hlive hq1
    rw [h3] at hq1
    rw [h4] at hlive
    obtain ⟨qs, qg, qr⟩ := quiet_safe q hq2
    have hread : SafeEv (Ev.read 100 0 100 100) := by
      refine ⟨by omega, by omega, by unfold INT_MAX; omega, rfl⟩
    have hnew : ∀ e ∈ [Ev.read 100 0 100 100] ++ q, SafeEv e := by
      intro e he
      rcases List.mem_append.1 he with h | h
      · simp only [List.mem_singleton] at h
        subst h
        exact hread
      · exact qs e h
    have hshape : ∀ cap off size len, Ev.read cap off size len ∈ [Ev.read 100 0 100 100] ++ q →
        (off = 0 ∧ size = 100 ∧ cap = 100) ∨ (size = off + 2 ∧ cap = 2 * off + 2) := by
      intro cap off size len he
      rcases List.mem_append.1 he with h | h
      · simp only [List.mem_singleton] at h
        cases h
        exact Or.inl ⟨rfl, rfl, rfl⟩
      · exact absurd h (qr _ _ _ _)
    have hgrown : grownAt ([Ev.read 100 0 100 100] ++ q) = [] := by
      rw [grownAt_append, qg]
      simp [grownAt]
    have htrace : m.sys.trace = sys.trace ++ ([Ev.read 100 0 100 100] ++ q) := by
      rw [hq1]; simp
    have hmain : ∀ (p : Block) (acc t : List Nat), p.mem = acc ++ 0 :: t →
        (∀ c ∈ acc, c ≠ 0) → acc.length ≤ 99 → p.cap = 100 → m.fp.data.length ≤ sys_stdin.data.length →
        ∃ r new, readline_loop x (sys_stdin.data.length + 1) m.w m.sys m.fp p acc.length = some r ∧
          r.sys.trace = sys.trace ++ new ∧
          (∀ e ∈ new, SafeEv e) ∧
          (∀ cap off size len, Ev.read cap off size len ∈ new →
            (off = 0 ∧ size = 100 ∧ cap = 100) ∨ (size = off + 2 ∧ cap = 2 * off + 2)) ∧
          grownAt new = (growthAt (loopHeads x (sys_stdin.data.length + 1) m.w m.sys m.fp p
            acc.length)).filter (fun n => n + 2 ≤ INT_MAX) ∧
          (∀ h ∈ loopHeads x (sys_stdin.data.length + 1) m.w m.sys m.fp p acc.length,
            h.n < h.cap) ∧
          ((r.rv = none ∧ r.w.curexc = some (PyErr.OverflowError "input line too long")) ↔
            ∃ n ∈ growthAt (loopHeads x (sys_stdin.data.length + 1) m.w m.sys m.fp p
              acc.length), INT_MAX < n + 2) ∧
          (r.rv = none → r.sys.live = sys.live) ∧
          (∀ b, r.rv = some b → r.sys.live = sys.live + 1 ∧
            ∃ n cap, b.cap = n + 1 ∧ b.mem.length ≤ n + 1 ∧ n < cap ∧
              (loopHeads x (sys_stdin.data.length + 1) m.w m.sys m.fp p acc.length).getLast?
                = some ⟨n, cap, false⟩) := by
      intro p acc t hp hnul hacc hpc hdata
      obtain ⟨r, new2, hr1, hr2, hr3, hr4, hr5, hr6, hr7, hr8, hr9⟩ :=
        readline_loop_audit x (sys_stdin.data.length + 1) m.w m.sys m.fp p acc t
          (by omega) hp hnul (by unfold INT_MAX; omega) (by omega)
      refine ⟨r, ([Ev.read 100 0 100 100] ++ q) ++ new2, hr1, ?_, ?_, ?_, ?_, hr6, hr7,
        ?_, ?_⟩
      · rw [hr2, htrace, List.append_assoc]
      · intro e he
        rcases List.mem_append.1 he with h | h
        · exact hnew e h
        · exact hr3 e h
      · intro cap off size len he
        rcases List.mem_append.1 he with h | h
        · exact hshape _ _ _ _ h
        · exact Or.inr (hr4 _ _ _ _ h)
      · rw [grownAt_append, hgrown, hr5]
        simp
      · intro hnone
        rw [hr8 hnone, hlive]
        omega
      · intro b hb
        obtain ⟨hl1, rest⟩ := hr9 b hb
        exact ⟨by rw [hl1, hlive], rest⟩
    rcases hcase with ⟨h0, -, hbuf, hdata, -⟩ | ⟨hcode, hbuf, hdata⟩
    · simp only [if_pos h0]
      have hk : ((100 : Int) - 1).toNat = 99 := by decide
      rw [hk] at hbuf hdata
      obtain ⟨a, t2, e1, e2, e3, e4, -⟩ :=
        growth_read_ok [] buf1.mem (readLine 99 d1) (by simp)
      simp only [List.length_nil, List.nil_append, List.drop_zero] at e1 e4
      have hmem : m.buf.mem = a ++ 0 :: t2 := by rw [hbuf]; exact e1
      have hs : strlen m.buf.mem = a.length := by rw [hbuf]; exact e4
      rw [hs]
      have hlen := readLine_length_le 99 d1
      exact hmain m.buf a t2 hmem e2 (by omega) (by rw [hbuf]; exact hcap1)
        (by rw [hdata, List.length_drop]; omega)
    · have h0 : ¬ m.code = 0 := by rcases hcode with h | h <;> simp [h]
      have h1 : ¬ m.code = 1 := by rcases hcode with h | h <;> simp [h]
      simp only [if_neg h0, if_neg h1]
      have hmem : store m.buf.mem 0 [0] = ([] : List Nat) ++ 0 :: m.buf.mem.drop 1 := by
        simp [store]
      have hs : strlen (store m.buf.mem 0 [0]) = ([] : List Nat).length := by
        rw [hmem]; simp [strlen]
      rw [hs]
      exact hmain { m.buf with mem := store m.buf.mem 0 [0] } [] (m.buf.mem.drop 1) hmem
        (by simp) (by simp) (by rw [hbuf]; exact hcap1) (by rw [hdata]; exact hdl)

/-- C15: a call of `PyOS_StdioReadline` returns, and it fails with the line-too-long error
(NULL with OverflowError "input line too long") exactly when one of its arrivals at the
loop test asks for growth (content not empty and not ending in a line feed) at a content
length `n` with `n + 2 > INT_MAX`; at every arrival that asks for growth at a smaller `n`
the growth step is taken, in order. A call that returns NULL has released its buffer. -/
theorem C15_line_too_long_iff_growth_needed_beyond_INT_MAX (x : Callbacks) (w : World)
    (sys : Sys) (sys_stdin sys_stdout : FILE) (prompt : Option (List Nat)) :
    ∃ r new, PyOS_StdioReadline x w sys sys_stdin sys_stdout prompt = some r ∧
      r.sys.trace = sys.trace ++ new ∧
      ((r.rv = none ∧ r.w.curexc = some (PyErr.OverflowError "input line too long")) ↔
        ∃ n ∈ growthAt (readlineHeads x w sys sys_stdin prompt), INT_MAX < n + 2) ∧
      grownAt new = (growthAt (readlineHeads x w sys sys_stdin prompt)).filter
        (fun n => n + 2 ≤ INT_MAX) ∧
      (r.rv = none → r.sys.live = sys.live) := by
  obtain ⟨r, new, h1, h2, -, -, h5, -, h7, h8, -⟩ :=
    PyOS_StdioReadline_audit x w sys sys_stdin sys_stdout prompt
  exact ⟨r, new, h1, h2, h7, h5, h8⟩

/-- C18 fails on the code in its last part. What holds for every call of
`PyOS_StdioReadline`: it returns, and every read it issues lies inside the block it reads
into (100 bytes at offset 0 of the first block of 100, then `n + 2` bytes at offset `n`
of a block of exactly `2 * n + 2`), the length is at most `INT_MAX`, so the cast to
`int` keeps it, `n + incr` does not wrap, the content length is below the capacity at
every arrival at the loop test, and a returned block has `n + 1` bytes for the last such
`n`; when no failing read has taken bytes the block holds the content and its NUL. What
fails: with 99 bytes "a" and more bytes behind them, and the growth read failing with
errno 5 (EIO) after it has taken 5 bytes, the byte at offset `n` is no longer the NUL and
the block of 100 bytes that is returned, with no exception set, holds no NUL at all. -/
theorem C18_failed_growth_read_returns_block_without_NUL :
    (∀ (x : Callbacks) (w : World) (sys : Sys) (sys_stdin sys_stdout : FILE)
        (prompt : Option (List Nat)),
      ∃ r new, PyOS_StdioReadline x w sys sys_stdin sys_stdout prompt = some r ∧
        r.sys.trace = sys.trace ++ new ∧
        (∀ e ∈ new, SafeEv e) ∧
        (∀ cap off size len, Ev.read cap off size len ∈ new →
          (off = 0 ∧ size = 100 ∧ cap = 100) ∨ (size = off + 2 ∧ cap = 2 * off + 2)) ∧
        (∀ h ∈ readlineHeads x w sys sys_stdin prompt, h.n < h.cap) ∧
        (∀ b, r.rv = some b →
          ∃ n cap, b.cap = n + 1 ∧ b.mem.length ≤ n + 1 ∧ n < cap ∧
            (readlineHeads x w sys sys_stdin prompt).getLast? = some ⟨n, cap, false⟩) ∧
        (CleanFaults sys.reads → ∀ b, r.rv = some b →
          ∃ a, b = ⟨a.length + 1, a ++ [0]⟩ ∧ (∀ c ∈ a, c ≠ 0))) ∧
    (∃ r b, PyOS_StdioReadline idleCallbacks readingWorld
        { calmSys with reads := [ReadEvent.ok, ReadEvent.fail 5 false 5] }
        (pipe (List.replicate 99 97 ++ List.replicate 10 98 ++ [10])) (pipe []) none
          = some r ∧
      r.rv = some b ∧ b = ⟨100, List.replicate 99 97 ++ [98]⟩ ∧ 0 ∉ b.mem ∧
      strlen b.mem = b.cap ∧ r.w.curexc = none ∧
      r.fp.data = List.replicate 5 98 ++ [10]) := by
  constructor
  · intro x w sys sys_stdin sys_stdout prompt
    obtain ⟨r, new, h1, h2, h3, h4, -, h6, -, -, h9⟩ :=
      PyOS_StdioReadline_audit x w sys sys_stdin sys_stdout prompt
    obtain ⟨r2, hr2, -, hclean⟩ :=
      PyOS_StdioReadline_total x w sys sys_stdin sys_stdout prompt
    rw [h1] at hr2
    cases hr2
    refine ⟨r, new, h1, h2, h3, h4, h6, fun b hb => (h9 b hb).2, ?_⟩
    intro hcl b hb
    obtain ⟨a, ha, hnul, -⟩ := hclean hcl b hb
    exact ⟨a, ha, hnul⟩
  · exact ⟨_, _, rfl, rfl, by decide, by decide, by decide, by decide, by decide⟩

/-! ## Who writes `PyOS_ReadlineFunctionPointer` -/

theorem attempt_pointer (x : Callbacks)
    (hhook : ∀ a w2, (x.hook a w2).2.PyOS_ReadlineFunctionPointer
      = w2.PyOS_ReadlineFunctionPointer)
    (ev : ReadEvent) (w : World) (tr : List Ev) (buf : Block) (off : Nat) (len : Int)
    (fp : FILE) :
    (attempt x ev w tr buf off len fp).2.1.PyOS_ReadlineFunctionPointer
      = w.PyOS_ReadlineFunctionPointer := by
  unfold attempt
  cases h : w.PyOS_InputHook with
  | none => simp
  | some a => simp [hhook a w]

theorem my_fgets_loop_pointer (x : Callbacks)
    (hhook : ∀ a w2, (x.hook a w2).2.PyOS_ReadlineFunctionPointer
      = w2.PyOS_ReadlineFunctionPointer)
    (off : Nat) (len : Int) (reads : List ReadEvent) :
    ∀ (w : World) (tr : List Ev) (buf : Block) (fp : FILE),
    (my_fgets_loop x off len reads w tr buf fp).w.PyOS_ReadlineFunctionPointer
      = w.PyOS_ReadlineFunctionPointer := by
  induction reads with
  | nil =>
    intro w tr buf fp
    have := attempt_pointer x hhook ReadEvent.ok w tr buf off len fp
    simp only [my_fgets_loop]
    split
    · exact this
    · split <;> exact this
  | cons ev rest ih =>
    intro w tr buf fp
    have := attempt_pointer x hhook ev w tr buf off len fp
    simp only [my_fgets_loop]
    split
    · exact this
    · split
      · exact this
      · split
        · have hs : ¬ ((0 : Int) < 0) := by decide
          rw [if_neg hs, ih, this]
        · exact this

theorem my_fgets_pointer (x : Callbacks)
    (hhook : ∀ a w2, (x.hook a w2).2.PyOS_ReadlineFunctionPointer
      = w2.PyOS_ReadlineFunctionPointer)
    (w : World) (sys : Sys) (buf : Block) (off : Nat) (len : Int) (fp : FILE) (m : ReadRet)
    (hm : my_fgets x w sys buf off len fp = m) :
    m.w.PyOS_ReadlineFunctionPointer = w.PyOS_ReadlineFunctionPointer := by
  subst hm
  exact my_fgets_loop_pointer x hhook off len sys.reads w sys.trace buf fp

theorem readline_finish_pointer (w : World) (sys : Sys) (fp : FILE) (p : Block) (n : Nat) :
    (readline_finish w sys fp p n).w.PyOS_ReadlineFunctionPointer
      = w.PyOS_ReadlineFunctionPointer := by
  obtain ⟨sys1, h1, -⟩ := PyMem_Realloc_cases sys p ((n + 1) % SIZE_MOD)
  unfold readline_finish
  rcases h1 with h1 | h1
  · rw [h1]; simp [PyErr_NoMemory]
  · rw [h1]

/-- The loop of `PyOS_StdioReadline` does not assign the backend pointer. -/
theorem readline_loop_pointer (x : Callbacks)
    (hhook : ∀ a w2, (x.hook a w2).2.PyOS_ReadlineFunctionPointer
      = w2.PyOS_ReadlineFunctionPointer) :
    ∀ (fuel : Nat) (w : World) (sys : Sys) (fp : FILE) (p : Block) (n : Nat) (r : Ret),
    readline_loop x fuel w sys fp p n = some r →
    r.w.PyOS_ReadlineFunctionPointer = w.PyOS_ReadlineFunctionPointer := by
  intro fuel
  induction fuel with
  | zero => intro w sys fp p n r h; simp [readline_loop] at h
  | succ fuel ih =>
    intro w sys fp p n r h
    rw [readline_loop] at h
    split at h
    · simp only [] at h
      split at h
      · simp only [Option.some.injEq] at h
        subst h
        simp [PyErr_SetString]
      · obtain ⟨sys1, h1, -⟩ := PyMem_Realloc_cases
          { sys with trace := sys.trace ++ [Ev.grow n ((n + 2) % SIZE_MOD)] } p
          ((n + (n + 2) % SIZE_MOD) % SIZE_MOD)
        rcases h1 with h1 | h1
        · rw [h1] at h
          simp only [Option.some.injEq] at h
          subst h
          simp [PyErr_NoMemory]
        · rw [h1] at h
          simp only [] at h
          generalize hm : my_fgets x w _ _ n _ fp = m at h
          have ht := my_fgets_pointer x hhook _ _ _ _ _ _ m hm
          split at h
          · simp only [Option.some.injEq] at h
            subst h
            rw [readline_finish_pointer, ht]
          · rw [ih _ _ _ _ _ r h, ht]
    · simp only [Option.some.injEq] at h
      subst h
      rw [readline_finish_pointer]

/-- The built-in reader `PyOS_StdioReadline` does not assign the backend pointer. -/
theorem PyOS_StdioReadline_pointer (x : Callbacks)
    (hhook : ∀ a w2, (x.hook a w2).2.PyOS_ReadlineFunctionPointer
      = w2.PyOS_ReadlineFunctionPointer)
    (w : World) (sys : Sys) (sys_stdin sys_stdout : FILE) (prompt : Option (List Nat))
    (r : Ret) (h : PyOS_StdioReadline x w sys sys_stdin sys_stdout prompt = some r) :
    r.w.PyOS_ReadlineFunctionPointer = w.PyOS_ReadlineFunctionPointer := by
  unfold PyOS_StdioReadline at h
  obtain ⟨sys1, h1, -⟩ := PyMem_Malloc_cases sys 100
  simp only [] at h
  rcases h1 with h1 | h1
  · rw [h1] at h
    simp only [Option.some.injEq] at h
    subst h
    simp [PyErr_NoMemory]
  · rw [h1] at h
    simp only [] at h
    generalize hm : my_fgets x _ _ _ 0 _ sys_stdin = m at h
    have ht := my_fgets_pointer x hhook _ _ _ _ _ _ m hm
    have hw : m.w.PyOS_ReadlineFunctionPointer = w.PyOS_ReadlineFunctionPointer := by
      rw [ht]
      cases prompt <;> rfl
    split at h
    · rw [readline_loop_pointer x hhook _ _ _ _ _ _ r h, hw]
    · split at h
      · simp only [Option.some.injEq] at h
        subst h
        exact hw
      · rw [readline_loop_pointer x hhook _ _ _ _ _ _ r h, hw]

theorem callBackend_pointer (x : Callbacks)
    (hhook : ∀ a w2, (x.hook a w2).2.PyOS_ReadlineFunctionPointer
      = w2.PyOS_ReadlineFunctionPointer)
    (hback : ∀ a w2 i o p, (x.backend a w2 i o p).w.PyOS_ReadlineFunctionPointer
      = w2.PyOS_ReadlineFunctionPointer)
    (f : FnPtr) (w : World) (sys : Sys) (sys_stdin sys_stdout : FILE)
    (prompt : Option (List Nat)) (b : Ret)
    (h : callBackend x f w sys sys_stdin sys_stdout prompt = some b) :
    b.w.PyOS_ReadlineFunctionPointer = w.PyOS_ReadlineFunctionPointer := by
  cases f with
  | PyOS_StdioReadline =>
    exact PyOS_StdioReadline_pointer x hhook w _ sys_stdin sys_stdout prompt b h
  | custom a =>
    simp only [callBackend, Option.some.injEq] at h
    subst h
    exact hback a w sys_stdin sys_stdout prompt

/-- Lines 172 to 187 do not assign the backend pointer. -/
theorem PyOS_Readline_tail_pointer (b : Ret) :
    (PyOS_Readline_tail b).w.PyOS_ReadlineFunctionPointer
      = b.w.PyOS_ReadlineFunctionPointer := by
  unfold PyOS_Readline_tail
  cases hrv : b.rv with
  | none => simp
  | some blk =>
    obtain ⟨sys1, h1, -⟩ := PyMem_Malloc_cases b.sys ((strlen blk.mem + 1) % SIZE_MOD)
    simp only []
    rcases h1 with h1 | h1
    · rw [h1]; simp [PyErr_NoMemory]
    · rw [h1]

/-- A call that passes the check, with a hook and backends that leave the pointer alone. -/
theorem PyOS_Readline_pointer (x : Callbacks) (t : Nat) (w : World) (sys : Sys)
    (sys_stdin sys_stdout : FILE) (prompt : Option (List Nat))
    (hg : w._PyOS_ReadlineTState ≠ some t)
    (hhook : ∀ a w2, (x.hook a w2).2.PyOS_ReadlineFunctionPointer
      = w2.PyOS_ReadlineFunctionPointer)
    (hback : ∀ a w2 i o p, (x.backend a w2 i o p).w.PyOS_ReadlineFunctionPointer
      = w2.PyOS_ReadlineFunctionPointer) :
    ∃ r, PyOS_Readline x t w sys sys_stdin sys_stdout prompt = some r ∧
      r.w._PyOS_ReadlineTState = none ∧
      r.w.PyOS_ReadlineFunctionPointer
        = some (w.PyOS_ReadlineFunctionPointer.getD FnPtr.PyOS_StdioReadline) := by
  obtain ⟨b, hb, hr⟩ := PyOS_Readline_pass x t w sys sys_stdin sys_stdout prompt hg
  refine ⟨_, hr, (PyOS_Readline_tail_spec b).1, ?_⟩
  rw [PyOS_Readline_tail_pointer, callBackend_pointer x hhook hback _ _ _ _ _ _ b hb]

/-- C17 fails on the code as stated: on two terminals with a custom backend installed
that assigns NULL to `PyOS_ReadlineFunctionPointer`, the call passes the re-entrancy check
and returns, and afterwards the pointer is NULL, not its previous value. -/
theorem C17_counterexample_backend_clears_the_pointer :
    ∃ r, PyOS_Readline forgetfulCallbacks 1 customWorld calmSys (terminal []) (terminal [])
        none = some r ∧
      customWorld._PyOS_ReadlineTState ≠ some 1 ∧
      customWorld.PyOS_ReadlineFunctionPointer = some (FnPtr.custom 7) ∧
      r.w.PyOS_ReadlineFunctionPointer = none :=
  ⟨_, rfl, by decide, rfl, rfl⟩

/-- C17, amended: a call of `PyOS_Readline` that passes the re-entrancy check returns,
and it writes the backend pointer only when it installs the default: the backend is
entered with the pointer holding its previous value if that was not NULL and
`PyOS_StdioReadline` otherwise, and lines 172 to 187 leave the pointer as the backend left
it. When the hook and the custom backends do not assign the pointer, after the call it is
not NULL, equal to its previous value if that was not NULL and to `PyOS_StdioReadline`
otherwise; an installed custom backend stays, and a second call by any thread on any
streams leaves the pointer unchanged. -/
theorem C17_lazy_installation_is_idempotent (x : Callbacks) (t : Nat) (w : World) (sys : Sys)
    (sys_stdin sys_stdout : FILE) (prompt : Option (List Nat))
    (hg : w._PyOS_ReadlineTState ≠ some t) :
    (∃ b, callBackend x
        (if sys_stdin.tty = true ∧ sys_stdout.tty = true then
          w.PyOS_ReadlineFunctionPointer.getD FnPtr.PyOS_StdioReadline
         else FnPtr.PyOS_StdioReadline)
        { w with
          PyOS_ReadlineFunctionPointer :=
            some (w.PyOS_ReadlineFunctionPointer.getD FnPtr.PyOS_StdioReadline),
          _PyOS_ReadlineTState := some t }
        sys sys_stdin sys_stdout prompt = some b ∧
      ∃ r, PyOS_Readline x t w sys sys_stdin sys_stdout prompt = some r ∧
        r.w.PyOS_ReadlineFunctionPointer = b.w.PyOS_ReadlineFunctionPointer) ∧
    ((∀ a w2, (x.hook a w2).2.PyOS_ReadlineFunctionPointer
        = w2.PyOS_ReadlineFunctionPointer) →
      (∀ a w2 i o p, (x.backend a w2 i o p).w.PyOS_ReadlineFunctionPointer
        = w2.PyOS_ReadlineFunctionPointer) →
      ∃ r, PyOS_Readline x t w sys sys_stdin sys_stdout prompt = some r ∧
        r.w.PyOS_ReadlineFunctionPointer ≠ none ∧
        (∀ f, w.PyOS_ReadlineFunctionPointer = some f →
          r.w.PyOS_ReadlineFunctionPointer = some f) ∧
        (w.PyOS_ReadlineFunctionPointer = none →
          r.w.PyOS_ReadlineFunctionPointer = some FnPtr.PyOS_StdioReadline) ∧
        (∀ a, w.PyOS_ReadlineFunctionPointer = some (FnPtr.custom a) →
          r.w.PyOS_ReadlineFunctionPointer = some (FnPtr.custom a)) ∧
        ∀ (t2 : Nat) (sys2 : Sys) (in2 out2 : FILE) (prompt2 : Option (List Nat)),
          ∃ r2, PyOS_Readline x t2 r.w sys2 in2 out2 prompt2 = some r2 ∧
            r2.w.PyOS_ReadlineFunctionPointer = r.w.PyOS_ReadlineFunctionPointer) := by
  constructor
  · obtain ⟨b, hb, hr⟩ := PyOS_Readline_pass x t w sys sys_stdin sys_stdout prompt hg
    exact ⟨b, hb, _, hr, PyOS_Readline_tail_pointer b⟩
  · intro hhook hback
    obtain ⟨r, hr, hguard, hptr⟩ :=
      PyOS_Readline_pointer x t w sys sys_stdin sys_stdout prompt hg hhook hback
    refine ⟨r, hr, ?_, ?_, ?_, ?_, ?_⟩
    · rw [hptr]; simp
    · intro f hf
      rw [hptr, hf]; rfl
    · intro hnone
      rw [hptr, hnone]; rfl
    · intro a ha
      rw [hptr, ha]; rfl
    · intro t2 sys2 in2 out2 prompt2
      obtain ⟨r2, hr2, -, hptr2⟩ :=
        PyOS_Readline_pointer x t2 r.w sys2 in2 out2 prompt2
          (by rw [hguard]; simp) hhook hback
      refine ⟨r2, hr2, ?_⟩
      rw [hptr2, hptr]; rfl

/-- C17 at a first call with no backend installed, and at a call with the custom backend
at address 7 installed on two terminals: the first installs `PyOS_StdioReadline`, the
second keeps the custom backend, and later calls change neither. -/
theorem C17_witness_first_call_and_custom_backend :
    freshWorld._PyOS_ReadlineTState ≠ some 1 ∧
    (∃ r, PyOS_Readline idleCallbacks 1 freshWorld calmSys (pipe [104, 105, 10]) (pipe [])
        none = some r ∧
      r.w.PyOS_ReadlineFunctionPointer = some FnPtr.PyOS_StdioReadline ∧
      ∀ (t2 : Nat) (sys2 : Sys) (in2 out2 : FILE) (prompt2 : Option (List Nat)),
        ∃ r2, PyOS_Readline idleCallbacks t2 r.w sys2 in2 out2 prompt2 = some r2 ∧
          r2.w.PyOS_ReadlineFunctionPointer = r.w.PyOS_ReadlineFunctionPointer) ∧
    customWorld._PyOS_ReadlineTState ≠ some 1 ∧
    (∃ r, PyOS_Readline echoCallbacks 1 customWorld calmSys (terminal [104, 105, 10])
        (terminal []) none = some r ∧
      r.w.PyOS_ReadlineFunctionPointer = some (FnPtr.custom 7) ∧
      ∀ (t2 : Nat) (sys2 : Sys) (in2 out2 : FILE) (prompt2 : Option (List Nat)),
        ∃ r2, PyOS_Readline echoCallbacks t2 r.w sys2 in2 out2 prompt2 = some r2 ∧
          r2.w.PyOS_ReadlineFunctionPointer = r.w.PyOS_ReadlineFunctionPointer) := by
  refine ⟨by decide, ?_, by decide, ?_⟩
  · obtain ⟨r, h1, -, -, h4, -, h6⟩ :=
      (C17_lazy_installation_is_idempotent idleCallbacks 1 freshWorld calmSys
        (pipe [104, 105, 10]) (pipe []) none (by decide)).2
        (fun _ _ => rfl) (fun _ _ _ _ _ => rfl)
    exact ⟨r, h1, h4 rfl, h6⟩
  · obtain ⟨r, h1, -, -, -, h5, h6⟩ :=
      (C17_lazy_installation_is_idempotent echoCallbacks 1 customWorld calmSys
        (terminal [104, 105, 10]) (terminal []) none (by decide)).2
        (fun _ _ => rfl) (fun _ _ _ _ _ => rfl)
    exact ⟨r, h1, h5 7 rfl, h6⟩

end Myreadline

namespace Initconfig

/-! ## The variants of a status -/

/-- C13: each status built by `_PyStatus_OK ()`, `_PyStatus_ERR (msg)` (in any function)
or `_PyStatus_EXIT (code)` satisfies exactly one of the three tests "is OK",
`_PyStatus_IS_ERROR`, `_PyStatus_IS_EXIT`, the one of its constructor, and
`_PyStatus_EXCEPTION` holds for it exactly when it is an Error or an Exit: it is false
for the first and true for the other two. -/
theorem C13_status_has_exactly_one_variant (func : String) (msg : Option String)
    (code : Int) :
    (exactlyOne (isOK _PyStatus_OK) (_PyStatus_IS_ERROR _PyStatus_OK)
        (_PyStatus_IS_EXIT _PyStatus_OK) ∧
      isOK _PyStatus_OK = true ∧
      (_PyStatus_EXCEPTION _PyStatus_OK = true ↔
        _PyStatus_IS_ERROR _PyStatus_OK = true ∨ _PyStatus_IS_EXIT _PyStatus_OK = true) ∧
      _PyStatus_EXCEPTION _PyStatus_OK = false) ∧
    (exactlyOne (isOK (_PyStatus_ERR func msg)) (_PyStatus_IS_ERROR (_PyStatus_ERR func msg))
        (_PyStatus_IS_EXIT (_PyStatus_ERR func msg)) ∧
      _PyStatus_IS_ERROR (_PyStatus_ERR func msg) = true ∧
      (_PyStatus_EXCEPTION (_PyStatus_ERR func msg) = true ↔
        _PyStatus_IS_ERROR (_PyStatus_ERR func msg) = true ∨
          _PyStatus_IS_EXIT (_PyStatus_ERR func msg) = true) ∧
      _PyStatus_EXCEPTION (_PyStatus_ERR func msg) = true) ∧
    (exactlyOne (isOK (_PyStatus_EXIT code)) (_PyStatus_IS_ERROR (_PyStatus_EXIT code))
        (_PyStatus_IS_EXIT (_PyStatus_EXIT code)) ∧
      _PyStatus_IS_EXIT (_PyStatus_EXIT code) = true ∧
      (_PyStatus_EXCEPTION (_PyStatus_EXIT code) = true ↔
        _PyStatus_IS_ERROR (_PyStatus_EXIT code) = true ∨
          _PyStatus_IS_EXIT (_PyStatus_EXIT code) = true) ∧
      _PyStatus_EXCEPTION (_PyStatus_EXIT code) = true) ∧
    (exactlyOne (isOK (_PyStatus_NO_MEMORY func)) (_PyStatus_IS_ERROR (_PyStatus_NO_MEMORY func))
        (_PyStatus_IS_EXIT (_PyStatus_NO_MEMORY func)) ∧
      _PyStatus_IS_ERROR (_PyStatus_NO_MEMORY func) = true) := by
  refine ⟨⟨Or.inl ⟨rfl, rfl, rfl⟩, rfl, ?_, rfl⟩,
    ⟨Or.inr (Or.inl ⟨rfl, rfl, rfl⟩), rfl, ?_, rfl⟩,
    ⟨Or.inr (Or.inr ⟨rfl, rfl, rfl⟩), rfl, ?_, rfl⟩,
    ⟨Or.inr (Or.inl ⟨rfl, rfl, rfl⟩), rfl⟩⟩
  · constructor
    · intro h; exact absurd h (by decide)
    · rintro (h | h) <;> exact absurd h (by decide)
  · constructor
    · intro _; exact Or.inl rfl
    · intro _; rfl
  · constructor
    · intro _; exact Or.inr rfl
    · intro _; rfl

/-! ## The layers of the early configuration -/

/-- The scan of the arguments either sets a flag to the value of its option, whatever it
starts from, or leaves the flag as it found it. -/
theorem readPreliminary_flags : ∀ (n : Nat) (args : List String), args.length ≤ n →
    ((∀ c, (readPreliminary args c).isolated = 1) ∨
      (∀ c, (readPreliminary args c).isolated = c.isolated)) ∧
    ((∀ c, (readPreliminary args c).use_environment = 0) ∨
      (∀ c, (readPreliminary args c).use_environment = c.use_environment)) ∧
    ((∀ c, (readPreliminary args c).dev_mode = 1) ∨
      (∀ c, (readPreliminary args c).dev_mode = c.dev_mode)) := by
  intro n
  induction n with
  | zero =>
    intro args h
    have : args = [] := List.length_eq_zero.1 (Nat.le_zero.1 h)
    subst this
    exact ⟨Or.inr (fun _ => rfl), Or.inr (fun _ => rfl), Or.inr (fun _ => rfl)⟩
  | succ n ih =>
    intro args h
    match args, h with
    | [], _ => exact ⟨Or.inr (fun _ => rfl), Or.inr (fun _ => rfl), Or.inr (fun _ => rfl)⟩
    | [a], _ =>
      by_cases h1 : a = "-I"
      · subst h1
        exact ⟨Or.inl (fun _ => rfl), Or.inr (fun _ => rfl), Or.inr (fun _ => rfl)⟩
      · by_cases h2 : a = "-E"
        · subst h2
          exact ⟨Or.inr (fun _ => rfl), Or.inl (fun _ => rfl), Or.inr (fun _ => rfl)⟩
        · refine ⟨Or.inr ?_, Or.inr ?_, Or.inr ?_⟩ <;>
            (intro c; simp only [readPreliminary, if_neg h1, if_neg h2])
    | a :: v :: rest, h =>
      have hl1 : (v :: rest).length ≤ n := by simp at h ⊢; omega
      have hl2 : rest.length ≤ n := by simp at h ⊢; omega
      obtain ⟨i1, e1, d1⟩ := ih (v :: rest) hl1
      obtain ⟨i2, e2, d2⟩ := ih rest hl2
      by_cases h1 : a = "-I"
      · subst h1
        have hu : ∀ c, readPreliminary ("-I" :: v :: rest) c
            = readPreliminary (v :: rest) { c with isolated := 1 } := by
          intro c; simp only [readPreliminary, if_true]
        refine ⟨Or.inl ?_, ?_, ?_⟩
        · intro c
          rw [hu]
          rcases i1 with i1 | i1
          · exact i1 _
          · rw [i1]
        · rcases e1 with e1 | e1
          · exact Or.inl (fun c => by rw [hu]; exact e1 _)
          · exact Or.inr (fun c => by rw [hu, e1])
        · rcases d1 with d1 | d1
          · exact Or.inl (fun c => by rw [hu]; exact d1 _)
          · exact Or.inr (fun c => by rw [hu, d1])
      · by_cases h2 : a = "-E"
        · subst h2
          have hu : ∀ c, readPreliminary ("-E" :: v :: rest) c
              = readPreliminary (v :: rest) { c with use_environment := 0 } := by
            intro c; simp only [readPreliminary, if_neg h1, if_true]
          refine ⟨?_, Or.inl ?_, ?_⟩
          · rcases i1 with i1 | i1
            · exact Or.inl (fun c => by rw [hu]; exact i1 _)
            · exact Or.inr (fun c => by rw [hu, i1])
          · intro c
            rw [hu]
            rcases e1 with e1 | e1
            · exact e1 _
            · rw [e1]
          · rcases d1 with d1 | d1
            · exact Or.inl (fun c => by rw [hu]; exact d1 _)
            · exact Or.inr (fun c => by rw [hu, d1])
        · by_cases h3 : a = "-X"
          · subst h3
            have hu : ∀ c, readPreliminary ("-X" :: v :: rest) c
                = readPreliminary rest
                  { c with xoptions := c.xoptions ++ [v],
                           dev_mode := if v = "dev" then 1 else c.dev_mode } := by
              intro c; simp only [readPreliminary, if_neg h1, if_neg h2, if_true]
            refine ⟨?_, ?_, ?_⟩
            · rcases i2 with i2 | i2
              · exact Or.inl (fun c => by rw [hu]; exact i2 _)
              · exact Or.inr (fun c => by rw [hu, i2])
            · rcases e2 with e2 | e2
              · exact Or.inl (fun c => by rw [hu]; exact e2 _)
              · exact Or.inr (fun c => by rw [hu, e2])
            · rcases d2 with d2 | d2
              · exact Or.inl (fun c => by rw [hu]; exact d2 _)
              · by_cases hv : v = "dev"
                · exact Or.inl (fun c => by rw [hu, d2]; simp only [if_pos hv])
                · exact Or.inr (fun c => by rw [hu, d2]; simp only [if_neg hv])
          · have hu : ∀ c, readPreliminary (a :: v :: rest) c
                = readPreliminary (v :: rest) c := by
              intro c; simp only [readPreliminary, if_neg h1, if_neg h2, if_neg h3]
            refine ⟨?_, ?_, ?_⟩
            · rcases i1 with i1 | i1
              · exact Or.inl (fun c => by rw [hu]; exact i1 _)
              · exact Or.inr (fun c => by rw [hu, i1])
            · rcases e1 with e1 | e1
              · exact Or.inl (fun c => by rw [hu]; exact e1 _)
              · exact Or.inr (fun c => by rw [hu, e1])
            · rcases d1 with d1 | d1
              · exact Or.inl (fun c => by rw [hu]; exact d1 _)
              · exact Or.inr (fun c => by rw [hu, d1])

/-- C14: for each of the three flags `isolated`, `use_environment` and `dev_mode`, when
the command line gives the flag a value, the configuration written by
`_PyPreCmdline_SetConfig` after `_PyPreCmdline_Read` holds that value, for every
environment and every set of defaults; so two environments give the same final value. -/
theorem C14_command_line_overrides_environment (flag : Flag) (cmdline : _PyPreCmdline)
    (preconfig : PyPreConfig) (env env2 : Environment) (config : PyConfig)
    (hset : cmdlineFlag flag (givenOnCommandLine cmdline.argv) ≠ -1) :
    configFlag flag
        (_PyPreCmdline_SetConfig (_PyPreCmdline_Read cmdline preconfig env).2 config).2
      = cmdlineFlag flag (givenOnCommandLine cmdline.argv) ∧
    configFlag flag
        (_PyPreCmdline_SetConfig (_PyPreCmdline_Read cmdline preconfig env).2 config).2
      = configFlag flag
        (_PyPreCmdline_SetConfig (_PyPreCmdline_Read cmdline preconfig env2).2 config).2 := by
  have key : ∀ e : Environment, configFlag flag
        (_PyPreCmdline_SetConfig (_PyPreCmdline_Read cmdline preconfig e).2 config).2
      = cmdlineFlag flag (givenOnCommandLine cmdline.argv) := by
    intro e
    obtain ⟨hi, he, hd⟩ := readPreliminary_flags cmdline.argv.length cmdline.argv (le_refl _)
    cases flag with
    | isolated =>
      rcases hi with hi | hi
      · simp only [configFlag, cmdlineFlag, givenOnCommandLine, _PyPreCmdline_SetConfig,
          _PyPreCmdline_Read, applyArguments, finalize, hi]
        decide
      · exact absurd (by simp only [cmdlineFlag, givenOnCommandLine, hi]; rfl) hset
    | use_environment =>
      rcases he with he | he
      · simp only [configFlag, cmdlineFlag, givenOnCommandLine, _PyPreCmdline_SetConfig,
          _PyPreCmdline_Read, applyArguments, finalize, he]
        split <;> simp
      · exact absurd (by simp only [cmdlineFlag, givenOnCommandLine, he]; rfl) hset
    | dev_mode =>
      rcases hd with hd | hd
      · simp only [configFlag, cmdlineFlag, givenOnCommandLine, _PyPreCmdline_SetConfig,
          _PyPreCmdline_Read, applyArguments, finalize, hd]
        decide
      · exact absurd (by simp only [cmdlineFlag, givenOnCommandLine, hd]; rfl) hset
  exact ⟨key env, (key env).trans (key env2).symm⟩

/-- C14 at the command line `-X dev` with an environment that gives `dev_mode` the value
0 and another that gives it nothing: the final `dev_mode` is 1 both times. -/
theorem C14_witness_dev_mode_against_the_environment :
    cmdlineFlag Flag.dev_mode
        (givenOnCommandLine ({ _PyPreCmdline_INIT with argv := ["python", "-X", "dev"] } :
          _PyPreCmdline).argv) ≠ -1 ∧
    configFlag Flag.dev_mode
        (_PyPreCmdline_SetConfig (_PyPreCmdline_Read
          { _PyPreCmdline_INIT with argv := ["python", "-X", "dev"] } ⟨-1, -1, -1⟩
          ⟨0, 1, 0⟩).2 ⟨0, 0, 0⟩).2 = 1 ∧
    configFlag Flag.dev_mode
        (_PyPreCmdline_SetConfig (_PyPreCmdline_Read
          { _PyPreCmdline_INIT with argv := ["python", "-X", "dev"] } ⟨-1, -1, -1⟩
          ⟨0, 1, 0⟩).2 ⟨0, 0, 0⟩).2
      = configFlag Flag.dev_mode
        (_PyPreCmdline_SetConfig (_PyPreCmdline_Read
          { _PyPreCmdline_INIT with argv := ["python", "-X", "dev"] } ⟨-1, -1, -1⟩
          ⟨-1, -1, -1⟩).2 ⟨0, 0, 0⟩).2 :=
  ⟨by decide,
    (C14_command_line_overrides_environment Flag.dev_mode
      { _PyPreCmdline_INIT with argv := ["python", "-X", "dev"] } ⟨-1, -1, -1⟩ ⟨0, 1, 0⟩
      ⟨-1, -1, -1⟩ ⟨0, 0, 0⟩ (by decide)).1.trans (by decide),
    (C14_command_line_overrides_environment Flag.dev_mode
      { _PyPreCmdline_INIT with argv := ["python", "-X", "dev"] } ⟨-1, -1, -1⟩ ⟨0, 1, 0⟩
      ⟨-1, -1, -1⟩ ⟨0, 0, 0⟩ (by decide)).2⟩

end Initconfig

namespace Pymath

/-! ## The bit length -/

/-- The table holds the bit length of every index below 32. -/
theorem BitLengthTable_spec : ∀ i, i < 32 →
    ∃ t, BitLengthTable[i]? = some t ∧ t ≤ 5 ∧ (i = 0 → t = 0) ∧
      (0 < i → 2 ^ (t - 1) ≤ i ∧ i < 2 ^ t) := by
  decide

/-- The loop of `_Py_bit_length` with fuel for its passes: it leaves an index below 32
and has counted `6 * m` bits for the `6 * m` bits it shifted out. -/
theorem _Py_bit_length_loop_spec : ∀ (f d k : Nat), d < 32 * 64 ^ f → k + 6 * f < UINT_MOD →
    ∃ i c t, _Py_bit_length_loop (f + 1) d k = some (i, k + c) ∧ i < 32 ∧ c ≤ 6 * f ∧
      BitLengthTable[i]? = some t ∧ t ≤ 5 ∧ (d = 0 → c + t = 0) ∧
      (0 < d → 2 ^ (c + t - 1) ≤ d ∧ d < 2 ^ (c + t)) := by
  intro f
  induction f with
  | zero =>
    intro d k hd _
    have hd32 : d < 32 := by simpa using hd
    obtain ⟨t, h1, h2, h3, h4⟩ := BitLengthTable_spec d hd32
    refine ⟨d, 0, t, ?_, hd32, le_refl _, h1, h2, ?_, ?_⟩
    · have : ¬ d ≥ 32 := by omega
      simp only [_Py_bit_length_loop, if_neg this, Nat.add_zero]
    · intro h0; simpa using h3 h0
    · intro hpos; simpa using h4 hpos
  | succ f ih =>
    intro d k hd hk
    by_cases hge : d ≥ 32
    · have hmod : (k + 6) % UINT_MOD = k + 6 := Nat.mod_eq_of_lt (by omega)
      have hd2 : d / 64 < 32 * 64 ^ f := by
        rw [Nat.div_lt_iff_lt_mul (by decide)]
        calc d < 32 * 64 ^ (f + 1) := hd
          _ = 32 * 64 ^ f * 64 := by ring
      obtain ⟨i, c, t, h1, h2, h3, h4, h5, h6, h7⟩ := ih (d / 64) (k + 6) hd2 (by omega)
      refine ⟨i, 6 + c, t, ?_, h2, by omega, h4, h5, ?_, ?_⟩
      · rw [_Py_bit_length_loop, if_pos hge, hmod, h1]
        simp only [Nat.add_assoc]
      · intro h0; omega
      · intro _
        by_cases hz : d / 64 = 0
        · have hct := h6 hz
          have hc : c = 0 := by omega
          have ht : t = 0 := by omega
          subst hc; subst ht
          have hlt : d < 64 := by omega
          exact ⟨by simpa using hge, by simpa using hlt⟩
        · have hpos : 0 < d / 64 := Nat.pos_of_ne_zero hz
          obtain ⟨hlo, hhi⟩ := h7 hpos
          have hct : 1 ≤ c + t := by
            by_contra hcon
            have : c + t = 0 := by omega
            rw [this] at hhi
            simp at hhi
            omega
          have e1 : 6 + c + t - 1 = (c + t - 1) + 6 := by omega
          have e2 : 6 + c + t = (c + t) + 6 := by omega
          rw [e1, e2, pow_add, pow_add]
          have h64 : (2 : Nat) ^ 6 = 64 := by norm_num
          rw [h64]
          constructor
          · calc 2 ^ (c + t - 1) * 64 ≤ d / 64 * 64 := Nat.mul_le_mul_right _ hlo
              _ ≤ d := Nat.div_mul_le_self d 64
          · have := Nat.lt_mul_div_succ d (show 0 < 64 by decide)
            have h3 : d / 64 + 1 ≤ 2 ^ (c + t) := hhi
            calc d < 64 * (d / 64 + 1) := this
              _ ≤ 64 * 2 ^ (c + t) := Nat.mul_le_mul_left _ h3
              _ = 2 ^ (c + t) * 64 := by ring
    · have hd32 : d < 32 := by omega
      obtain ⟨t, h1, h2, h3, h4⟩ := BitLengthTable_spec d hd32
      refine ⟨d, 0, t, ?_, hd32, by omega, h1, h2, ?_, ?_⟩
      · simp only [_Py_bit_length_loop, if_neg hge, Nat.add_zero]
      · intro h0; simpa using h3 h0
      · intro hpos; simpa using h4 hpos

/-- The function `_Py_bit_length` on an `unsigned long`: it returns, through a table index
below 32, the bit length. -/
theorem _Py_bit_length_spec (d : Nat) (hd : d < ULONG_MOD) :
    ∃ i c b, _Py_bit_length_loop 64 d 0 = some (i, c) ∧ i < 32 ∧
      _Py_bit_length d = some b ∧ b ≤ 64 ∧ (d = 0 → b = 0) ∧
      (0 < d → 2 ^ (b - 1) ≤ d ∧ d < 2 ^ b) := by
  have hd2 : d < 32 * 64 ^ 63 := by
    unfold ULONG_MOD at hd
    have : (18446744073709551616 : Nat) ≤ 32 * 64 ^ 63 := by norm_num
    omega
  obtain ⟨i, c, t, h1, h2, h3, h4, h5, h6, h7⟩ :=
    _Py_bit_length_loop_spec 63 d 0 hd2 (by unfold UINT_MOD; omega)
  have hb : _Py_bit_length d = some (c + t) := by
    unfold _Py_bit_length
    rw [h1]
    simp only [Nat.zero_add, h4]
    rw [Nat.mod_eq_of_lt (by unfold UINT_MOD; omega)]
  have hle : c + t ≤ 64 := by
    by_contra hcon
    have hpos : 0 < d := by
      by_contra h0
      have := h6 (by omega)
      omega
    have hlo := (h7 hpos).1
    have : (2 : Nat) ^ 64 ≤ 2 ^ (c + t - 1) := Nat.pow_le_pow_right (by decide) (by omega)
    unfold ULONG_MOD at hd
    have h64 : (2 : Nat) ^ 64 = 18446744073709551616 := by norm_num
    omega
  refine ⟨i, 0 + c, c + t, h1, h2, hb, hle, h6, h7⟩

/-- C19: for every `unsigned long` `d` the loop of `_Py_bit_length` terminates, the table
index it ends with is below 32, and the result `b` is the bit length of `d`: 0 for 0, and
`2 ^ (b - 1) <= d < 2 ^ b` otherwise; so a larger argument never has a smaller result. -/
theorem C19_bit_length_is_the_bit_length (d : Nat) (hd : d < ULONG_MOD) :
    ∃ i c b, _Py_bit_length_loop 64 d 0 = some (i, c) ∧ i < 32 ∧
      _Py_bit_length d = some b ∧
      (d = 0 → b = 0) ∧
      (0 < d → 2 ^ (b - 1) ≤ d ∧ d < 2 ^ b) ∧
      ∀ d2, d ≤ d2 → d2 < ULONG_MOD → ∃ b2, _Py_bit_length d2 = some b2 ∧ b ≤ b2 := by
  obtain ⟨i, c, b, h1, h2, h3, -, h5, h6⟩ := _Py_bit_length_spec d hd
  refine ⟨i, c, b, h1, h2, h3, h5, h6, ?_⟩
  intro d2 hle hd2
  obtain ⟨-, -, b2, -, -, g3, -, -, g6⟩ := _Py_bit_length_spec d2 hd2
  refine ⟨b2, g3, ?_⟩
  by_cases h0 : d = 0
  · rw [h5 h0]; exact Nat.zero_le _
  · have hpos : 0 < d := Nat.pos_of_ne_zero h0
    have hlo := (h6 hpos).1
    have hhi := (g6 (by omega)).2
    have hlt : 2 ^ (b - 1) < 2 ^ b2 := by omega
    have := (Nat.pow_lt_pow_iff_right (by decide : 1 < 2)).1 hlt
    omega

/-- C19 at the largest `unsigned long`: the result is 64. -/
theorem C19_witness_largest_unsigned_long :
    18446744073709551615 < ULONG_MOD ∧
    _Py_bit_length 18446744073709551615 = some 64 ∧
    ∃ i c b, _Py_bit_length_loop 64 18446744073709551615 0 = some (i, c) ∧ i < 32 ∧
      _Py_bit_length 18446744073709551615 = some b ∧
      (18446744073709551615 = 0 → b = 0) ∧
      (0 < 18446744073709551615 → 2 ^ (b - 1) ≤ 18446744073709551615 ∧
        18446744073709551615 < 2 ^ b) ∧
      ∀ d2, 18446744073709551615 ≤ d2 → d2 < ULONG_MOD →
        ∃ b2, _Py_bit_length d2 = some b2 ∧ b ≤ b2 :=
  ⟨by decide, by decide,
    C19_bit_length_is_the_bit_length 18446744073709551615 (by decide)⟩

end Pymath
